import Mathlib

/-!
# achcop and achd: a shallow embedding

Two programs are embedded here.

* `Achcop` is the watchdog of `src/achcop.c`: its start (options, pid
  files), and the loop that forks a child, waits for a signal, reaps the
  child and either restarts it or exits.
* `Achd` is the forwarder of `src/achd.c`: the header block parser, the
  two TCP pumps, the error handlers, and the sessions of the server and
  of the client up to the call of a pump.

System calls are answered by a scripted environment: every call that
returns something the program did not decide itself (`fork`, `wait`,
`kill`, signal delivery, `open`, `ach_open`, `connect`, `ach_get`,
`fwrite`, `ach_put`) takes its answer from a script or a parameter, and
every function of the embedding returns the events it caused together
with its result.  When a script runs dry while the program
is blocked in such a call, the outcome is `running`.
-/

namespace Achcop

/-! ## Constants of the C library (Linux values) -/

/-- The signal number `SIGINT`. -/
def SIGINT : Int := 2

/-- The signal number `SIGTERM`. -/
def SIGTERM : Int := 15

/-- The signal number `SIGCHLD`. -/
def SIGCHLD : Int := 17

/-- The error number `EINTR`. -/
def EINTR : Int := 4

/-- The error number `ECHILD`. -/
def ECHILD : Int := 10

/-- The exit status `EXIT_SUCCESS`. -/
def EXIT_SUCCESS : Int := 0

/-- The exit status `EXIT_FAILURE`. -/
def EXIT_FAILURE : Int := 1

/-- The macro `WTERMSIG(status)`: the low seven bits of a wait status. -/
def WTERMSIG (status : Nat) : Nat := status % 128

/-- The macro `WEXITSTATUS(status)`: bits 8..15 of a wait status. -/
def WEXITSTATUS (status : Nat) : Nat := (status / 256) % 256

/-- The macro `WIFEXITED(status)`: the termination signal field is zero. -/
def WIFEXITED (status : Nat) : Bool := WTERMSIG status == 0

/-- The macro `WIFSIGNALED(status)`: `((signed char)((status & 0x7f) + 1) >> 1) > 0`,
which holds exactly when the low seven bits are in 1..126 (127 marks a stopped child). -/
def WIFSIGNALED (status : Nat) : Bool :=
  let t := WTERMSIG status + 1
  let sc : Int := if t < 128 then (t : Int) else (t : Int) - 256
  decide (0 < sc / 2)

/-! ## Environment and process state -/

/-- One return of `wait(&status)`: the returned pid, the status word it stored,
and the value of `errno` when it returned a negative pid. -/
structure WaitRet where
  wpid : Int
  status : Nat
  errno : Int
  deriving DecidableEq

/-- How the process ends: `exit(code)`; `ACH_DIE`; a failed assertion; `fork` returned 0,
so this is the child, which calls `execvp`; or the process is blocked in a call that
the script does not answer. -/
inductive Outcome
  | exit (code : Int)
  | die
  | abort
  | exec
  | running
  deriving DecidableEq

/-- What the watchdog does, in order. -/
inductive Event
  | start_child
  | fork (ret : Int)
  | write_pid (pid : Int)
  | sigprocmask_block
  | check_signal (r : Int)
  | sigsuspend
  | sigprocmask_restore
  | kill (pid : Int) (sig : Int)
  | wait (ret : WaitRet)
  | collected (pid : Int) (exit_status : Int) (signal : Int)
  | exit (code : Int)
  deriving DecidableEq

/-- The state of the watchdog process together with the scripts of its environment.

* `ach_got_sigterm`, `ach_got_sigint`, `ach_got_sigchild`: the `sig_atomic_t` counters;
* `sigmask`: the signals currently blocked;
* `pid_child`: `cx.pid_child`, written through `pid_ptr`;
* `fp_pid`: the content of the child pid file, `none` when `fp_child_pid` is `NULL`;
* `arrivals`: for each call of `wait_for_signal`, the signals whose handlers ran
  since the previous call returned;
* `suspends`: for each call of `sigsuspend`, the signals whose handlers ran
  before it returned;
* `kill_ret`: what `kill` returns;
* `waits`: the successive returns of `wait`. -/
structure State where
  ach_got_sigterm : Int
  ach_got_sigint : Int
  ach_got_sigchild : Int
  sigmask : List Int
  pid_child : Int
  fp_pid : Option (List Char)
  arrivals : List (List Int)
  suspends : List (List Int)
  kill_ret : Int
  waits : List WaitRet
  deriving DecidableEq

/-- Result of a function of the watchdog: it returned `val` in state `st`, or the
process ended inside it. -/
inductive Res (α : Type)
  | ok (val : α) (st : State)
  | stop (o : Outcome)
  deriving DecidableEq

/-- Events caused by a call, and its result. -/
structure Out (α : Type) where
  events : List Event
  res : Res α
  deriving DecidableEq

/-- Modelled from the spec: the handler that `ach_install_sigflag` installs (achutil is
not among the sources) increments the counter of its signal and does nothing else. -/
def sighandler (st : State) (sig : Int) : State :=
  if sig = SIGTERM then { st with ach_got_sigterm := st.ach_got_sigterm + 1 }
  else if sig = SIGINT then { st with ach_got_sigint := st.ach_got_sigint + 1 }
  else if sig = SIGCHLD then { st with ach_got_sigchild := st.ach_got_sigchild + 1 }
  else st

/-- Run the handlers of a list of delivered signals. -/
def deliver (st : State) (sigs : List Int) : State :=
  sigs.foldl sighandler st

/-! ## The functions of achcop.c -/

/-- The function `check_signal`. -/
def check_signal (st : State) : Int × State :=
  if st.ach_got_sigterm ≠ 0 then (SIGTERM, st)
  else if st.ach_got_sigint ≠ 0 then (SIGINT, st)
  else if st.ach_got_sigchild ≠ 0 then
    (SIGCHLD, { st with ach_got_sigchild := st.ach_got_sigchild - 1 })
  else (0, st)

/-- The handlers of the signals that arrived since the last call of `wait_for_signal`
have run. -/
def State.arrive (st : State) : State :=
  deliver { st with arrivals := st.arrivals.tail } (st.arrivals.headD [])

/-- The call `sigprocmask(SIG_BLOCK, &blockmask, &oldmask)` with `SIGCHLD`, `SIGTERM` and
`SIGINT` in `blockmask`. -/
def State.block (st : State) : State :=
  { st with sigmask := SIGCHLD :: SIGTERM :: SIGINT :: st.sigmask }

/-- The call `sigprocmask(SIG_SETMASK, &oldmask, NULL)`. -/
def State.setmask (st : State) (oldmask : List Int) : State :=
  { st with sigmask := oldmask }

/-- The call `sigsuspend(&oldmask)`: it returns after the handlers of the signals of the
next entry of `suspends` have run, and never when there is no entry left. -/
def sigsuspend (st : State) : Option State :=
  match st.suspends with
  | [] => none
  | sigs :: more => some (deliver { st with suspends := more } sigs)

/-- The function `wait_for_signal`.  The library calls `sigemptyset`, `sigaddset` and
`sigprocmask` are taken to succeed, and `sigsuspend` to return -1 as it always does. -/
def wait_for_signal (st : State) : Out Int :=
  let st0 := st.arrive
  -- block signals
  let oldmask := st0.sigmask
  -- check flags
  let c := check_signal st0.block
  if c.1 = 0 then
    -- suspend
    match sigsuspend c.2 with
    | none => ⟨[.sigprocmask_block, .check_signal c.1, .sigsuspend], .stop .running⟩
    | some st3 =>
      -- check flags
      let c2 := check_signal st3
      -- restore sigmask, then assert( 0 != r )
      if c2.1 = 0 then
        ⟨[.sigprocmask_block, .check_signal c.1, .sigsuspend, .check_signal c2.1,
          .sigprocmask_restore], .stop .abort⟩
      else
        ⟨[.sigprocmask_block, .check_signal c.1, .sigsuspend, .check_signal c2.1,
          .sigprocmask_restore], .ok c2.1 (c2.2.setmask oldmask)⟩
  else
    -- restore sigmask
    ⟨[.sigprocmask_block, .check_signal c.1, .sigprocmask_restore],
      .ok c.1 (c.2.setmask oldmask)⟩

/-- The text that `fprintf(fp, "%d", pid)` produces. -/
def fmt_d (n : Int) : List Char :=
  if n < 0 then '-' :: Nat.toDigits 10 (-n).toNat else Nat.toDigits 10 n.toNat

/-- The function `write_pid` on the content of the file: seek to offset 0 and print the
pid over what is there.  `none` is the `NULL` file pointer. -/
def write_pid (fp : Option (List Char)) (pid : Int) : Option (List Char) :=
  match fp with
  | none => none
  | some old => some (fmt_d pid ++ old.drop (fmt_d pid).length)

/-- The function `start_child`, given what `fork` returns. -/
def start_child (fork_ret : Int) (st : State) : Out Unit :=
  if fork_ret = 0 then
    -- child: exec
    ⟨[.fork fork_ret], .stop .exec⟩
  else if fork_ret > 0 then
    -- parent: record child
    ⟨[.fork fork_ret, .write_pid fork_ret],
      .ok () { st with pid_child := fork_ret, fp_pid := write_pid st.fp_pid fork_ret }⟩
  else
    ⟨[.fork fork_ret], .stop .die⟩

/-- The loop of `waitloop` over the successive returns of `wait`. -/
def waitloop_loop (pid : Int) (st : State) : List WaitRet → Out (Int × Int)
  | [] => ⟨[], .stop .running⟩
  | w :: ws =>
    if w.wpid = pid then
      -- Child did something
      if WIFEXITED w.status then
        ⟨[.wait w, .collected pid (WEXITSTATUS w.status) 0],
          .ok ((WEXITSTATUS w.status : Int), 0) { st with waits := ws }⟩
      else if WIFSIGNALED w.status then
        ⟨[.wait w, .collected pid 0 (WTERMSIG w.status)],
          .ok (0, (WTERMSIG w.status : Int)) { st with waits := ws }⟩
      else
        let o := waitloop_loop pid st ws
        ⟨.wait w :: o.events, o.res⟩
    else if w.wpid < 0 then
      -- Wait failed
      if w.errno = EINTR then
        let o := waitloop_loop pid st ws
        ⟨.wait w :: o.events, o.res⟩
      else if w.errno = ECHILD then ⟨[.wait w], .stop .die⟩
      else ⟨[.wait w], .stop .die⟩
    else
      -- Wrong child somehow
      let o := waitloop_loop pid st ws
      ⟨.wait w :: o.events, o.res⟩

/-- The function `waitloop`: the pair returned is `(*exit_status, *signal)`. -/
def waitloop (pid : Int) (st : State) : Out (Int × Int) :=
  if pid > 0 then waitloop_loop pid st st.waits else ⟨[], .stop .abort⟩

/-- The function `run`, given the successive returns of `fork`. -/
def run : List Int → State → List Event × Outcome
  | [], _ => ([.start_child], .running)
  | f :: forks, st =>
    match start_child f st with
    | ⟨e1, .stop o⟩ => (.start_child :: e1, o)
    | ⟨e1, .ok _ st1⟩ =>
      match wait_for_signal st1 with
      | ⟨e2, .stop o⟩ => (.start_child :: e1 ++ e2, o)
      | ⟨e2, .ok sig st2⟩ =>
        if sig = SIGTERM ∨ sig = SIGINT then
          -- Kill Child
          if st2.kill_ret ≠ 0 then
            (.start_child :: e1 ++ e2 ++ [.kill st2.pid_child SIGTERM], .die)
          else
            -- Wait Child
            match waitloop st2.pid_child st2 with
            | ⟨e3, .stop o⟩ =>
              (.start_child :: e1 ++ e2 ++ [.kill st2.pid_child SIGTERM] ++ e3, o)
            | ⟨e3, .ok (status, _) _⟩ =>
              (.start_child :: e1 ++ e2 ++ [.kill st2.pid_child SIGTERM] ++ e3
                ++ [.exit status], .exit status)
        else if sig = SIGCHLD then
          -- Get child status and restart or exit
          match waitloop st2.pid_child st2 with
          | ⟨e3, .stop o⟩ => (.start_child :: e1 ++ e2 ++ e3, o)
          | ⟨e3, .ok (status, signal) st3⟩ =>
            if 0 = signal ∧ EXIT_SUCCESS = status then
              (.start_child :: e1 ++ e2 ++ e3 ++ [.exit EXIT_SUCCESS], .exit EXIT_SUCCESS)
            else
              -- else restart
              let r := run forks st3
              (.start_child :: e1 ++ e2 ++ e3 ++ r.1, r.2)
        else (.start_child :: e1 ++ e2, .die)

/-! ## Start of the watchdog -/

/-! ### C library: getopt -/

/-- One return of `getopt` other than -1: the option character and `optarg`. -/
structure GetoptRet where
  c : Char
  optarg : Option (List Char)
  deriving DecidableEq

/-- The option string that `main` passes to `getopt`. -/
def optstring : List Char := "p:p:o:e:vdhH?V".toList

/-- The first place of a character in an option string: `none` when it is not there,
else whether a colon follows it, which says that the option takes an argument. -/
def getopt_lookup : List Char → Char → Option Bool
  | [], _ => none
  | a :: rest, c => if a = c then some (rest.head? == some ':') else getopt_lookup rest c

/-- The returns of `getopt` for the characters of one argument after its dash, given
the argument that follows: an option that is not in the option string is answered
with `'?'`; the flag says whether the following argument was taken as `optarg`. -/
def getopt_cluster : List Char → Option (List Char) → List GetoptRet × Bool
  | [], _ => ([], false)
  | c :: cs, next =>
    if c = ':' ∨ getopt_lookup optstring c = none then
      (⟨'?', none⟩ :: (getopt_cluster cs next).1, (getopt_cluster cs next).2)
    else if getopt_lookup optstring c = some false then
      (⟨c, none⟩ :: (getopt_cluster cs next).1, (getopt_cluster cs next).2)
    else if cs ≠ [] then ([⟨c, some cs⟩], false)
    else
      match next with
      | some a => ([⟨c, some a⟩], true)
      | none => ([⟨'?', none⟩], false)

/-- The C function `getopt` with `opterr = 0` over the arguments after `argv[0]`: its
successive returns up to -1, and the operands left from `optind` on.  Arguments that
are not options are passed over and kept as operands; `--` ends the options.  The
flag says that the first argument was taken as the `optarg` of the one before. -/
def getopt_from : Bool → List (List Char) → List GetoptRet × List (List Char)
  | _, [] => ([], [])
  | true, _ :: rest => getopt_from false rest
  | false, a :: rest =>
    if a = "--".toList then ([], rest)
    else if a.head? = some '-' ∧ 2 ≤ a.length then
      ((getopt_cluster a.tail rest.head?).1
          ++ (getopt_from (getopt_cluster a.tail rest.head?).2 rest).1,
        (getopt_from (getopt_cluster a.tail rest.head?).2 rest).2)
    else ((getopt_from false rest).1, a :: (getopt_from false rest).2)

/-- The returns of `getopt` and the operands for the arguments after `argv[0]`. -/
def getopt (args : List (List Char)) : List GetoptRet × List (List Char) :=
  getopt_from false args

/-! ### The function `main` -/

/-- The structure `opt` of `main`; a `NULL` string is `none`. -/
structure Opt where
  file_cop_pid : Option (List Char)
  file_child_pid : Option (List Char)
  file_stderr : Option (List Char)
  file_stdout : Option (List Char)
  child_args : List (Option (List Char))
  detach : Int
  deriving DecidableEq

/-- The structure `opt` as initialised by `= {0}`. -/
def Opt.zero : Opt :=
  { file_cop_pid := none, file_child_pid := none, file_stderr := none, file_stdout := none,
    child_args := [], detach := 0 }

/-- The field `cx.pid_cop`: `cx` is initialised by `= {0}` and no statement of the
program assigns this field. -/
def cx_pid_cop : Int := 0

/-- The option loop of `main` over the returns of `getopt`: the options, or how the
process ended. -/
def parse_options : List GetoptRet → Opt → Except Outcome Opt
  | [], opt => .ok opt
  | g :: gs, opt =>
    if g.c = 'P' then parse_options gs { opt with file_cop_pid := g.optarg }
    else if g.c = 'p' then parse_options gs { opt with file_child_pid := g.optarg }
    else if g.c = 'o' then parse_options gs { opt with file_stdout := g.optarg }
    else if g.c = 'e' then parse_options gs { opt with file_stderr := g.optarg }
    else if g.c = 'd' then parse_options gs { opt with detach := 1 }
    else if g.c = 'V' then .error (.exit EXIT_SUCCESS)
    else if g.c = 'v' then parse_options gs opt
    else if g.c = '?' ∨ g.c = 'h' ∨ g.c = 'H' then .error (.exit EXIT_SUCCESS)
    else parse_options gs { opt with child_args := opt.child_args ++ [g.optarg] }

/-- What the system answers when a pid file is opened: the returns of `open` and
`lockf`, whether `fdopen` gives a stream, and the content of the file. -/
structure PidFileRet where
  open_ret : Int
  lockf_ret : Int
  fdopen_ok : Bool
  content : List Char
  deriving DecidableEq

/-- The environment of the start of the watchdog: the returns of the two calls of `fork`
in `detach`, and the answers for each pid file name. -/
structure Env where
  fork1 : Int
  fork2 : Int
  file : List Char → PidFileRet

/-- The function `detach`. -/
def detach (env : Env) : Except Outcome Unit :=
  if env.fork1 < 0 then .error .die
  else if env.fork1 ≠ 0 then .error (.exit EXIT_SUCCESS)
  else if env.fork2 < 0 then .ok ()
  else if env.fork2 ≠ 0 then .error (.exit EXIT_SUCCESS)
  else .ok ()

/-- The function `lock_pid`: the content behind `*fp`, `none` for `NULL`. -/
def lock_pid (name : Option (List Char)) (env : Env) : Except Outcome (Option (List Char)) :=
  match name with
  | none => .ok none
  | some n =>
    if (env.file n).open_ret < 0 then .error .die
    else if (env.file n).lockf_ret ≠ 0 then .error .die
    else if !(env.file n).fdopen_ok then .error .die
    else .ok (some (env.file n).content)

/-- A run of the watchdog: the content of the pid file of the watchdog when `main` is
done with it (`none` when no such file was opened), the events, and how the process
ended. -/
structure MainRun where
  fp_cop_pid : Option (List Char)
  events : List Event
  outcome : Outcome
  deriving DecidableEq

/-- The function `main` from "Check args" on, given the options and the operands that
the option loop left, the environment of the start, the returns of `fork` in `run` and
a state that holds the scripts of `run`.  The two pid files are taken to be different
files. -/
def startup (opt : Opt) (operands : List (List Char)) (env : Env) (forks : List Int)
    (st : State) : MainRun :=
  -- Check args
  if opt.child_args ++ operands.map some = [] then ⟨none, [], .die⟩
  else
    -- Detach
    match (if opt.detach ≠ 0 then detach env else .ok ()) with
    | .error o => ⟨none, [], o⟩
    | .ok _ =>
      -- Open and Lock PID files
      match lock_pid opt.file_cop_pid env with
      | .error o => ⟨none, [], o⟩
      | .ok fp_cop_pid =>
        match lock_pid opt.file_child_pid env with
        | .error o => ⟨fp_cop_pid, [], o⟩
        | .ok fp_child_pid =>
          -- Write parent pid, then fork child
          ⟨write_pid fp_cop_pid cx_pid_cop,
            .write_pid cx_pid_cop
              :: (run forks { st with pid_child := 0, fp_pid := fp_child_pid }).1,
            (run forks { st with pid_child := 0, fp_pid := fp_child_pid }).2⟩

/-- The function `main`, given the arguments `argv`. -/
def main (argv : List (List Char)) (env : Env) (forks : List Int) (st : State) : MainRun :=
  -- Parse Options
  match parse_options (getopt argv.tail).1 Opt.zero with
  | .error o => ⟨none, [], o⟩
  | .ok opt => startup opt (getopt argv.tail).2 env forks st

end Achcop

namespace Achd

/-! ## Constants -/

/-- The macro `ACHD_PORT`. -/
def ACHD_PORT : Nat := 8076

/-- The macro `INIT_BUF_SIZE`. -/
def INIT_BUF_SIZE : Nat := 512

/-- The exit status `EXIT_SUCCESS`. -/
def EXIT_SUCCESS : Int := 0

/-- The exit status `EXIT_FAILURE`. -/
def EXIT_FAILURE : Int := 1

/-- Modelled from the spec: the status code `ACH_OK` of `ach.h`, which is not among the
sources.  Zero is reserved for success, and the code asserts `0 == ACH_OK`. -/
def ACH_OK : Int := 0

/-- Modelled from the spec: the status code `ACH_OVERFLOW` of `ach.h` (not among the
sources), with its value in the ach library. -/
def ACH_OVERFLOW : Int := 1

/-- Modelled from the spec: the status code `ACH_FAILED_SYSCALL` of `ach.h` (not among
the sources), with its value in the ach library. -/
def ACH_FAILED_SYSCALL : Int := 4

/-- Modelled from the spec: the status code `ACH_MISSED_FRAME` of `ach.h` (not among the
sources), with its value in the ach library. -/
def ACH_MISSED_FRAME : Int := 6

/-- Modelled from the spec: the status code `ACH_BUG` of `ach.h` (not among the sources),
with its value in the ach library. -/
def ACH_BUG : Int := 11

/-- Modelled from the spec: the status code `ACH_BAD_HEADER` of `ach.h` (not among the
sources), with its value in the ach library. -/
def ACH_BAD_HEADER : Int := 14

/-- The field `cx.sig_received`: static storage, so zero, and never assigned. -/
def cx_sig_received : Int := 0

/-! ## Frames -/

/-- A byte. -/
abbrev Byte := Fin 256

/-- The `k` low bytes of `n`, least significant first. -/
def le_bytes : Nat → Nat → List Byte
  | 0, _ => []
  | k + 1, n => ⟨n % 256, Nat.mod_lt _ (by decide)⟩ :: le_bytes k (n / 256)

/-- The number a little-endian byte string stands for. -/
def le_value : List Byte → Nat
  | [] => 0
  | b :: bs => b.val + 256 * le_value bs

/-- The eight bytes of the string literal `"achpipe"`, terminator included. -/
def achpipe_magic : List Byte := [0x61, 0x63, 0x68, 0x70, 0x69, 0x70, 0x65, 0x00]

/-- Modelled from the spec: the type `ach_pipe_frame_t` of `achutil.h`, which is not
among the sources: an 8-byte magic tag, an 8-byte payload length, then the payload
bytes.  `data` is the whole allocated payload area. -/
structure ach_pipe_frame_t where
  magic : List Byte
  size_bytes : List Byte
  data : List Byte
  deriving DecidableEq

/-- The bytes of a frame as they lie in memory. -/
def ach_pipe_frame_t.image (f : ach_pipe_frame_t) : List Byte :=
  f.magic ++ f.size_bytes ++ f.data

/-- Modelled from the spec: `ach_pipe_set_size` (achutil, not among the sources) stores
the length as an 8-byte little-endian unsigned integer. -/
def ach_pipe_set_size (f : ach_pipe_frame_t) (size : Nat) : ach_pipe_frame_t :=
  { f with size_bytes := le_bytes 8 size }

/-- Modelled from the spec: `ach_pipe_get_size` (achutil, not among the sources) reads
the 8-byte little-endian length back. -/
def ach_pipe_get_size (f : ach_pipe_frame_t) : Nat :=
  le_value f.size_bytes

/-- Modelled from the spec: `ach_pipe_alloc` (achutil, not among the sources) allocates a
frame with room for `size` payload bytes and writes the magic tag and the size.  The
payload area is not initialised by the C code; here it holds zeros. -/
def ach_pipe_alloc (size : Nat) : ach_pipe_frame_t :=
  ach_pipe_set_size
    { magic := achpipe_magic, size_bytes := List.replicate 8 0, data := List.replicate size 0 }
    size

/-- The expression `sizeof(ach_pipe_frame_t)`: 8 + 8 + 1 bytes. -/
def sizeof_ach_pipe_frame_t : Nat := 17

/-- Bytes `src` stored at the start of the area `buf`; the area keeps its length. -/
def overwrite (buf src : List Byte) : List Byte :=
  src.take buf.length ++ buf.drop src.length

/-! ## The pumps -/

/-- The option flags of `ach_get`: `ACH_O_WAIT`, `ACH_O_LAST`. -/
structure GetOpts where
  wait : Bool
  last : Bool
  deriving DecidableEq

/-- One return of `ach_get`: the status, the value stored in `frame_size`, and the bytes
it copied into the buffer. -/
structure GetRet where
  r : Int
  frame_size : Nat
  data : List Byte
  deriving DecidableEq

/-- How the stream answers one `fwrite` and the `fflush` after it: the number of bytes it
takes at most, and the return value of `fflush`. -/
structure SockRet where
  accept : Nat
  flush : Int
  deriving DecidableEq

/-- How a pump ends: it returned to its caller, it called `exit`, an assertion failed, it
is blocked in a call that the script does not answer, or the bound on loop turns was
reached. -/
inductive Outcome
  | returned
  | exit (code : Int)
  | abort
  | running
  | fuel
  deriving DecidableEq

/-- What a pump does, in order. -/
inductive Event
  | ach_get (max : Nat) (opts : GetOpts)
  | fwrite (bytes : List Byte)
  | fflush
  | ach_put (data : List Byte)
  | ach_close
  deriving DecidableEq

/-- The bytes that reached the stream. -/
def written : List Event → List Byte
  | [] => []
  | .fwrite bytes :: es => bytes ++ written es
  | _ :: es => written es

/-- The payloads put to the channel. -/
def puts : List Event → List (List Byte)
  | [] => []
  | .ach_put data :: es => data :: puts es
  | _ :: es => puts es

/-- The options of the `ach_get` call of `achd_push_tcp`:
`headers->get_last ? (ACH_O_WAIT | ACH_O_LAST) : ACH_O_WAIT`. -/
def get_options (get_last : Int) : GetOpts :=
  if get_last ≠ 0 then ⟨true, true⟩ else ⟨true, false⟩

/-- The loops of `achd_push_tcp`.  Both the `while` and the `do ... while( !got_frame )`
continue at the next `ach_get`, so one recursion over the returns of `ach_get` serves
both: after an overflow the recursion is the retry inside the `do`, after a stream
send it is the next turn of the `while`.  `get_last` is `headers->get_last`, `sock`
answers the writes by their index, and `max`, `frame`, `t0` are the local variables. -/
def push_loop (get_last : Int) (sock : Nat → SockRet) :
    List GetRet → Nat → ach_pipe_frame_t → Int → Nat → List Event × Outcome
  | [], max, _, _, _ => ([.ach_get max (get_options get_last)], .running)
  | g :: gets, max, frame, t0, nw =>
    let ev := Event.ach_get max (get_options get_last)
    -- check return code
    if g.r = ACH_OVERFLOW then
      -- enlarge buffer and retry on overflow
      if g.frame_size > max then
        let r := push_loop get_last sock gets g.frame_size (ach_pipe_alloc g.frame_size) t0 nw
        (ev :: r.1, r.2)
      else ([ev], .abort)
    else if g.r = ACH_OK ∨ g.r = ACH_MISSED_FRAME ∨ t0 ≠ 0 then
      let frame1 := ach_pipe_set_size { frame with data := overwrite frame.data g.data }
        g.frame_size
      -- stream send
      let size := sizeof_ach_pipe_frame_t - 1 + ach_pipe_get_size frame1
      let bytes := frame1.image.take size
      let s := sock nw
      if min size s.accept ≠ size then
        ([ev, .fwrite (bytes.take s.accept), .ach_close], .returned)
      else if s.flush ≠ 0 then
        ([ev, .fwrite bytes, .fflush, .ach_close], .returned)
      else if cx_sig_received ≠ 0 then
        ([ev, .fwrite bytes, .fflush, .ach_close], .returned)
      else
        let r := push_loop get_last sock gets max frame1 t0 (nw + 1)
        (ev :: .fwrite bytes :: .fflush :: r.1, r.2)
    else
      -- abort on other errors
      ([ev], .abort)

/-- The function `achd_push_tcp`: `gets` are the successive returns of `ach_get`. -/
def achd_push_tcp (get_last : Int) (sock : Nat → SockRet) (gets : List GetRet) :
    List Event × Outcome :=
  if cx_sig_received ≠ 0 then ([.ach_close], .returned)
  else push_loop get_last sock gets INIT_BUF_SIZE (ach_pipe_alloc INIT_BUF_SIZE) 1 0

/-- The loop of `achd_pull_tcp` on the bytes `inp` still to come from the stream.
`put_ret` gives the status of each `ach_put` by its index.  Every turn takes at
least 16 bytes, so `fuel` greater than the length of `inp` is never used up. -/
def pull_loop (put_ret : Nat → Int) :
    Nat → List Byte → Nat → ach_pipe_frame_t → Nat → List Event × Outcome
  | 0, _, _, _, _ => ([], .fuel)
  | fuel + 1, inp, max, frame, np =>
    if cx_sig_received ≠ 0 then ([.ach_close], .exit EXIT_SUCCESS)
    else
      -- get size
      let hd := inp.take 16
      let frame1 := { frame with magic := overwrite frame.magic (hd.take 8),
                                 size_bytes := overwrite frame.size_bytes (hd.drop 8) }
      if 16 ≠ hd.length then ([.ach_close], .exit EXIT_SUCCESS)
      else if achpipe_magic ≠ frame1.magic then ([.ach_close], .exit EXIT_SUCCESS)
      else
        let cnt := ach_pipe_get_size frame1
        -- make sure buf can hold it
        let max2 := if cnt > max then cnt else max
        let frame2 := if cnt > max then ach_pipe_alloc cnt else frame1
        -- get data
        let body := (inp.drop 16).take cnt
        let frame3 := { frame2 with data := overwrite frame2.data body }
        if cnt ≠ body.length then ([.ach_close], .exit EXIT_SUCCESS)
        else
          -- put data
          let ev := Event.ach_put (frame3.data.take cnt)
          if put_ret np ≠ ACH_OK then ([ev], .abort)
          else
            let r := pull_loop put_ret fuel (inp.drop (16 + cnt)) max2 frame3 (np + 1)
            (ev :: r.1, r.2)

/-- The function `achd_pull_tcp` on the bytes `inp` that the stream delivers before it
ends. -/
def achd_pull_tcp (put_ret : Nat → Int) (inp : List Byte) : List Event × Outcome :=
  pull_loop put_ret (inp.length + 1) inp INIT_BUF_SIZE (ach_pipe_alloc INIT_BUF_SIZE) 0

/-- The enumeration `achd_direction`. -/
inductive achd_direction
  | ACHD_DIRECTION_VOID
  | ACHD_DIRECTION_PUSH
  | ACHD_DIRECTION_PULL
  deriving DecidableEq

/-- The structure `achd_headers`; a `NULL` string is `none`. -/
structure achd_headers where
  chan_name : Option (List Char)
  remote_chan_name : Option (List Char)
  frame_count : Int
  frame_size : Int
  local_port : Int
  remote_port : Int
  tcp_nodelay : Int
  retry : Int
  get_last : Int
  retry_delay_us : Int
  period_ns : Int
  remote_host : Option (List Char)
  transport : Option (List Char)
  direction : achd_direction
  status : Int
  message : Option (List Char)
  deriving DecidableEq

/-- The headers after `memset( &headers, 0, sizeof(headers) )`. -/
def achd_headers.zero : achd_headers :=
  { chan_name := none, remote_chan_name := none, frame_count := 0, frame_size := 0,
    local_port := 0, remote_port := 0, tcp_nodelay := 0, retry := 0, get_last := 0,
    retry_delay_us := 0, period_ns := 0, remote_host := none, transport := none,
    direction := .ACHD_DIRECTION_VOID, status := 0, message := none }

/-- Why a function of achd does not return: the error handler `cx.error` was called
with a code and a formatted message (both handlers end the process), the process
called `exit`, or the bound on loop turns was reached. -/
inductive Halt
  | error (code : Int) (msg : List Char)
  | exit (code : Int)
  | fuel
  deriving DecidableEq

/-! ### C library: strings -/

/-- The test `0 == strcasecmp(a, b)` in the C locale. -/
def strcasecmp_eq (a b : List Char) : Bool :=
  a.map Char.toLower == b.map Char.toLower

/-- The C function `isspace` in the C locale. -/
def isspace (c : Char) : Bool :=
  c == ' ' || c == '\t' || c == '\n' || c == '\x0b' || c == '\x0c' || c == '\r'

/-- The value of the leading decimal digits of a string, given the value so far. -/
def digits_value : List Char → Nat → Nat
  | [], acc => acc
  | c :: cs, acc => if c.isDigit then digits_value cs (10 * acc + (c.toNat - '0'.toNat)) else acc

/-- The C function `strtol(val, NULL, 10)` with a 64-bit `long`: the value, and whether
`errno` was set (to `ERANGE`). -/
def strtol (val : List Char) : Int × Bool :=
  let s := val.dropWhile isspace
  let neg := s.head? == some '-'
  let body := if s.head? == some '-' || s.head? == some '+' then s.tail else s
  let n := digits_value body 0
  if neg then
    if n > 2 ^ 63 then (-(2 : Int) ^ 63, true) else (-(n : Int), false)
  else
    if n > 2 ^ 63 - 1 then ((2 : Int) ^ 63 - 1, true) else ((n : Int), false)

/-- The view of a buffer as a C string: the characters before the first NUL. -/
def cstr (buf : List Char) : List Char :=
  buf.takeWhile (fun c => c != '\x00')

/-- The C function `getline` on what is left of the stream: the line read, newline
included, and the rest of the stream.  The line is empty only at the end of the
stream. -/
def getline : List Char → List Char × List Char
  | [] => ([], [])
  | c :: cs =>
    if c = '\n' then ([c], cs)
    else ((c :: (getline cs).1), (getline cs).2)

/-! ### C library: regular expressions

`regcomp` and `regexec` belong to the C library.  The two patterns of
`achd_parse_headers` are built from character sets, starred character sets,
concatenation, one alternation and two parenthesised subexpressions, and every
alternative is anchored at both ends, so `regexec` is a match of the whole string.
The offsets reported for the subexpressions are those of the match in which every
starred set, from left to right, takes as many characters as the rest of the
pattern allows; these are the offsets that the `regexec` of glibc reports for these
two patterns. -/

/-- Regular expressions of the shape used in achd.c. -/
inductive RE
  | set (p : Char → Bool)
  | star (p : Char → Bool)
  | seq (a b : RE)
  | alt (a b : RE)
  | sub (n : Nat) (a : RE)

/-- Subexpression offsets `(n, rm_so, rm_eo)`, the latest first. -/
abbrev Caps := List (Nat × Nat × Nat)

/-- The offsets of subexpression `n`, or `none` when it took no part (`rm_so = -1`). -/
def Caps.find (m : Caps) (n : Nat) : Option (Nat × Nat) :=
  match m with
  | [] => none
  | (k, so, eo) :: rest => if k = n then some (so, eo) else Caps.find rest n

/-- Match a starred set against the text at offset `i`, the longest run first, then
continue with `k`. -/
def star_run (p : Char → Bool) (k : List Char → Nat → Caps → Option Caps) :
    List Char → Nat → Caps → Option Caps
  | [], i, m => k [] i m
  | c :: cs, i, m =>
    if p c then
      match star_run p k cs (i + 1) m with
      | some r => some r
      | none => k (c :: cs) i m
    else k (c :: cs) i m

/-- Match an expression against the text at offset `i`, then continue with `k`. -/
def RE.run : RE → (List Char → Nat → Caps → Option Caps) →
    List Char → Nat → Caps → Option Caps
  | .set p, k => fun s i m =>
    match s with
    | [] => none
    | c :: cs => if p c then k cs (i + 1) m else none
  | .star p, k => star_run p k
  | .seq a b, k => a.run (b.run k)
  | .alt a b, k => fun s i m =>
    match a.run k s i m with
    | some r => some r
    | none => b.run k s i m
  | .sub n a, k => fun s i m => a.run (fun s2 j m2 => k s2 j ((n, i, j) :: m2)) s i m

/-- The call `regexec(&re, s, ...)` for a pattern anchored at both ends: `none` is
`REG_NOMATCH`. -/
def regexec (re : RE) (s : List Char) : Option Caps :=
  re.run (fun rest _ m => if rest = [] then some m else none) s 0 []

/-- The set `[[:blank:]\n\r]` of `REGEX_SPACE`. -/
def space_set (c : Char) : Bool :=
  c == ' ' || c == '\t' || c == '\n' || c == '\r'

/-- The set `[^:=\n]` of `REGEX_WORD`. -/
def word_set (c : Char) : Bool :=
  !(c == ':' || c == '=' || c == '\n')

/-- The set `[:=]`. -/
def sep_set (c : Char) : Bool :=
  c == ':' || c == '='

/-- The pattern `"^" REGEX_SPACE "$|^" REGEX_SPACE REGEX_WORD REGEX_SPACE "[:=]"
REGEX_SPACE REGEX_WORD REGEX_SPACE "$"`. -/
def line_regex : RE :=
  .alt (.star space_set)
    (.seq (.star space_set) (.seq (.sub 1 (.star word_set)) (.seq (.star space_set)
      (.seq (.set sep_set) (.seq (.star space_set) (.seq (.sub 2 (.star word_set))
        (.star space_set)))))))

/-- The pattern `"^" REGEX_SPACE "." REGEX_SPACE "$"`: the dot is not escaped, so it
stands for any one character. -/
def dot_regex : RE :=
  .seq (.star space_set) (.seq (.set (fun _ => true)) (.star space_set))

/-! ### The functions of achd.c -/

/-- The function `achd_set_int`: the new value of `*pint`. -/
def achd_set_int (name val : List Char) : Except Halt Int :=
  let (i, err) := strtol val
  if err then
    .error (.error ACH_BAD_HEADER
      ("Invalid ".toList ++ name ++ " ".toList ++ val
        ++ ": Numerical result out of range\n".toList))
  else .ok (Int.bmod i (2 ^ 32))

/-- The function `achd_parse_boolean`. -/
def achd_parse_boolean (value : List Char) : Except Halt Int :=
  let yes := ["yes", "true", "1", "t", "y", "+", "aye"]
  let no := ["no", "false", "0", "f", "n", "-", "nay"]
  if yes.any (fun s => strcasecmp_eq s.toList value) then .ok 1
  else if no.any (fun s => strcasecmp_eq s.toList value) then .ok 0
  else .error (.exit EXIT_FAILURE)

/-- The function `achd_set_header`. -/
def achd_set_header (key val : List Char) (headers : achd_headers) :
    Except Halt achd_headers :=
  if strcasecmp_eq key "channel-name".toList then
    .ok { headers with chan_name := some val }
  else if strcasecmp_eq key "frame-size".toList then
    (achd_set_int "frame size".toList val).map (fun i => { headers with frame_size := i })
  else if strcasecmp_eq key "frame-count".toList then
    (achd_set_int "frame count".toList val).map (fun i => { headers with frame_count := i })
  else if strcasecmp_eq key "remote-port".toList then
    (achd_set_int "remote port".toList val).map (fun i => { headers with remote_port := i })
  else if strcasecmp_eq key "local-port".toList then
    (achd_set_int "local port".toList val).map (fun i => { headers with local_port := i })
  else if strcasecmp_eq key "remote-host".toList then
    .ok { headers with remote_host := some val }
  else if strcasecmp_eq key "transport".toList then
    .ok { headers with transport := some val }
  else if strcasecmp_eq key "tcp-nodelay".toList then
    (achd_parse_boolean val).map (fun b => { headers with tcp_nodelay := b })
  else if strcasecmp_eq key "retry".toList then
    (achd_parse_boolean val).map (fun b => { headers with retry := b })
  else if strcasecmp_eq key "direction".toList then
    if strcasecmp_eq val "push".toList then
      .ok { headers with direction := .ACHD_DIRECTION_PUSH }
    else if strcasecmp_eq val "pull".toList then
      .ok { headers with direction := .ACHD_DIRECTION_PULL }
    else .error (.error ACH_BAD_HEADER ("Invalid direction: ".toList ++ val ++ ['\n']))
  else if strcasecmp_eq key "status".toList then
    (achd_set_int "status".toList val).map (fun i => { headers with status := i })
  else if strcasecmp_eq key "message".toList then
    .ok { headers with message := some val }
  else .error (.error ACH_BAD_HEADER ("Invalid header: ".toList ++ key ++ ['\n']))

/-- The part of a string between two offsets. -/
def slice (s : List Char) (so eo : Nat) : List Char :=
  (s.drop so).take (eo - so)

/-- One line of the header block, as the body of the loop of `achd_parse_headers`
treats it: `none` when the loop breaks at this line, else the headers after it. -/
def parse_line (line : List Char) (headers : achd_headers) :
    Except Halt (Option achd_headers) :=
  let lineptr := cstr line
  -- Break on ".\n"
  if (regexec dot_regex lineptr).isSome then .ok none
  else
    -- kill comments and translate
    let lineptr := lineptr.takeWhile (fun c => c != '#')
    -- match key/value
    match regexec line_regex lineptr with
    | none => .error (.error ACH_BAD_HEADER "malformed header\n".toList)
    | some m =>
      match m.find 1, m.find 2 with
      | some (so1, eo1), some (so2, eo2) =>
        (achd_set_header (slice lineptr so1 eo1) (slice lineptr so2 eo2) headers).map some
      | _, _ => .ok (some headers)

/-- The loop of `achd_parse_headers` on what is left of the stream: the headers and
the part of the stream not read.  Every turn reads at least one character, so `fuel`
greater than the length of the stream is never used up. -/
def parse_loop : Nat → List Char → achd_headers → Except Halt (achd_headers × List Char)
  | 0, _, _ => .error .fuel
  | fuel + 1, inp, headers =>
    let line := (getline inp).1
    let rest := (getline inp).2
    if line.length > 0 then
      match parse_line line headers with
      | .error h => .error h
      | .ok none => .ok (headers, rest)
      | .ok (some headers2) => parse_loop fuel rest headers2
    else .ok (headers, rest)

/-- The function `achd_parse_headers` on the stream `fptr`: the headers and the part of
the stream it did not read. -/
def achd_parse_headers (fptr : List Char) (headers : achd_headers) :
    Except Halt (achd_headers × List Char) :=
  parse_loop (fptr.length + 1) fptr headers

/-! ### Handlers, error handlers and sessions -/

/-- The type `achd_io_handler_t`, as far as the table `handlers` names its values. -/
inductive achd_io_handler_t
  | achd_push_tcp
  | achd_pull_tcp
  | achd_push_udp
  | achd_pull_udp
  deriving DecidableEq

/-- The structure `achd_handler`. -/
structure achd_handler where
  transport : List Char
  direction : achd_direction
  handler : achd_io_handler_t
  deriving DecidableEq

/-- The table `handlers`, up to its entry with the `NULL` transport. -/
def handlers : List achd_handler :=
  [ ⟨"tcp".toList, .ACHD_DIRECTION_PUSH, .achd_push_tcp⟩,
    ⟨"tcp".toList, .ACHD_DIRECTION_PULL, .achd_pull_tcp⟩,
    ⟨"udp".toList, .ACHD_DIRECTION_PUSH, .achd_push_udp⟩,
    ⟨"udp".toList, .ACHD_DIRECTION_PULL, .achd_pull_udp⟩ ]

/-- The loop of `achd_get_handler` over the table. -/
def get_handler_loop (transport : List Char) (direction : achd_direction) :
    List achd_handler → Except Halt achd_io_handler_t
  | [] =>
    -- Couldn't find handler
    .error (.error ACH_BAD_HEADER "Requested transport or direction not found".toList)
  | h :: hs =>
    if direction = h.direction ∧ strcasecmp_eq h.transport transport then .ok h.handler
    else get_handler_loop transport direction hs

/-- The function `achd_get_handler`. -/
def achd_get_handler (transport : Option (List Char)) (direction : achd_direction) :
    Except Halt achd_io_handler_t :=
  match transport with
  | none => .error (.error ACH_BAD_HEADER "No transport header".toList)
  | some t =>
    if direction = .ACHD_DIRECTION_VOID then
      .error (.error ACH_BAD_HEADER "No direction header".toList)
    else get_handler_loop t direction handlers

/-- The function `achd_open`, given the status that `ach_open` returns for a channel
name. -/
def achd_open (ach_open : List Char → Int) (headers : achd_headers) : Except Halt Unit :=
  match (match headers.chan_name with
    | some n => some n
    | none => headers.remote_chan_name) with
  | some name =>
    if ACH_OK ≠ ach_open name then
      .error (.error (ach_open name) ("Couldn't open channel ".toList ++ name ++ ['\n']))
    else .ok ()
  | none => .error (.error ACH_BAD_HEADER "No channel name header".toList)

/-- The function `achd_exit_failure`: the code it passes to `exit`. -/
def achd_exit_failure (code : Int) : Int :=
  if code ≠ 0 then code else EXIT_FAILURE

/-- What a run of `achd_serve` or `achd_client` did before the pump took over or the
process ended: the text written to `cx.fout`, the call of `cx.error` if there was one
(code and formatted message), the handler that was called, and how the process ended
when it ended before a handler was called. -/
structure Session where
  fout : List Char
  error : Option (Int × List Char)
  dispatched : Option achd_io_handler_t
  ended : Option Outcome
  deriving DecidableEq

/-- The text that `achd_error_header` writes to `cx.fout`, given the function
`ach_result_to_string` of the ach library and the message that `vfprintf` formats. -/
def error_header_text (ach_result_to_string : Int → List Char) (code : Int)
    (msg : List Char) : List Char :=
  "status: ".toList ++ Achcop.fmt_d code ++ " # ".toList ++ ach_result_to_string code
    ++ "\nmessage: ".toList ++ msg ++ ['\n']

/-- The function `achd_error_header` after `fout` was written to `cx.fout`. -/
def achd_error_header (ach_result_to_string : Int → List Char) (fout : List Char)
    (code : Int) (msg : List Char) : Session :=
  ⟨fout ++ error_header_text ach_result_to_string code msg, some (code, msg), none,
    some (.exit (achd_exit_failure code))⟩

/-- The function `achd_error_interactive` after `fout` was written to `cx.fout`; what
it prints goes to `stderr`. -/
def achd_error_interactive (fout : List Char) (code : Int) (msg : List Char) : Session :=
  ⟨fout, some (code, msg), none, some (.exit (achd_exit_failure code))⟩

/-- The session that ends where a function did not return. -/
def halt_session (error : Int → List Char → Session) (fout : List Char) : Halt → Session
  | .error code msg => error code msg
  | .exit code => ⟨fout, none, none, some (.exit code)⟩
  | .fuel => ⟨fout, none, none, some .fuel⟩

/-- The text of `fprintf` for `%` `PRIuPTR`. -/
def fmt_u (n : Nat) : List Char := Nat.toDigits 10 n

/-- The function `achd_serve` on the stream `fin`, with `cx.error` set to
`achd_error_header` as `main` sets it before the call; `index_cnt` and `data_size` are
the fields of the shared memory of the opened channel, `index_cnt` positive. -/
def achd_serve (ach_result_to_string : Int → List Char) (ach_open : List Char → Int)
    (index_cnt data_size : Nat) (fin : List Char) : Session :=
  match achd_parse_headers fin achd_headers.zero with
  | .error h => halt_session (achd_error_header ach_result_to_string []) [] h
  | .ok (srv_headers, _) =>
    -- open channel
    match achd_open ach_open srv_headers with
    | .error h => halt_session (achd_error_header ach_result_to_string []) [] h
    | .ok _ =>
      -- check transport headers
      if srv_headers.transport = none then
        achd_error_header ach_result_to_string [] ACH_BAD_HEADER "No transport header".toList
      else if srv_headers.direction = .ACHD_DIRECTION_VOID then
        achd_error_header ach_result_to_string [] ACH_BAD_HEADER "No direction header".toList
      else
        -- dispatch to the requested mode
        match achd_get_handler srv_headers.transport srv_headers.direction with
        | .error h => halt_session (achd_error_header ach_result_to_string []) [] h
        | .ok handler =>
          -- print headers, start i/o
          ⟨"frame-count: ".toList ++ fmt_u index_cnt ++ "\nframe-size: ".toList
              ++ fmt_u (data_size / index_cnt) ++ "\nstatus: ".toList ++ Achcop.fmt_d ACH_OK
              ++ " # ".toList ++ ach_result_to_string ACH_OK ++ "\n.\n".toList,
            none, some handler, none⟩

/-- What the network answers to `achd_client`: the return of `socket`, whether
`gethostbyname` finds the host, the return of `connect`, whether both calls of
`fdopen` give a stream, and the text of `strerror(errno)` after a failure. -/
structure NetRet where
  socket : Int
  host_found : Bool
  connect : Int
  fdopen_ok : Bool
  strerror : List Char

/-- The function `achd_connect`: the socket, `none` when the assertion on the remote
host fails. -/
def achd_connect (remote_host : Option (List Char)) (net : NetRet) :
    Except Halt (Option Int) :=
  if net.socket < 0 then
    .error (.error ACH_FAILED_SYSCALL
      ("Couldn't open socket: ".toList ++ net.strerror ++ ['\n']))
  else
    match remote_host with
    | none => .ok none
    | some host =>
      if !net.host_found then
        .error (.error ACH_FAILED_SYSCALL ("Host '".toList ++ host ++ "' not found\n".toList))
      else if net.connect < 0 then
        .error (.error ACH_FAILED_SYSCALL
          ("Couldn't connect: ".toList ++ net.strerror ++ ['\n']))
      else .ok (some net.socket)

/-- The field `req_headers.chan_name` that `achd_client` fills from the options: the
name of the remote channel, else the name of the channel, `none` when it has neither
and calls the error handler. -/
def req_chan_name (cl_opts : achd_headers) : Option (List Char) :=
  match cl_opts.remote_chan_name with
  | some n => some n
  | none => cl_opts.chan_name

/-- The value of the direction header that `achd_client` writes. -/
def request_direction (direction : achd_direction) : List Char :=
  if direction = .ACHD_DIRECTION_PULL then "push".toList else "pull".toList

/-- The request block that `achd_client` writes. -/
def request_text (chan_name transport : List Char) (direction : achd_direction) :
    List Char :=
  "channel-name: ".toList ++ chan_name ++ "\ntransport: ".toList ++ transport
    ++ "\ndirection: ".toList ++ request_direction direction ++ "\n.\n".toList

/-- The end of `achd_client`, from "Get Response" on, after `request` was written:
`fin` is what the server sends. -/
def client_response (handler : achd_io_handler_t) (request fin : List Char) : Session :=
  match achd_parse_headers fin { achd_headers.zero with status := ACH_BUG } with
  | .error h => halt_session (achd_error_interactive request) request h
  | .ok (resp_headers, _) =>
    if ACH_OK ≠ resp_headers.status then
      match resp_headers.message with
      | some message =>
        achd_error_interactive request resp_headers.status
          ("Server error: ".toList ++ message ++ ['\n'])
      | none =>
        achd_error_interactive request resp_headers.status
          "Bad response from server\n".toList
    else
      -- Start running
      ⟨request, none, some handler, none⟩

/-- The function `achd_client` with `cx.error` set to `achd_error_interactive`, given
the options of the command line, the answers of `ach_open` and of the network, and
the stream `fin` that the server sends. -/
def achd_client (cl_opts : achd_headers) (ach_open : List Char → Int) (net : NetRet)
    (fin : List Char) : Session :=
  -- Create request headers
  match achd_get_handler cl_opts.transport cl_opts.direction with
  | .error h => halt_session (achd_error_interactive []) [] h
  | .ok handler =>
    match req_chan_name cl_opts with
    | none => achd_error_interactive [] ACH_BAD_HEADER "No channel name given\n".toList
    | some chan_name =>
      -- Open Channel
      match achd_open ach_open cl_opts with
      | .error h => halt_session (achd_error_interactive []) [] h
      | .ok _ =>
        -- Connect to server
        match achd_connect cl_opts.remote_host net with
        | .error h => halt_session (achd_error_interactive []) [] h
        | .ok none => ⟨[], none, none, some .abort⟩
        | .ok (some _) =>
          if !net.fdopen_ok then
            achd_error_interactive [] ACH_FAILED_SYSCALL
              ("Couldn't fdopen sock: ".toList ++ net.strerror ++ ['\n'])
          else
            -- Write request, get response
            client_response handler
              (request_text chan_name (cl_opts.transport.getD []) cl_opts.direction) fin

end Achd

/-! ## Definitions used to state the properties -/

namespace Achcop

/-- A return of `wait` after which `waitloop` calls `wait` again: the tracked child
neither exited nor was killed, or the call was interrupted, or another child was
reaped. -/
def retried (pid : Int) (w : WaitRet) : Bool :=
  if w.wpid = pid then !WIFEXITED w.status && !WIFSIGNALED w.status
  else if w.wpid < 0 then w.errno == EINTR
  else true

/-- The pair (exit status, terminating signal) of a wait status: the exit status and 0
for an exit, else 0 and the signal. -/
def status_pair (status : Nat) : Int × Int :=
  if WIFEXITED status then ((WEXITSTATUS status : Int), 0) else (0, (WTERMSIG status : Int))

/-- The exit status of a child, which only a child that exited has. -/
def child_exit_status (status : Nat) : Option Int :=
  if WIFEXITED status then some (WEXITSTATUS status : Int) else none

/-- The children that were forked and whose status was not collected, after one more
event. -/
def track (live : List Int) : Event → List Int
  | .fork p => if p > 0 then p :: live else live
  | .collected p _ _ => live.erase p
  | _ => live

/-- The children that were forked and whose status was not collected, after a trace. -/
def uncollected (evs : List Event) : List Int :=
  evs.foldl track []

/-- At every point of a trace that starts with the children `live` uncollected, at most
one child is forked and not collected. -/
def one_child_at_a_time : List Int → List Event → Prop
  | live, [] => live.length ≤ 1
  | live, e :: es =>
    live.length ≤ 1 ∧ (e = .start_child → live = []) ∧ one_child_at_a_time (track live e) es

/-- An event that neither forks nor collects a child nor calls `start_child`. -/
def quiet (e : Event) : Prop :=
  (∀ live, track live e = live) ∧ e ≠ .start_child

/-- The events of one turn of `run` up to the return of `waitloop`: the child `f` is
started, `wait_for_signal` causes `e2`, `between` happens before the wait, the
returns `skip` of `wait` are passed over and `w` ends the wait. -/
def turn_events (f : Int) (e2 between : List Event) (skip : List WaitRet) (w : WaitRet) :
    List Event :=
  [.start_child, .fork f, .write_pid f] ++ e2 ++ between ++ skip.map Event.wait
    ++ [.wait w, .collected f (status_pair w.status).1 (status_pair w.status).2]

/-- The second state has the child, the pid file and the scripts of `kill` and `wait` of
the first. -/
def Keeps (a b : State) : Prop :=
  b.pid_child = a.pid_child ∧ b.waits = a.waits ∧ b.kill_ret = a.kill_ret
    ∧ b.fp_pid = a.fp_pid

/-- The state in which `start_child` returns when `fork` returned `f > 0`. -/
def started (f : Int) (st : State) : State :=
  { st with pid_child := f, fp_pid := write_pid st.fp_pid f }

/-- A process state with the given scripts, no signal received, and no pid file. -/
def State.init (arrivals suspends : List (List Int)) (kill_ret : Int)
    (waits : List WaitRet) : State :=
  { ach_got_sigterm := 0, ach_got_sigint := 0, ach_got_sigchild := 0, sigmask := [],
    pid_child := 0, fp_pid := none, arrivals := arrivals, suspends := suspends,
    kill_ret := kill_ret, waits := waits }

/-- Whether every inspection of the signal counters in a trace happens while the
signals are blocked: between a `sigprocmask` that blocks them and the one that
restores the mask.  The flag says whether they are blocked where the trace starts;
`sigsuspend` has put the blocking mask back when it returns. -/
def blocked_at_checks : Bool → List Event → Bool
  | _, [] => true
  | _, .sigprocmask_block :: es => blocked_at_checks true es
  | _, .sigprocmask_restore :: es => blocked_at_checks false es
  | b, .check_signal _ :: es => b && blocked_at_checks b es
  | b, _ :: es => blocked_at_checks b es

/-- The signals `SIGTERM`, `SIGINT` and `SIGCHLD` are blocked. -/
def all_blocked (st : State) : Prop :=
  SIGTERM ∈ st.sigmask ∧ SIGINT ∈ st.sigmask ∧ SIGCHLD ∈ st.sigmask

/-- The three signal counters are zero. -/
def counters_zero (st : State) : Prop :=
  st.ach_got_sigterm = 0 ∧ st.ach_got_sigint = 0 ∧ st.ach_got_sigchild = 0

/-- An environment in which `fork` returns 0 in `detach` and every pid file opens,
locks and is empty. -/
def Env.plain : Env :=
  { fork1 := 0, fork2 := 0, file := fun _ => ⟨3, 0, true, []⟩ }

end Achcop

namespace Achd

/-- The bytes of the frame that carries the payload `p`: the magic tag, the length of `p`
as an 8-byte little-endian integer, and `p`. -/
def frame_bytes (p : List Byte) : List Byte :=
  achpipe_magic ++ le_bytes 8 p.length ++ p

/-- What `ach_get` returns to a pump whose buffer holds `max` bytes when the channel
delivers the given payloads in order: a payload larger than the buffer is first
reported as an overflow with its size and delivered on the next call; the flag says
whether the payload comes with the missed-frame status. -/
def channel_script : Nat → List (Bool × List Byte) → List GetRet
  | _, [] => []
  | max, (missed, p) :: ps =>
    if p.length > max then
      ⟨ACH_OVERFLOW, p.length, []⟩
        :: ⟨if missed then ACH_MISSED_FRAME else ACH_OK, p.length, p⟩
        :: channel_script p.length ps
    else
      ⟨if missed then ACH_MISSED_FRAME else ACH_OK, p.length, p⟩ :: channel_script max ps

/-- The stream takes every write whole and every flush succeeds. -/
def takes_all (sock : Nat → SockRet) : Prop :=
  ∀ k, (sock k).flush = 0 ∧ 2 ^ 64 + 16 ≤ (sock k).accept

/-- A frame buffer as the pumps keep it: the tag and the length field have 8 bytes each
and the payload area has `max` bytes. -/
def frame_ok (max : Nat) (f : ach_pipe_frame_t) : Prop :=
  f.magic.length = 8 ∧ f.size_bytes.length = 8 ∧ f.data.length = max

/-- The stream `rest` does not begin with a complete well-formed frame: its 16-byte
prefix is short, or its first 8 bytes are not the magic tag, or fewer payload bytes
follow than the length field declares. -/
def no_frame (rest : List Byte) : Prop :=
  rest.length < 16 ∨ rest.take 8 ≠ achpipe_magic
    ∨ (rest.drop 16).length < le_value ((rest.take 16).drop 8)

/-- Two strings are equal when the case of the ASCII letters is ignored. -/
def same_ignoring_case (a b : List Char) : Prop :=
  a.map Char.toLower = b.map Char.toLower

instance (a b : List Char) : Decidable (same_ignoring_case a b) :=
  inferInstanceAs (Decidable (a.map Char.toLower = b.map Char.toLower))

/-- The twelve names of headers. -/
def header_names : List String :=
  ["channel-name", "frame-size", "frame-count", "remote-port", "local-port", "remote-host",
    "transport", "tcp-nodelay", "retry", "direction", "status", "message"]

/-- The key is one of the twelve names, the case of letters ignored. -/
def known_key (key : List Char) : Prop :=
  ∃ n ∈ header_names, same_ignoring_case key n.toList

/-- The opposite of a direction. -/
def opposite : achd_direction → achd_direction
  | .ACHD_DIRECTION_PUSH => .ACHD_DIRECTION_PULL
  | .ACHD_DIRECTION_PULL => .ACHD_DIRECTION_PUSH
  | .ACHD_DIRECTION_VOID => .ACHD_DIRECTION_VOID

/-- The key of a line of a header block as `achd_parse_headers` reads it: what stands
before the separator once the comment is cut off; `none` when the line has none. -/
def line_key (line : List Char) : Option (List Char) :=
  match regexec line_regex ((cstr line).takeWhile (fun c => c != '#')) with
  | none => none
  | some m =>
    match m.find 1, m.find 2 with
    | some (so1, eo1), some _ => some (slice ((cstr line).takeWhile (fun c => c != '#')) so1 eo1)
    | _, _ => none

/-- The lines of a stream that `achd_parse_headers` reads as headers: those before the
line at which it stops. -/
def block_lines : Nat → List Char → List (List Char)
  | 0, _ => []
  | fuel + 1, inp =>
    if (getline inp).1.length > 0 then
      if (regexec dot_regex (cstr (getline inp).1)).isSome then []
      else (getline inp).1 :: block_lines fuel (getline inp).2
    else []

/-- The header block of the stream carries a header with the key `status`. -/
def carries_status (fin : List Char) : Prop :=
  ∃ line ∈ block_lines (fin.length + 1) fin, ∃ k, line_key line = some k ∧
    same_ignoring_case k "status".toList

/-- The headers of `achd_client` before it reads the response: all zero, and the status
`ACH_BUG`. -/
def resp_init : achd_headers :=
  { achd_headers.zero with status := ACH_BUG }

/-- The message that `achd_client` gives to the error handler for a response whose
status is not `ACH_OK`. -/
def response_error (resp : achd_headers) : List Char :=
  match resp.message with
  | some message => "Server error: ".toList ++ message ++ ['\n']
  | none => "Bad response from server\n".toList

/-- A sample of the function `ach_result_to_string` of the ach library. -/
def sample_result_to_string (code : Int) : List Char :=
  if code = 0 then "ACH_OK".toList else "ACH_ERROR".toList

/-- Options of a client that pulls the channel `c` from the host `h` over tcp. -/
def sample_cl_opts : achd_headers :=
  { achd_headers.zero with
    chan_name := some "c".toList, remote_host := some "h".toList,
    transport := some "tcp".toList, direction := .ACHD_DIRECTION_PULL }

/-- A network in which every call succeeds. -/
def sample_net : NetRet :=
  { socket := 3, host_found := true, connect := 0, fdopen_ok := true, strerror := [] }

end Achd

/-! ## Properties of achcop -/

namespace Achcop

theorem Keeps.refl (a : State) : Keeps a a := ⟨Eq.refl _, Eq.refl _, Eq.refl _, Eq.refl _⟩

theorem setmask_keeps (a : State) (m : List Int) : Keeps a (a.setmask m) :=
  ⟨Eq.refl _, Eq.refl _, Eq.refl _, Eq.refl _⟩

theorem block_keeps (a : State) : Keeps a a.block :=
  ⟨Eq.refl _, Eq.refl _, Eq.refl _, Eq.refl _⟩

theorem Keeps.trans {a b c : State} (h1 : Keeps a b) (h2 : Keeps b c) : Keeps a c :=
  ⟨h2.1.trans h1.1, h2.2.1.trans h1.2.1, h2.2.2.1.trans h1.2.2.1, h2.2.2.2.trans h1.2.2.2⟩

theorem sighandler_keeps (st : State) (s : Int) : Keeps st (sighandler st s) := by
  unfold sighandler Keeps
  split_ifs <;> simp

theorem deliver_keeps (sigs : List Int) (st : State) : Keeps st (deliver st sigs) := by
  induction sigs generalizing st with
  | nil => exact Keeps.refl st
  | cons s rest ih =>
    have h := ih (sighandler st s)
    exact (sighandler_keeps st s).trans h

theorem check_signal_keeps (st : State) : Keeps st (check_signal st).2 := by
  unfold check_signal Keeps
  split_ifs <;> simp

theorem arrive_keeps (st : State) : Keeps st st.arrive := by
  have h := deliver_keeps (st.arrivals.headD []) { st with arrivals := st.arrivals.tail }
  exact ⟨h.1, h.2.1, h.2.2.1, h.2.2.2⟩

theorem sigsuspend_keeps (st st3 : State) (h : sigsuspend st = some st3) : Keeps st st3 := by
  unfold sigsuspend at h
  split at h
  · simp at h
  · rename_i sigs more hs
    simp only [Option.some.injEq] at h
    subst h
    have h := deliver_keeps sigs { st with suspends := more }
    exact ⟨h.1, h.2.1, h.2.2.1, h.2.2.2⟩

theorem wait_for_signal_keeps (st st2 : State) (e : List Event) (sig : Int)
    (h : wait_for_signal st = ⟨e, .ok sig st2⟩) : Keeps st st2 := by
  have hb : Keeps st (check_signal st.arrive.block).2 :=
    (arrive_keeps st).trans ((block_keeps _).trans (check_signal_keeps _))
  unfold wait_for_signal at h
  simp only [] at h
  split_ifs at h with h0
  · split at h
    · simp at h
    · rename_i st3 hs
      split_ifs at h with h1
      · simp at h
      · simp only [Out.mk.injEq, Res.ok.injEq] at h
        obtain ⟨-, -, h3⟩ := h
        rw [← h3]
        exact hb.trans ((sigsuspend_keeps _ _ hs).trans
          ((check_signal_keeps st3).trans (setmask_keeps _ _)))
  · simp only [Out.mk.injEq, Res.ok.injEq] at h
    obtain ⟨-, -, h3⟩ := h
    rw [← h3]
    exact hb.trans (setmask_keeps _ _)

theorem wait_for_signal_no_start (st : State) :
    Event.start_child ∉ (wait_for_signal st).events
      ∧ ∀ p, Event.fork p ∉ (wait_for_signal st).events := by
  unfold wait_for_signal
  simp only []
  split_ifs
  · split
    · simp
    · split_ifs <;> simp
  · simp

theorem waitloop_loop_reaps (pid : Int) (st : State) (skip rest : List WaitRet) (w : WaitRet)
    (hskip : ∀ x ∈ skip, retried pid x = true) (hw : w.wpid = pid)
    (ht : WIFEXITED w.status = true ∨ WIFSIGNALED w.status = true) :
    waitloop_loop pid st (skip ++ w :: rest)
      = ⟨skip.map Event.wait
          ++ [.wait w, .collected pid (status_pair w.status).1 (status_pair w.status).2],
        .ok (status_pair w.status) { st with waits := rest }⟩ := by
  induction skip with
  | nil =>
    simp only [List.nil_append, List.map_nil, waitloop_loop, hw, if_true, status_pair]
    by_cases he : WIFEXITED w.status = true
    · simp [he]
    · have hs : WIFSIGNALED w.status = true := by
        rcases ht with h | h
        · exact absurd h he
        · exact h
      simp [he, hs]
  | cons x xs ih =>
    have hx := hskip x (List.mem_cons_self _ _)
    have ih2 := ih (fun y hy => hskip y (List.mem_cons_of_mem _ hy))
    simp only [List.cons_append, waitloop_loop, List.map_cons]
    unfold retried at hx
    by_cases h1 : x.wpid = pid
    · simp only [h1, if_true, Bool.and_eq_true, Bool.not_eq_true'] at hx
      simp [h1, hx.1, hx.2, ih2]
    · simp only [h1, if_false] at hx
      by_cases h2 : x.wpid < 0
      · simp only [h2, if_true, beq_iff_eq] at hx
        simp [h1, h2, hx, ih2]
      · simp [h1, h2, ih2]

theorem WIFSIGNALED_not_exited (status : Nat) (h : WIFSIGNALED status = true) :
    WIFEXITED status = false ∧ WTERMSIG status ≠ 0 := by
  unfold WIFSIGNALED at h
  unfold WIFEXITED
  have hlt : WTERMSIG status < 128 := Nat.mod_lt _ (by decide)
  simp only [decide_eq_true_eq] at h
  have : WTERMSIG status ≠ 0 := by
    intro h0
    rw [h0] at h
    simp at h
  exact ⟨by simpa using this, this⟩

theorem start_child_pos (f : Int) (st : State) (hf : 0 < f) :
    start_child f st = ⟨[.fork f, .write_pid f], .ok () (started f st)⟩ := by
  unfold start_child started
  have h0 : f ≠ 0 := by omega
  simp [h0, hf]

theorem run_head (forks : List Int) (st : State) :
    (run forks st).1.head? = some .start_child := by
  cases forks with
  | nil => simp [run]
  | cons f fs =>
    unfold run
    split
    · simp
    · split
      · simp
      · split_ifs
        · simp
        · split <;> simp
        · split
          · simp
          · split_ifs <;> simp
        · simp

theorem turn_events_count (f : Int) (st : State) (between : List Event) (skip : List WaitRet)
    (w : WaitRet) (tail : List Event) (hb : Event.start_child ∉ between)
    (ht : Event.start_child ∉ tail) :
    (turn_events f (wait_for_signal st).events between skip w ++ tail).count .start_child
      = 1 := by
  have h2 := (wait_for_signal_no_start st).1
  have h3 : Event.start_child ∉ skip.map Event.wait := by simp
  unfold turn_events
  simp only [List.count_append, List.count_eq_zero_of_not_mem h2,
    List.count_eq_zero_of_not_mem hb, List.count_eq_zero_of_not_mem h3,
    List.count_eq_zero_of_not_mem ht]
  simp [List.count_cons]

theorem waitloop_after_signal (f : Int) (st st2 : State) (e2 : List Event) (sig : Int)
    (skip rest : List WaitRet) (w : WaitRet) (hf : 0 < f)
    (hsig : wait_for_signal (started f st) = ⟨e2, .ok sig st2⟩)
    (hwaits : st.waits = skip ++ w :: rest)
    (hskip : ∀ x ∈ skip, retried f x = true) (hw : w.wpid = f)
    (ht : WIFEXITED w.status = true ∨ WIFSIGNALED w.status = true) :
    st2.pid_child = f ∧ st2.kill_ret = st.kill_ret ∧
    waitloop f st2
      = ⟨skip.map Event.wait
          ++ [.wait w, .collected f (status_pair w.status).1 (status_pair w.status).2],
        .ok (status_pair w.status) { st2 with waits := rest }⟩ := by
  have hk := wait_for_signal_keeps _ _ _ _ hsig
  have hp : st2.pid_child = f := hk.1
  have hws : st2.waits = skip ++ w :: rest := by
    rw [hk.2.1]
    exact hwaits
  refine ⟨hp, hk.2.2.1, ?_⟩
  unfold waitloop
  rw [if_pos hf, hws]
  exact waitloop_loop_reaps f st2 skip rest w hskip hw ht

theorem run_turn_chld (f : Int) (forks : List Int) (st st2 : State) (e2 : List Event)
    (skip rest : List WaitRet) (w : WaitRet) (hf : 0 < f)
    (hsig : wait_for_signal (started f st) = ⟨e2, .ok SIGCHLD st2⟩)
    (hwaits : st.waits = skip ++ w :: rest)
    (hskip : ∀ x ∈ skip, retried f x = true) (hw : w.wpid = f)
    (ht : WIFEXITED w.status = true ∨ WIFSIGNALED w.status = true) :
    run (f :: forks) st
      = if 0 = (status_pair w.status).2 ∧ EXIT_SUCCESS = (status_pair w.status).1 then
          (turn_events f e2 [] skip w ++ [.exit EXIT_SUCCESS], .exit EXIT_SUCCESS)
        else
          (turn_events f e2 [] skip w ++ (run forks { st2 with waits := rest }).1,
            (run forks { st2 with waits := rest }).2) := by
  obtain ⟨hp, -, hwl⟩ := waitloop_after_signal f st st2 e2 SIGCHLD skip rest w hf hsig hwaits
    hskip hw ht
  have hne : ¬ (SIGCHLD = SIGTERM ∨ SIGCHLD = SIGINT) := by decide
  rw [run, start_child_pos f st hf]
  simp only [hsig, hne, if_false, if_true, hp, hwl]
  unfold turn_events
  split_ifs <;> simp

theorem run_turn_term (f : Int) (forks : List Int) (st st2 : State) (e2 : List Event)
    (sig : Int) (skip rest : List WaitRet) (w : WaitRet) (hf : 0 < f)
    (hsig : wait_for_signal (started f st) = ⟨e2, .ok sig st2⟩)
    (hs : sig = SIGTERM ∨ sig = SIGINT) (hkill : st.kill_ret = 0)
    (hwaits : st.waits = skip ++ w :: rest)
    (hskip : ∀ x ∈ skip, retried f x = true) (hw : w.wpid = f)
    (ht : WIFEXITED w.status = true ∨ WIFSIGNALED w.status = true) :
    run (f :: forks) st
      = (turn_events f e2 [.kill f SIGTERM] skip w ++ [.exit (status_pair w.status).1],
          .exit (status_pair w.status).1) := by
  obtain ⟨hp, hk, hwl⟩ := waitloop_after_signal f st st2 e2 sig skip rest w hf hsig hwaits
    hskip hw ht
  have hk2 : st2.kill_ret = 0 := by rw [hk, hkill]
  rw [run, start_child_pos f st hf]
  simp only [hsig, hs, if_true, hp, hwl, hk2, ne_eq, not_true_eq_false, if_false]
  unfold turn_events
  simp

theorem foldl_track_quiet (q : List Event) (live : List Int) (hq : ∀ e ∈ q, quiet e) :
    q.foldl track live = live := by
  induction q generalizing live with
  | nil => rfl
  | cons e es ih =>
    rw [List.foldl_cons, (hq e (List.mem_cons_self _ _)).1 live]
    exact ih live (fun x hx => hq x (List.mem_cons_of_mem _ hx))

theorem one_child_append (a b : List Event) (live : List Int) :
    one_child_at_a_time live (a ++ b)
      ↔ one_child_at_a_time live a ∧ one_child_at_a_time (a.foldl track live) b := by
  induction a generalizing live with
  | nil =>
    cases b with
    | nil => simp [one_child_at_a_time]
    | cons e es =>
      simp only [List.nil_append, one_child_at_a_time, List.foldl_nil]
      tauto
  | cons e es ih =>
    show (live.length ≤ 1 ∧ (e = .start_child → live = [])
        ∧ one_child_at_a_time (track live e) (es ++ b))
      ↔ (live.length ≤ 1 ∧ (e = .start_child → live = [])
        ∧ one_child_at_a_time (track live e) es)
        ∧ one_child_at_a_time (es.foldl track (track live e)) b
    rw [ih]
    tauto

theorem one_child_quiet (q : List Event) (live : List Int) (hq : ∀ e ∈ q, quiet e)
    (hl : live.length ≤ 1) : one_child_at_a_time live q := by
  induction q with
  | nil => exact hl
  | cons e es ih =>
    have he := hq e (List.mem_cons_self _ _)
    refine ⟨hl, fun h => absurd h he.2, ?_⟩
    rw [he.1 live]
    exact ih (fun x hx => hq x (List.mem_cons_of_mem _ hx))

theorem one_child_prefixes (evs : List Event) (live : List Int)
    (h : one_child_at_a_time live evs) (pre : List Event) (hp : pre <+: evs) :
    (pre.foldl track live).length ≤ 1
      ∧ ∀ pre2, pre = pre2 ++ [.start_child] → pre2.foldl track live = [] := by
  induction evs generalizing live pre with
  | nil =>
    have : pre = [] := List.eq_nil_of_prefix_nil hp
    subst this
    refine ⟨h, fun pre2 h2 => ?_⟩
    cases pre2 <;> simp at h2
  | cons e es ih =>
    obtain ⟨hl, hs, ht⟩ := h
    rcases List.prefix_cons_iff.mp hp with h0 | ⟨t, rfl, ht2⟩
    · subst h0
      refine ⟨hl, fun pre2 h2 => ?_⟩
      cases pre2 <;> simp at h2
    · obtain ⟨h1, h2⟩ := ih (track live e) ht t ht2
      refine ⟨h1, fun pre2 hpre => ?_⟩
      cases pre2 with
      | nil =>
        simp only [List.nil_append, List.cons.injEq] at hpre
        simpa using hs hpre.1
      | cons x xs =>
        simp only [List.cons_append, List.cons.injEq] at hpre
        obtain ⟨rfl, rfl⟩ := hpre
        simpa using h2 xs rfl

theorem quiet_wait (w : WaitRet) : quiet (.wait w) := ⟨fun _ => rfl, by simp⟩

theorem wait_for_signal_quiet (st : State) : ∀ e ∈ (wait_for_signal st).events, quiet e := by
  unfold wait_for_signal
  simp only []
  split_ifs
  · split
    · simp [quiet, track]
    · split_ifs <;> simp [quiet, track]
  · simp [quiet, track]

theorem waitloop_loop_events (pid : Int) (st : State) (ws : List WaitRet) :
    ∃ q, (∀ e ∈ q, quiet e) ∧
      (((waitloop_loop pid st ws).events = q ∧ ∃ o, (waitloop_loop pid st ws).res = .stop o)
        ∨ ∃ a b st2, (waitloop_loop pid st ws).events = q ++ [.collected pid a b]
            ∧ (waitloop_loop pid st ws).res = .ok (a, b) st2) := by
  induction ws with
  | nil => exact ⟨[], by simp, Or.inl ⟨rfl, _, rfl⟩⟩
  | cons w ws ih =>
    obtain ⟨q, hq, hcase⟩ := ih
    have hq2 : ∀ e ∈ Event.wait w :: q, quiet e := by
      intro e he
      rcases List.mem_cons.mp he with h | h
      · rw [h]; exact quiet_wait w
      · exact hq e h
    have hq1 : ∀ e ∈ [Event.wait w], quiet e := by
      intro e he
      rw [List.mem_singleton.mp he]
      exact quiet_wait w
    have hrec : ∃ q, (∀ e ∈ q, quiet e) ∧
        (((Event.wait w :: (waitloop_loop pid st ws).events) = q
            ∧ ∃ o, (waitloop_loop pid st ws).res = .stop o)
          ∨ ∃ a b st2, (Event.wait w :: (waitloop_loop pid st ws).events)
              = q ++ [.collected pid a b]
              ∧ (waitloop_loop pid st ws).res = .ok (a, b) st2) := by
      refine ⟨Event.wait w :: q, hq2, ?_⟩
      rcases hcase with ⟨h1, h2⟩ | ⟨a, b, st2, h1, h2⟩
      · exact Or.inl ⟨by rw [h1], h2⟩
      · exact Or.inr ⟨a, b, st2, by rw [h1]; rfl, h2⟩
    unfold waitloop_loop
    split_ifs
    · exact ⟨[Event.wait w], hq1, Or.inr ⟨_, _, _, rfl, rfl⟩⟩
    · exact ⟨[Event.wait w], hq1, Or.inr ⟨_, _, _, rfl, rfl⟩⟩
    · exact hrec
    · exact hrec
    · exact ⟨[Event.wait w], hq1, Or.inl ⟨rfl, _, rfl⟩⟩
    · exact ⟨[Event.wait w], hq1, Or.inl ⟨rfl, _, rfl⟩⟩
    · exact hrec

theorem one_child_started (f : Int) (hf : 0 < f) (tail : List Event)
    (h : one_child_at_a_time [f] tail) :
    one_child_at_a_time [] (.start_child :: .fork f :: .write_pid f :: tail) := by
  refine ⟨by simp, fun _ => rfl, by simp [track], fun h => by simp at h, ?_⟩
  simp only [track, hf, if_true]
  refine ⟨by simp, fun h => by simp at h, ?_⟩
  exact h

theorem one_child_collect (f a b : Int) (q tail : List Event) (hq : ∀ e ∈ q, quiet e)
    (h : one_child_at_a_time [] tail) :
    one_child_at_a_time [f] (q ++ .collected f a b :: tail) := by
  rw [one_child_append]
  refine ⟨one_child_quiet q [f] hq (by simp), ?_⟩
  rw [foldl_track_quiet q [f] hq]
  refine ⟨by simp, fun h => by simp at h, ?_⟩
  simpa [track] using h

theorem waitloop_events (pid : Int) (st : State) :
    ∃ q, (∀ e ∈ q, quiet e) ∧
      (((waitloop pid st).events = q ∧ ∃ o, (waitloop pid st).res = .stop o)
        ∨ ∃ a b st2, (waitloop pid st).events = q ++ [.collected pid a b]
            ∧ (waitloop pid st).res = .ok (a, b) st2) := by
  unfold waitloop
  split_ifs
  · exact waitloop_loop_events pid st st.waits
  · exact ⟨[], by simp, Or.inl ⟨rfl, _, rfl⟩⟩

theorem run_one_child (forks : List Int) (st : State) :
    one_child_at_a_time [] (run forks st).1 := by
  induction forks generalizing st with
  | nil => simp [run, one_child_at_a_time, track]
  | cons f fs ih =>
    by_cases hf : 0 < f
    · rw [run, start_child_pos f st hf]
      simp only []
      have hq2 := wait_for_signal_quiet (started f st)
      cases hw : wait_for_signal (started f st) with
      | mk e2 r2 =>
        rw [hw] at hq2
        simp only [] at hq2
        cases r2 with
        | stop o =>
          exact one_child_started f hf e2 (one_child_quiet e2 [f] hq2 (by simp))
        | ok sig st2 =>
          have hp : st2.pid_child = f := (wait_for_signal_keeps _ _ _ _ hw).1
          obtain ⟨q, hq, hcase⟩ := waitloop_events f st2
          have hkq : ∀ e ∈ e2 ++ [Event.kill f SIGTERM], quiet e := by
            intro e he
            rcases List.mem_append.mp he with h | h
            · exact hq2 e h
            · rw [List.mem_singleton.mp h]
              exact ⟨fun _ => rfl, by simp⟩
          simp only [hp]
          split_ifs with h1 h2 h3
          · exact one_child_started f hf _ (one_child_quiet _ [f] hkq (by simp))
          · cases hwl : waitloop f st2 with
            | mk e3 r3 =>
              rw [hwl] at hcase
              simp only [] at hcase
              cases r3 with
              | stop o =>
                rcases hcase with ⟨h4, -⟩ | ⟨a, b, st3, -, h5⟩
                · subst h4
                  refine one_child_started f hf _ (one_child_quiet _ [f] ?_ (by simp))
                  intro e he
                  rcases List.mem_append.mp he with h | h
                  · exact hkq e h
                  · exact hq e h
                · simp at h5
              | ok v st3 =>
                rcases hcase with ⟨-, o, h5⟩ | ⟨a, b, st4, h4, h5⟩
                · simp at h5
                · subst h4
                  obtain ⟨status, signal⟩ := v
                  simp only []
                  have := one_child_collect f a b (e2 ++ [Event.kill f SIGTERM] ++ q)
                    [.exit status] (by
                      intro e he
                      rcases List.mem_append.mp he with h | h
                      · exact hkq e h
                      · exact hq e h) (by simp [one_child_at_a_time, track])
                  have := one_child_started f hf _ this
                  simpa using this
          · cases hwl : waitloop f st2 with
            | mk e3 r3 =>
              rw [hwl] at hcase
              simp only [] at hcase
              cases r3 with
              | stop o =>
                rcases hcase with ⟨h4, -⟩ | ⟨a, b, st3, -, h5⟩
                · subst h4
                  refine one_child_started f hf _ (one_child_quiet _ [f] ?_ (by simp))
                  intro e he
                  rcases List.mem_append.mp he with h | h
                  · exact hq2 e h
                  · exact hq e h
                · simp at h5
              | ok v st3 =>
                rcases hcase with ⟨-, o, h5⟩ | ⟨a, b, st4, h4, h5⟩
                · simp at h5
                · subst h4
                  obtain ⟨status, signal⟩ := v
                  simp only []
                  split_ifs
                  · have := one_child_collect f a b (e2 ++ q)
                      [.exit EXIT_SUCCESS] (by
                        intro e he
                        rcases List.mem_append.mp he with h | h
                        · exact hq2 e h
                        · exact hq e h) (by simp [one_child_at_a_time, track])
                    have := one_child_started f hf _ this
                    simpa using this
                  · have := one_child_collect f a b (e2 ++ q)
                      (run fs st3).1 (by
                        intro e he
                        rcases List.mem_append.mp he with h | h
                        · exact hq2 e h
                        · exact hq e h) (ih st3)
                    have := one_child_started f hf _ this
                    simpa using this
          · exact one_child_started f hf e2 (one_child_quiet e2 [f] hq2 (by simp))
    · have hs : ∃ o, start_child f st = ⟨[.fork f], .stop o⟩ := by
        unfold start_child
        split_ifs with h0
        · exact ⟨_, rfl⟩
        · exact ⟨_, rfl⟩
      obtain ⟨o, ho⟩ := hs
      rw [run, ho]
      simp only []
      refine ⟨by simp, fun _ => rfl, by simp [track], fun h => by simp at h, ?_⟩
      have : ¬ f > 0 := hf
      simp [track, this, one_child_at_a_time]

theorem status_pair_fst (status : Nat) :
    (status_pair status).1 = (child_exit_status status).getD 0 := by
  unfold status_pair child_exit_status
  split_ifs <;> simp

/-- C1 (amended). In one turn of `run` in which `waitloop` reaps the tracked child `f` with
wait status `w.status`, after `wait_for_signal` reported `SIGCHLD`, or reported
`SIGTERM` or `SIGINT` and `kill` succeeded: if the child exited with status 0 the
watchdog exits with code 0 and `start_child` was called once only; if the child
exited with another status or was killed by a signal and the report was `SIGCHLD`,
the turn ends without an exit and the next event is a call of `start_child`. -/
theorem run_restart_policy (f : Int) (forks : List Int) (st st2 : State) (e2 : List Event)
    (sig : Int) (skip rest : List WaitRet) (w : WaitRet) (hf : 0 < f)
    (hsig : wait_for_signal (started f st) = ⟨e2, .ok sig st2⟩)
    (hs : sig = SIGCHLD ∨ ((sig = SIGTERM ∨ sig = SIGINT) ∧ st.kill_ret = 0))
    (hwaits : st.waits = skip ++ w :: rest)
    (hskip : ∀ x ∈ skip, retried f x = true) (hw : w.wpid = f)
    (ht : WIFEXITED w.status = true ∨ WIFSIGNALED w.status = true) :
    ((WIFEXITED w.status = true ∧ WEXITSTATUS w.status = 0) →
        (run (f :: forks) st).2 = .exit 0
          ∧ (run (f :: forks) st).1.getLast? = some (.exit 0)
          ∧ (run (f :: forks) st).1.count .start_child = 1)
    ∧ (sig = SIGCHLD →
        ((WIFEXITED w.status = true ∧ WEXITSTATUS w.status ≠ 0)
          ∨ WIFSIGNALED w.status = true) →
        run (f :: forks) st
            = (turn_events f e2 [] skip w ++ (run forks { st2 with waits := rest }).1,
                (run forks { st2 with waits := rest }).2)
          ∧ (run forks { st2 with waits := rest }).1.head? = some .start_child) := by
  have he2 : e2 = (wait_for_signal (started f st)).events := by rw [hsig]
  constructor
  · rintro ⟨hex, h0⟩
    have hp : status_pair w.status = (0, 0) := by
      simp [status_pair, hex, h0]
    rcases hs with hc | ⟨hti, hk⟩
    · subst hc
      have hrun := run_turn_chld f forks st st2 e2 skip rest w hf hsig hwaits hskip hw ht
      rw [if_pos (by simp [hp, EXIT_SUCCESS])] at hrun
      rw [hrun, he2]
      refine ⟨rfl, by simp [EXIT_SUCCESS], ?_⟩
      exact turn_events_count f (started f st) [] skip w [.exit EXIT_SUCCESS] (by simp)
        (by simp)
    · have hrun := run_turn_term f forks st st2 e2 sig skip rest w hf hsig hti hk hwaits hskip
        hw ht
      rw [hrun, he2]
      refine ⟨by rw [hp], by simp [hp], ?_⟩
      exact turn_events_count f (started f st) [.kill f SIGTERM] skip w _ (by simp) (by simp)
  · intro hc hab
    subst hc
    have hrun := run_turn_chld f forks st st2 e2 skip rest w hf hsig hwaits hskip hw ht
    have hne : ¬ (0 = (status_pair w.status).2 ∧ EXIT_SUCCESS = (status_pair w.status).1) := by
      rcases hab with ⟨hex, h0⟩ | hsg
      · simp only [status_pair, hex, if_true, EXIT_SUCCESS]
        intro h
        apply h0
        have := h.2
        omega
      · obtain ⟨hne, hts⟩ := WIFSIGNALED_not_exited w.status hsg
        simp only [status_pair, hne, Bool.false_eq_true, if_false]
        intro h
        apply hts
        have := h.1
        omega
    rw [if_neg hne] at hrun
    exact ⟨hrun, run_head _ _⟩

/-- Witness of C1: the child 100 exits with status 1 (wait status 256) and is started
again as 101. -/
theorem run_restart_policy_witness :
    run [100, 101] (State.init [[SIGCHLD]] [] 0 [⟨100, 256, 0⟩])
      = (turn_events 100 [.sigprocmask_block, .check_signal SIGCHLD, .sigprocmask_restore]
            [] [] ⟨100, 256, 0⟩
          ++ (run [101] { State.init [] [] 0 [] with pid_child := 100 }).1,
          (run [101] { State.init [] [] 0 [] with pid_child := 100 }).2)
      ∧ (run [101] { State.init [] [] 0 [] with pid_child := 100 }).1.head?
          = some .start_child :=
  (run_restart_policy 100 [101] (State.init [[SIGCHLD]] [] 0 [⟨100, 256, 0⟩])
    { State.init [] [] 0 [⟨100, 256, 0⟩] with pid_child := 100 }
    [.sigprocmask_block, .check_signal SIGCHLD, .sigprocmask_restore] SIGCHLD
    [] [] ⟨100, 256, 0⟩ (by decide) (by decide) (Or.inl rfl) (by decide) (by simp) (by decide)
    (by decide)).2 rfl (by decide)

/-- Counterexample to C1 as stated: a terminate signal is pending, the child 100 is sent
`SIGTERM` and exits with status 1 (wait status 256); the watchdog reaps this non-zero
status and exits with code 1, and `start_child` is not called again although `fork`
would have returned 101. -/
theorem run_restart_policy_counterexample :
    run [100, 101] (State.init [[SIGTERM]] [] 0 [⟨100, 256, 0⟩])
      = ([.start_child, .fork 100, .write_pid 100, .sigprocmask_block,
          .check_signal SIGTERM, .sigprocmask_restore, .kill 100 SIGTERM,
          .wait ⟨100, 256, 0⟩, .collected 100 1 0, .exit 1], .exit 1)
      ∧ WIFEXITED 256 = true ∧ WEXITSTATUS 256 = 1 := by
  decide

/-- C2 (amended). When `wait_for_signal` reports `SIGTERM` or `SIGINT`, `kill` succeeds and
`waitloop` reaps the tracked child `f` with wait status `w.status`, `run` sends
`SIGTERM` to `f`, calls `start_child` no more, and exits with the exit status of the
child when the child exited and with 0 when the child was killed by a signal. -/
theorem run_terminate_exit_code (f : Int) (forks : List Int) (st st2 : State)
    (e2 : List Event) (sig : Int) (skip rest : List WaitRet) (w : WaitRet) (hf : 0 < f)
    (hsig : wait_for_signal (started f st) = ⟨e2, .ok sig st2⟩)
    (hs : sig = SIGTERM ∨ sig = SIGINT) (hkill : st.kill_ret = 0)
    (hwaits : st.waits = skip ++ w :: rest)
    (hskip : ∀ x ∈ skip, retried f x = true) (hw : w.wpid = f)
    (ht : WIFEXITED w.status = true ∨ WIFSIGNALED w.status = true) :
    run (f :: forks) st
        = (turn_events f e2 [.kill f SIGTERM] skip w
            ++ [.exit ((child_exit_status w.status).getD 0)],
          .exit ((child_exit_status w.status).getD 0))
      ∧ (run (f :: forks) st).1.count .start_child = 1
      ∧ (WIFEXITED w.status = true →
          (child_exit_status w.status).getD 0 = WEXITSTATUS w.status)
      ∧ (WIFSIGNALED w.status = true → (child_exit_status w.status).getD 0 = 0) := by
  have hrun := run_turn_term f forks st st2 e2 sig skip rest w hf hsig hs hkill hwaits hskip
    hw ht
  have he2 : e2 = (wait_for_signal (started f st)).events := by rw [hsig]
  rw [status_pair_fst] at hrun
  refine ⟨hrun, ?_, ?_, ?_⟩
  · rw [hrun, he2]
    exact turn_events_count f (started f st) [.kill f SIGTERM] skip w _ (by simp) (by simp)
  · intro h
    simp [child_exit_status, h]
  · intro h
    simp [child_exit_status, (WIFSIGNALED_not_exited w.status h).1]

/-- Witness of C2: a terminate signal is pending and the child 100, once signalled, exits
with status 3 (wait status 768). -/
theorem run_terminate_exit_code_witness :
    (run [100, 101] (State.init [[SIGTERM]] [] 0 [⟨100, 768, 0⟩])).2 = .exit 3 := by
  have h := (run_terminate_exit_code 100 [101] (State.init [[SIGTERM]] [] 0 [⟨100, 768, 0⟩])
    { State.init [] [] 0 [⟨100, 768, 0⟩] with pid_child := 100, ach_got_sigterm := 1 }
    [.sigprocmask_block, .check_signal SIGTERM, .sigprocmask_restore] SIGTERM
    [] [] ⟨100, 768, 0⟩ (by decide) (by decide) (by decide) (by decide) (by decide) (by simp)
    (by decide) (by decide)).1
  rw [h]
  decide

/-- Counterexample to C2 as stated: a terminate signal is pending and the child 100 is
killed by the `SIGTERM` that `run` sends (wait status 15).  The child did not exit, so
it has no exit status, and the watchdog exits with code 0. -/
theorem run_terminate_exit_code_counterexample :
    run [100] (State.init [[SIGTERM]] [] 0 [⟨100, 15, 0⟩])
      = ([.start_child, .fork 100, .write_pid 100, .sigprocmask_block,
          .check_signal SIGTERM, .sigprocmask_restore, .kill 100 SIGTERM,
          .wait ⟨100, 15, 0⟩, .collected 100 0 15, .exit 0], .exit 0)
      ∧ WIFSIGNALED 15 = true ∧ WIFEXITED 15 = false ∧ child_exit_status 15 = none := by
  decide

/-- C3. At every point of every run of the watchdog at most one child has been forked and
not collected, and whenever `start_child` is called no child is uncollected: the
status of the child started before has been returned by `waitloop`. -/
theorem run_at_most_one_child (forks : List Int) (st : State) (pre : List Event)
    (hp : pre <+: (run forks st).1) :
    (uncollected pre).length ≤ 1
      ∧ ∀ pre2, pre = pre2 ++ [.start_child] → uncollected pre2 = [] :=
  one_child_prefixes (run forks st).1 [] (run_one_child forks st) pre hp

/-- Witness of C3: the child 100 exits with status 1 and `start_child` is called again;
at that point no child is uncollected. -/
theorem run_at_most_one_child_witness :
    uncollected [.start_child, .fork 100, .write_pid 100, .sigprocmask_block,
      .check_signal SIGCHLD, .sigprocmask_restore, .wait ⟨100, 256, 0⟩,
      .collected 100 1 0] = [] :=
  (run_at_most_one_child [100, 101] (State.init [[SIGCHLD]] [] 0 [⟨100, 256, 0⟩])
    [.start_child, .fork 100, .write_pid 100, .sigprocmask_block,
      .check_signal SIGCHLD, .sigprocmask_restore, .wait ⟨100, 256, 0⟩,
      .collected 100 1 0, .start_child]
    ⟨(run [101] (State.init [] [] 0 [])).1.tail, by decide⟩).2 _ rfl

/-! ### Signals -/

theorem check_signal_zero_iff (st : State) : (check_signal st).1 = 0 ↔ counters_zero st := by
  unfold check_signal counters_zero
  by_cases h1 : st.ach_got_sigterm = 0 <;> by_cases h2 : st.ach_got_sigint = 0 <;>
    by_cases h3 : st.ach_got_sigchild = 0 <;> simp [h1, h2, h3, SIGTERM, SIGINT, SIGCHLD]

theorem sighandler_sigmask (st : State) (sig : Int) : (sighandler st sig).sigmask = st.sigmask := by
  unfold sighandler; split_ifs <;> rfl

theorem deliver_sigmask (sigs : List Int) (st : State) : (deliver st sigs).sigmask = st.sigmask := by
  induction sigs generalizing st with
  | nil => rfl
  | cons s ss ih => exact (ih (sighandler st s)).trans (sighandler_sigmask st s)

theorem arrive_sigmask (st : State) : st.arrive.sigmask = st.sigmask := by
  unfold State.arrive; rw [deliver_sigmask]

theorem check_signal_sigmask (st : State) : (check_signal st).2.sigmask = st.sigmask := by
  unfold check_signal; split_ifs <;> rfl

theorem sigsuspend_sigmask (st st3 : State) (h : sigsuspend st = some st3) :
    st3.sigmask = st.sigmask := by
  unfold sigsuspend at h
  cases hs : st.suspends with
  | nil => rw [hs] at h; cases h
  | cons a b => rw [hs] at h; cases h; rw [deliver_sigmask]

/-- C19: `check_signal` returns the indicator of termination when the terminate counter
is non-zero, else that of interrupt when the interrupt counter is non-zero, else that
of a child status change when that counter is non-zero, else 0; it takes one from the
child counter exactly when it returns the child indicator, changes nothing else of
the state then, and changes nothing at all otherwise, so the terminate and interrupt
counters are never changed. -/
theorem check_signal_priority (st : State) :
    ((check_signal st).1 =
      if st.ach_got_sigterm ≠ 0 then SIGTERM
      else if st.ach_got_sigint ≠ 0 then SIGINT
      else if st.ach_got_sigchild ≠ 0 then SIGCHLD else 0) ∧
    ((check_signal st).1 = SIGCHLD →
      (check_signal st).2 = { st with ach_got_sigchild := st.ach_got_sigchild - 1 }) ∧
    ((check_signal st).1 ≠ SIGCHLD → (check_signal st).2 = st) ∧
    (check_signal st).2.ach_got_sigterm = st.ach_got_sigterm ∧
    (check_signal st).2.ach_got_sigint = st.ach_got_sigint := by
  unfold check_signal
  by_cases h1 : st.ach_got_sigterm = 0 <;> by_cases h2 : st.ach_got_sigint = 0 <;>
    by_cases h3 : st.ach_got_sigchild = 0 <;> simp [h1, h2, h3, SIGTERM, SIGINT, SIGCHLD]

theorem check_signal_priority_witness :
    (check_signal { State.init [] [] 0 [] with ach_got_sigchild := 2 }).2
        = { State.init [] [] 0 [] with ach_got_sigchild := 1 } ∧
      (check_signal { State.init [] [] 0 [] with ach_got_sigterm := 1, ach_got_sigchild := 2 }).2
        = { State.init [] [] 0 [] with ach_got_sigterm := 1, ach_got_sigchild := 2 } :=
  ⟨(check_signal_priority { State.init [] [] 0 [] with ach_got_sigchild := 2 }).2.1 rfl,
    (check_signal_priority
      { State.init [] [] 0 [] with ach_got_sigterm := 1, ach_got_sigchild := 2 }).2.2.1
      (by decide)⟩

/-- C20: in every execution of `wait_for_signal` the three signals are blocked in the
state that is inspected first, and every inspection lies between the call that
blocks them and the call that restores the mask; the function suspends if and only
if the first inspection found all counters zero; when the suspend returns, the
signals are blocked again and the counters are inspected once more before the mask is
restored; and when the function returns an indicator, the indicator is non-zero, the
mask is the one saved on entry and restoring it was the last thing done. -/
theorem wait_for_signal_discipline (st : State) :
    all_blocked st.arrive.block ∧
    blocked_at_checks false (wait_for_signal st).events = true ∧
    (Event.sigsuspend ∈ (wait_for_signal st).events ↔ counters_zero st.arrive) ∧
    (¬ counters_zero st.arrive →
      (wait_for_signal st).events =
        [.sigprocmask_block, .check_signal (check_signal st.arrive.block).1,
          .sigprocmask_restore]) ∧
    (∀ st3, counters_zero st.arrive →
      sigsuspend (check_signal st.arrive.block).2 = some st3 →
      all_blocked st3 ∧
      (wait_for_signal st).events =
        [.sigprocmask_block, .check_signal 0, .sigsuspend,
          .check_signal (check_signal st3).1, .sigprocmask_restore]) ∧
    (∀ r st', (wait_for_signal st).res = .ok r st' →
      r ≠ 0 ∧ st'.sigmask = st.sigmask ∧
      (wait_for_signal st).events.getLast? = some .sigprocmask_restore) := by
  have hb : all_blocked st.arrive.block := by
    unfold all_blocked State.block; simp
  have hz := check_signal_zero_iff st.arrive.block
  have hcz : counters_zero st.arrive.block ↔ counters_zero st.arrive := Iff.rfl
  rw [hcz] at hz
  refine ⟨hb, ?_⟩
  by_cases h0 : (check_signal st.arrive.block).1 = 0
  · have hc := hz.1 h0
    cases hs : sigsuspend (check_signal st.arrive.block).2 with
    | none =>
      have hw : wait_for_signal st = ⟨[.sigprocmask_block,
          .check_signal (check_signal st.arrive.block).1, .sigsuspend], .stop .running⟩ := by
        unfold wait_for_signal; simp only [h0, if_true, hs]
      rw [hw]
      refine ⟨by simp [blocked_at_checks], by simp [hc], fun h => absurd hc h, ?_, ?_⟩
      · intro st3 _ h; cases h
      · intro r st' h; cases h
    | some st3 =>
      have hm : all_blocked st3 := by
        have := sigsuspend_sigmask _ _ hs
        rw [check_signal_sigmask] at this
        unfold all_blocked; rw [this]; exact hb
      by_cases h2 : (check_signal st3).1 = 0
      · have hw : wait_for_signal st = ⟨[.sigprocmask_block,
            .check_signal (check_signal st.arrive.block).1, .sigsuspend,
            .check_signal (check_signal st3).1, .sigprocmask_restore], .stop .abort⟩ := by
          unfold wait_for_signal; simp only [h0, if_true, hs, h2]
        rw [hw]
        refine ⟨by simp [blocked_at_checks], by simp [hc], fun h => absurd hc h, ?_, ?_⟩
        · intro s3 _ h; cases h; exact ⟨hm, by rw [h0]⟩
        · intro r st' h; cases h
      · have hw : wait_for_signal st = ⟨[.sigprocmask_block,
            .check_signal (check_signal st.arrive.block).1, .sigsuspend,
            .check_signal (check_signal st3).1, .sigprocmask_restore],
            .ok (check_signal st3).1 ((check_signal st3).2.setmask st.arrive.sigmask)⟩ := by
          unfold wait_for_signal; simp only [h0, if_true, hs, h2, if_false]
        rw [hw]
        refine ⟨by simp [blocked_at_checks], by simp [hc], fun h => absurd hc h, ?_, ?_⟩
        · intro s3 _ h; cases h; exact ⟨hm, by rw [h0]⟩
        · intro r st' h; cases h
          exact ⟨h2, by rw [← arrive_sigmask st]; rfl, rfl⟩
  · have hc : ¬ counters_zero st.arrive := fun h => h0 (hz.2 h)
    have hw : wait_for_signal st = ⟨[.sigprocmask_block,
        .check_signal (check_signal st.arrive.block).1, .sigprocmask_restore],
        .ok (check_signal st.arrive.block).1
          ((check_signal st.arrive.block).2.setmask st.arrive.sigmask)⟩ := by
      unfold wait_for_signal; simp only [h0, if_false]
    rw [hw]
    refine ⟨by simp [blocked_at_checks], by simp [hc], fun _ => rfl, ?_, ?_⟩
    · intro st3 h; exact absurd h hc
    · intro r st' h; cases h
      exact ⟨h0, by rw [← arrive_sigmask st]; rfl, rfl⟩

theorem wait_for_signal_discipline_witness :
    all_blocked (deliver { (State.init [] [[SIGCHLD]] 0 []).arrive.block with suspends := [] }
        [SIGCHLD]) ∧
      (wait_for_signal (State.init [] [[SIGCHLD]] 0 [])).events =
        [.sigprocmask_block, .check_signal 0, .sigsuspend,
          .check_signal (check_signal (deliver
            { (State.init [] [[SIGCHLD]] 0 []).arrive.block with suspends := [] }
            [SIGCHLD])).1, .sigprocmask_restore] :=
  (wait_for_signal_discipline (State.init [] [[SIGCHLD]] 0 [])).2.2.2.2.1 _
    ⟨rfl, rfl, rfl⟩ rfl

/-! ### Pid files -/

/-- C17, amended: after every call of `start_child` in the parent, with a pid file
open, the content of the file is the decimal rendering of the pid of the new child
followed by whatever of the earlier content lay beyond that many characters; it is
the rendering and nothing else when the earlier content was not longer. -/
theorem start_child_pid_file (f : Int) (st : State) (old : List Char) (hf : 0 < f)
    (hfp : st.fp_pid = some old) :
    ∃ st', (start_child f st).res = .ok () st' ∧ st'.pid_child = f ∧
      st'.fp_pid = some (fmt_d f ++ old.drop (fmt_d f).length) ∧
      (old.length ≤ (fmt_d f).length → st'.fp_pid = some (fmt_d f)) := by
  have h0 : ¬ f = 0 := by omega
  have h1 : f > 0 := hf
  refine ⟨{ st with pid_child := f, fp_pid := write_pid st.fp_pid f }, ?_, rfl, ?_, ?_⟩
  · unfold start_child; rw [if_neg h0, if_pos h1]
  · show write_pid st.fp_pid f = _
    rw [hfp]; rfl
  · intro hl
    show write_pid st.fp_pid f = _
    rw [hfp]
    show some (fmt_d f ++ old.drop (fmt_d f).length) = _
    rw [List.drop_eq_nil_of_le hl, List.append_nil]

theorem start_child_pid_file_witness :
    ∃ st', (start_child 999 { State.init [] [] 0 [] with fp_pid := some "12345".toList }).res
        = .ok () st' ∧ st'.pid_child = 999 ∧
      st'.fp_pid = some (fmt_d 999 ++ "12345".toList.drop (fmt_d 999).length) ∧
      ("12345".toList.length ≤ (fmt_d 999).length → st'.fp_pid = some (fmt_d 999)) :=
  start_child_pid_file 999 { State.init [] [] 0 [] with fp_pid := some "12345".toList }
    "12345".toList (by decide) rfl

/-- C17, counterexample: the pid 12345 is written to an empty pid file, then the child
is restarted with the pid 999: the file holds `99945`, which is not the rendering of
the pid of the current child. -/
theorem start_child_pid_file_counterexample :
    ∃ st1 st2,
      (start_child 12345 { State.init [] [] 0 [] with fp_pid := some [] }).res = .ok () st1 ∧
      st1.fp_pid = some "12345".toList ∧
      (start_child 999 st1).res = .ok () st2 ∧
      st2.pid_child = 999 ∧ fmt_d st2.pid_child = "999".toList ∧
      st2.fp_pid = some "99945".toList := by
  refine ⟨_, _, rfl, ?_, rfl, ?_, ?_, ?_⟩ <;> decide

theorem getopt_lookup_mem (s : List Char) (c : Char) (b : Bool)
    (h : getopt_lookup s c = some b) : c ∈ s := by
  induction s with
  | nil => cases h
  | cons a rest ih =>
    unfold getopt_lookup at h
    split_ifs at h with hac
    · rw [hac]; exact List.mem_cons_self _ _
    · exact List.mem_cons_of_mem _ (ih h)

theorem getopt_cluster_chars (cs : List Char) (next : Option (List Char)) :
    ∀ g ∈ (getopt_cluster cs next).1, g.c = '?' ∨ g.c ∈ optstring := by
  induction cs with
  | nil => intro g hg; cases hg
  | cons c cs ih =>
    intro g hg
    unfold getopt_cluster at hg
    have hc : ¬ (c = ':' ∨ getopt_lookup optstring c = none) → c ∈ optstring := by
      intro hn
      cases hl : getopt_lookup optstring c with
      | none => exact absurd (Or.inr hl) hn
      | some b => exact getopt_lookup_mem _ _ _ hl
    split_ifs at hg with h1 h2 h3
    · rcases List.mem_cons.1 hg with h | h
      · left; rw [h]
      · exact ih g h
    · rcases List.mem_cons.1 hg with h | h
      · right; rw [h]; exact hc h1
      · exact ih g h
    · rw [List.mem_singleton.1 hg]; right; exact hc h1
    · split at hg
      · rw [List.mem_singleton.1 hg]; right; exact hc h1
      · rw [List.mem_singleton.1 hg]; left; rfl

theorem getopt_from_chars (args : List (List Char)) :
    ∀ b, ∀ g ∈ (getopt_from b args).1, g.c = '?' ∨ g.c ∈ optstring := by
  induction args with
  | nil => intro b g hg; cases b <;> cases hg
  | cons a rest ih =>
    intro b g hg
    cases b with
    | true => exact ih false g hg
    | false =>
      unfold getopt_from at hg
      split_ifs at hg
      · cases hg
      · rcases List.mem_append.1 hg with h | h
        · exact getopt_cluster_chars _ _ g h
        · exact ih _ g h
      · exact ih false g hg

theorem parse_options_no_cop (gs : List GetoptRet) :
    ∀ opt opt2, (∀ g ∈ gs, g.c ≠ 'P') → opt.file_cop_pid = none →
      parse_options gs opt = .ok opt2 → opt2.file_cop_pid = none := by
  induction gs with
  | nil => intro opt opt2 _ h0 h; cases h; exact h0
  | cons g gs ih =>
    intro opt opt2 hg h0 h
    have hP : g.c ≠ 'P' := hg g (List.mem_cons_self _ _)
    have hgs : ∀ x ∈ gs, x.c ≠ 'P' := fun x hx => hg x (List.mem_cons_of_mem _ hx)
    unfold parse_options at h
    rw [if_neg hP] at h
    split_ifs at h
    all_goals exact ih _ opt2 hgs (by exact h0) h

theorem main_no_cop_file (argv : List (List Char)) (env : Env) (forks : List Int)
    (st : State) : (main argv env forks st).fp_cop_pid = none := by
  unfold main
  cases hp : parse_options (getopt argv.tail).1 Opt.zero with
  | error o => rfl
  | ok opt =>
    have hno : ∀ g ∈ (getopt argv.tail).1, g.c ≠ 'P' := by
      intro g hg hc
      rcases getopt_from_chars _ _ g hg with h | h
      · rw [hc] at h; exact absurd h (by decide)
      · rw [hc] at h; exact absurd h (by decide)
    have h0 := parse_options_no_cop _ Opt.zero opt hno rfl hp
    show (startup opt (getopt argv.tail).2 env forks st).fp_cop_pid = none
    unfold startup
    rw [h0]
    split_ifs
    · rfl
    · split
      · rfl
      · simp only [lock_pid]
        split
        · rfl
        · rfl
    · split
      · rfl
      · simp only [lock_pid]
        split
        · rfl
        · rfl

/-- C18: the start of the watchdog does not write its own pid.  The option `-P` that the
usage text gives for the pid file of the watchdog is not in the option string of
`getopt`, so the arguments `-P cop.pid -- child` end in the usage text and `exit`;
for no arguments at all is a pid file of the watchdog opened; and when the options
do name one, the value written is `cx.pid_cop`, which is 0, not a process
identifier. -/
theorem main_supervisor_pid :
    (∀ env forks st,
      main ["achcop".toList, "-P".toList, "cop.pid".toList, "--".toList, "child".toList]
        env forks st = ⟨none, [], .exit EXIT_SUCCESS⟩) ∧
    (∀ argv env forks st, (main argv env forks st).fp_cop_pid = none) ∧
    (∀ forks st,
      (startup { Opt.zero with file_cop_pid := some "cop.pid".toList } ["child".toList]
        Env.plain forks st).fp_cop_pid = some ['0'] ∧
      (startup { Opt.zero with file_cop_pid := some "cop.pid".toList } ["child".toList]
        Env.plain forks st).events.head? = some (.write_pid 0)) :=
  ⟨fun _ _ _ => rfl, main_no_cop_file, fun _ _ => ⟨rfl, rfl⟩⟩

/-! ### The wait for the child -/

theorem waitloop_loop_fatal (pid : Int) (st : State) (skip rest : List WaitRet) (w : WaitRet)
    (hskip : ∀ x ∈ skip, retried pid x = true) (h1 : w.wpid ≠ pid) (h2 : w.wpid < 0)
    (h3 : w.errno ≠ EINTR) :
    waitloop_loop pid st (skip ++ w :: rest)
      = ⟨skip.map Event.wait ++ [.wait w], .stop .die⟩ := by
  induction skip with
  | nil =>
    show waitloop_loop pid st (w :: rest) = _
    unfold waitloop_loop
    rw [if_neg h1, if_pos h2, if_neg h3]
    split_ifs <;> rfl
  | cons x xs ih =>
    have hx : retried pid x = true := hskip x (List.mem_cons_self _ _)
    have ih2 := ih (fun y hy => hskip y (List.mem_cons_of_mem _ hy))
    show waitloop_loop pid st (x :: (xs ++ w :: rest)) = _
    unfold waitloop_loop
    unfold retried at hx
    by_cases a : x.wpid = pid
    · rw [if_pos a] at hx ⊢
      simp only [Bool.and_eq_true, Bool.not_eq_true'] at hx
      rw [hx.1, hx.2]
      simp only [Bool.false_eq_true, if_false, ih2]
      rfl
    · rw [if_neg a] at hx ⊢
      by_cases b : x.wpid < 0
      · rw [if_pos b] at hx ⊢
        have c : x.errno = EINTR := by simpa using hx
        rw [if_pos c]
        simp only [ih2]
        rfl
      · rw [if_neg b]
        simp only [ih2]
        rfl

theorem waitloop_loop_blocked (pid : Int) (st : State) (ws : List WaitRet)
    (hskip : ∀ x ∈ ws, retried pid x = true) :
    waitloop_loop pid st ws = ⟨ws.map Event.wait, .stop .running⟩ := by
  induction ws with
  | nil => rfl
  | cons x xs ih =>
    have hx : retried pid x = true := hskip x (List.mem_cons_self _ _)
    have ih2 := ih (fun y hy => hskip y (List.mem_cons_of_mem _ hy))
    unfold waitloop_loop
    unfold retried at hx
    by_cases a : x.wpid = pid
    · rw [if_pos a] at hx ⊢
      simp only [Bool.and_eq_true, Bool.not_eq_true'] at hx
      rw [hx.1, hx.2]
      simp only [Bool.false_eq_true, if_false, ih2]
      rfl
    · rw [if_neg a] at hx ⊢
      by_cases b : x.wpid < 0
      · rw [if_pos b] at hx ⊢
        have c : x.errno = EINTR := by simpa using hx
        rw [if_pos c]
        simp only [ih2]
        rfl
      · rw [if_neg b]
        simp only [ih2]
        rfl

/-- C21: for a tracked child and every sequence of results of `wait`, results for other
pids and waits interrupted by a signal are passed over and `wait` is called again; at
the first result that is not passed over, `waitloop` returns the exit status and 0
when the tracked child exited, returns 0 and the terminating signal when it was
killed by a signal, and the process dies when the result is a wait error other than
an interruption, `ECHILD` included; while every result is passed over, the function
stays in `wait`. -/
theorem waitloop_first_result (pid : Int) (st : State) (hpid : 0 < pid) :
    (∀ x : WaitRet, x.wpid ≠ pid → 0 ≤ x.wpid → retried pid x = true) ∧
    (∀ x : WaitRet, x.wpid < 0 → x.errno = EINTR → retried pid x = true) ∧
    (∀ skip w rest, st.waits = skip ++ w :: rest → (∀ x ∈ skip, retried pid x = true) →
      (w.wpid = pid → WIFEXITED w.status = true →
        waitloop pid st
          = ⟨skip.map Event.wait ++ [.wait w, .collected pid (WEXITSTATUS w.status) 0],
              .ok ((WEXITSTATUS w.status : Int), 0) { st with waits := rest }⟩) ∧
      (w.wpid = pid → WIFEXITED w.status = false → WIFSIGNALED w.status = true →
        waitloop pid st
          = ⟨skip.map Event.wait ++ [.wait w, .collected pid 0 (WTERMSIG w.status)],
              .ok (0, (WTERMSIG w.status : Int)) { st with waits := rest }⟩) ∧
      (w.wpid < 0 → w.errno ≠ EINTR →
        waitloop pid st = ⟨skip.map Event.wait ++ [.wait w], .stop .die⟩)) ∧
    ((∀ x ∈ st.waits, retried pid x = true) →
      waitloop pid st = ⟨st.waits.map Event.wait, .stop .running⟩) := by
  have hw : waitloop pid st = waitloop_loop pid st st.waits := by
    unfold waitloop
    rw [if_pos hpid]
  refine ⟨?_, ?_, ?_, ?_⟩
  · intro x h1 h2
    unfold retried
    rw [if_neg h1, if_neg (by omega)]
  · intro x h1 h2
    unfold retried
    rw [if_neg (by omega), if_pos h1, h2]
    rfl
  · intro skip w rest hst hskip
    rw [hw, hst]
    refine ⟨?_, ?_, ?_⟩
    · intro h1 h2
      have := waitloop_loop_reaps pid st skip rest w hskip h1 (Or.inl h2)
      rw [this]
      unfold status_pair
      rw [if_pos h2]
    · intro h1 h2 h3
      have := waitloop_loop_reaps pid st skip rest w hskip h1 (Or.inr h3)
      rw [this]
      unfold status_pair
      rw [if_neg (by rw [h2]; decide)]
    · intro h1 h2
      exact waitloop_loop_fatal pid st skip rest w hskip (by omega) h1 h2
  · intro h
    rw [hw]
    exact waitloop_loop_blocked pid st st.waits h

theorem waitloop_first_result_witness :
    waitloop 7 (State.init [] [] 0 [⟨3, 0, 0⟩, ⟨-1, 0, EINTR⟩, ⟨7, 1280, 0⟩])
      = ⟨[⟨3, 0, 0⟩, ⟨-1, 0, EINTR⟩].map Event.wait
            ++ [.wait ⟨7, 1280, 0⟩, .collected 7 (WEXITSTATUS 1280) 0],
          .ok ((WEXITSTATUS 1280 : Int), 0)
            { State.init [] [] 0 [⟨3, 0, 0⟩, ⟨-1, 0, EINTR⟩, ⟨7, 1280, 0⟩] with waits := [] }⟩ :=
  ((waitloop_first_result 7 (State.init [] [] 0 [⟨3, 0, 0⟩, ⟨-1, 0, EINTR⟩, ⟨7, 1280, 0⟩])
    (by decide)).2.2.1 [⟨3, 0, 0⟩, ⟨-1, 0, EINTR⟩] ⟨7, 1280, 0⟩ [] rfl (by decide)).1 rfl
    (by decide)

end Achcop

/-! ## Properties of achd -/

namespace Achd

theorem le_bytes_length (k n : Nat) : (le_bytes k n).length = k := by
  induction k generalizing n with
  | zero => rfl
  | succ k ih => simp [le_bytes, ih]

theorem le_value_le_bytes (k n : Nat) : le_value (le_bytes k n) = n % 256 ^ k := by
  induction k generalizing n with
  | zero => simp [le_bytes, le_value, Nat.mod_one]
  | succ k ih =>
    simp only [le_bytes, le_value, ih]
    rw [pow_succ, Nat.mul_comm (256 ^ k) 256, Nat.mod_mul]

theorem le_value_lt (bs : List Byte) : le_value bs < 256 ^ bs.length := by
  induction bs with
  | nil => simp [le_value]
  | cons b bs ih =>
    simp only [le_value, List.length_cons, pow_succ]
    have := b.isLt
    omega

theorem le_bytes_le_value (bs : List Byte) : le_bytes bs.length (le_value bs) = bs := by
  induction bs with
  | nil => rfl
  | cons b bs ih =>
    simp only [List.length_cons, le_bytes, le_value]
    have hb := b.isLt
    have h1 : (b.val + 256 * le_value bs) % 256 = b.val := by omega
    have h2 : (b.val + 256 * le_value bs) / 256 = le_value bs := by omega
    rw [h2, ih]
    congr 1
    apply Fin.ext
    simp [h1]

theorem get_size_set_size (f : ach_pipe_frame_t) (n : Nat) (hn : n < 2 ^ 64) :
    ach_pipe_get_size (ach_pipe_set_size f n) = n := by
  unfold ach_pipe_get_size ach_pipe_set_size
  simp only [le_value_le_bytes]
  exact Nat.mod_eq_of_lt (by norm_num at hn ⊢; exact hn)

theorem frame_bytes_length (p : List Byte) : (frame_bytes p).length = 16 + p.length := by
  simp only [frame_bytes, achpipe_magic, List.length_append, le_bytes_length, List.length_cons,
    List.length_nil]

theorem alloc_ok (n : Nat) :
    frame_ok n (ach_pipe_alloc n) ∧ (ach_pipe_alloc n).magic = achpipe_magic := by
  simp [frame_ok, ach_pipe_alloc, ach_pipe_set_size, le_bytes_length, achpipe_magic]

theorem overwrite_fits (buf src : List Byte) (h : src.length ≤ buf.length) :
    overwrite buf src = src ++ buf.drop src.length := by
  unfold overwrite
  rw [List.take_of_length_le h]

theorem overwrite_length (buf src : List Byte) (h : src.length ≤ buf.length) :
    (overwrite buf src).length = buf.length := by
  rw [overwrite_fits buf src h]
  simp
  omega

theorem push_step_frame (gl : Int) (sock : Nat → SockRet) (r : Int) (p : List Byte)
    (gets : List GetRet) (max : Nat) (frame : ach_pipe_frame_t) (t0 : Int) (nw : Nat)
    (hr : r ≠ ACH_OVERFLOW) (hr2 : r = ACH_OK ∨ r = ACH_MISSED_FRAME ∨ t0 ≠ 0)
    (hf : frame_ok max frame) (hm : frame.magic = achpipe_magic)
    (hp : p.length ≤ max) (hn : p.length < 2 ^ 64) (hs : takes_all sock) :
    push_loop gl sock (⟨r, p.length, p⟩ :: gets) max frame t0 nw
      = (.ach_get max (get_options gl) :: .fwrite (frame_bytes p) :: .fflush
          :: (push_loop gl sock gets max
              (ach_pipe_set_size { frame with data := overwrite frame.data p } p.length)
              t0 (nw + 1)).1,
         (push_loop gl sock gets max
              (ach_pipe_set_size { frame with data := overwrite frame.data p } p.length)
              t0 (nw + 1)).2) := by
  obtain ⟨hfl, hacc⟩ := hs nw
  have hdata : p.length ≤ frame.data.length := by rw [hf.2.2]; exact hp
  have hsz : ach_pipe_get_size
      (ach_pipe_set_size { frame with data := overwrite frame.data p } p.length) = p.length :=
    get_size_set_size _ _ hn
  have himg : (ach_pipe_set_size { frame with data := overwrite frame.data p }
      p.length).image.take (sizeof_ach_pipe_frame_t - 1 + p.length) = frame_bytes p := by
    unfold ach_pipe_frame_t.image ach_pipe_set_size frame_bytes
    simp only [hm, overwrite_fits _ _ hdata]
    rw [← List.append_assoc]
    apply List.take_left'
    simp only [achpipe_magic, List.length_append, le_bytes_length, List.length_cons,
      List.length_nil, sizeof_ach_pipe_frame_t]
  have hmin : min (sizeof_ach_pipe_frame_t - 1 + p.length) (sock nw).accept
      = sizeof_ach_pipe_frame_t - 1 + p.length := by
    apply Nat.min_eq_left
    simp only [sizeof_ach_pipe_frame_t]
    omega
  have hsig : ¬ (cx_sig_received ≠ 0) := by decide
  rw [push_loop]
  simp only [hr, if_false, hr2, if_true, hsz, himg, hmin, ne_eq, not_true_eq_false, hfl, hsig]

theorem push_step_ok (max : Nat) (frame : ach_pipe_frame_t) (p : List Byte)
    (hf : frame_ok max frame) (hm : frame.magic = achpipe_magic) (hp : p.length ≤ max) :
    frame_ok max (ach_pipe_set_size { frame with data := overwrite frame.data p } p.length)
      ∧ (ach_pipe_set_size { frame with data := overwrite frame.data p } p.length).magic
          = achpipe_magic := by
  have hdata : p.length ≤ frame.data.length := by rw [hf.2.2]; exact hp
  refine ⟨⟨hf.1, ?_, ?_⟩, hm⟩
  · simp [ach_pipe_set_size, le_bytes_length]
  · simp only [ach_pipe_set_size]
    rw [overwrite_length _ _ hdata]
    exact hf.2.2

theorem push_step_overflow (gl : Int) (sock : Nat → SockRet) (n : Nat) (d : List Byte)
    (gets : List GetRet) (max : Nat) (frame : ach_pipe_frame_t) (t0 : Int) (nw : Nat)
    (hn : n > max) :
    push_loop gl sock (⟨ACH_OVERFLOW, n, d⟩ :: gets) max frame t0 nw
      = (.ach_get max (get_options gl)
          :: (push_loop gl sock gets n (ach_pipe_alloc n) t0 nw).1,
         (push_loop gl sock gets n (ach_pipe_alloc n) t0 nw).2) := by
  rw [push_loop]
  simp [hn]

theorem status_not_overflow (missed : Bool) :
    (if missed then ACH_MISSED_FRAME else ACH_OK) ≠ ACH_OVERFLOW
      ∧ ((if missed then ACH_MISSED_FRAME else ACH_OK) = ACH_OK
          ∨ (if missed then ACH_MISSED_FRAME else ACH_OK) = ACH_MISSED_FRAME) := by
  cases missed <;> decide

theorem push_session (gl : Int) (sock : Nat → SockRet) (hs : takes_all sock)
    (ps : List (Bool × List Byte)) (max : Nat) (frame : ach_pipe_frame_t) (t0 : Int)
    (nw : Nat) (hf : frame_ok max frame) (hm : frame.magic = achpipe_magic)
    (hps : ∀ p ∈ ps, p.2.length < 2 ^ 64) :
    written (push_loop gl sock (channel_script max ps) max frame t0 nw).1
      = (ps.map (fun p => frame_bytes p.2)).flatten := by
  induction ps generalizing max frame nw with
  | nil => simp [channel_script, push_loop, written]
  | cons mp ps ih =>
    obtain ⟨missed, p⟩ := mp
    have hlen : p.length < 2 ^ 64 := hps (missed, p) (List.mem_cons_self _ _)
    have hrest : ∀ q ∈ ps, q.2.length < 2 ^ 64 :=
      fun q hq => hps q (List.mem_cons_of_mem _ hq)
    obtain ⟨hno, hok⟩ := status_not_overflow missed
    have hok2 : (if missed then ACH_MISSED_FRAME else ACH_OK) = ACH_OK
        ∨ (if missed then ACH_MISSED_FRAME else ACH_OK) = ACH_MISSED_FRAME ∨ t0 ≠ 0 := by
      rcases hok with h | h
      · exact Or.inl h
      · exact Or.inr (Or.inl h)
    simp only [List.map_cons, List.flatten_cons]
    by_cases hbig : p.length > max
    · obtain ⟨hfa, hma⟩ := alloc_ok p.length
      obtain ⟨hf2, hm2⟩ := push_step_ok p.length (ach_pipe_alloc p.length) p hfa hma le_rfl
      simp only [channel_script, hbig, if_true]
      rw [push_step_overflow gl sock p.length [] _ max frame t0 nw hbig]
      rw [push_step_frame gl sock _ p _ p.length _ t0 nw hno hok2 hfa hma le_rfl hlen hs]
      simp only [written]
      rw [ih p.length _ (nw + 1) hf2 hm2 hrest]
    · have hfit : p.length ≤ max := by omega
      obtain ⟨hf2, hm2⟩ := push_step_ok max frame p hf hm hfit
      simp only [channel_script, hbig, if_false]
      rw [push_step_frame gl sock _ p _ max _ t0 nw hno hok2 hf hm hfit hlen hs]
      simp only [written]
      rw [ih max _ (nw + 1) hf2 hm2 hrest]

theorem overwrite_same_length (buf src : List Byte) (h : src.length = buf.length) :
    overwrite buf src = src := by
  rw [overwrite_fits buf src (le_of_eq h), h]
  simp

theorem frame_bytes_take16 (p rest : List Byte) :
    (frame_bytes p ++ rest).take 16 = achpipe_magic ++ le_bytes 8 p.length := by
  unfold frame_bytes
  rw [List.append_assoc]
  apply List.take_left'
  simp [achpipe_magic, le_bytes_length]

theorem frame_bytes_drop16 (p rest : List Byte) :
    (frame_bytes p ++ rest).drop 16 = p ++ rest := by
  unfold frame_bytes
  rw [List.append_assoc]
  apply List.drop_left'
  simp [achpipe_magic, le_bytes_length]

theorem pull_step_frame (put_ret : Nat → Int) (fuel : Nat) (p rest : List Byte) (max : Nat)
    (frame : ach_pipe_frame_t) (np : Nat) (hf : frame_ok max frame)
    (hn : p.length < 2 ^ 64) :
    ∃ max2 frame2, frame_ok max2 frame2 ∧
      pull_loop put_ret (fuel + 1) (frame_bytes p ++ rest) max frame np
        = if put_ret np ≠ ACH_OK then ([.ach_put p], .abort)
          else (.ach_put p :: (pull_loop put_ret fuel rest max2 frame2 (np + 1)).1,
                (pull_loop put_ret fuel rest max2 frame2 (np + 1)).2) := by
  have h16 := frame_bytes_take16 p rest
  have hmag : ((frame_bytes p ++ rest).take 16).take 8 = achpipe_magic := by
    rw [h16]
    exact List.take_left' (by simp [achpipe_magic])
  have hsz : ((frame_bytes p ++ rest).take 16).drop 8 = le_bytes 8 p.length := by
    rw [h16]
    exact List.drop_left' (by simp [achpipe_magic])
  have hlen16 : ((frame_bytes p ++ rest).take 16).length = 16 := by
    rw [h16]
    simp [achpipe_magic, le_bytes_length]
  have hom : overwrite frame.magic achpipe_magic = achpipe_magic :=
    overwrite_same_length _ _ (by rw [hf.1]; simp [achpipe_magic])
  have hos : overwrite frame.size_bytes (le_bytes 8 p.length) = le_bytes 8 p.length :=
    overwrite_same_length _ _ (by rw [hf.2.1, le_bytes_length])
  have hcnt : le_value (le_bytes 8 p.length) = p.length := by
    rw [le_value_le_bytes]
    exact Nat.mod_eq_of_lt (by norm_num at hn ⊢; exact hn)
  have hbody : ((frame_bytes p ++ rest).drop 16).take p.length = p := by
    rw [frame_bytes_drop16]
    exact List.take_left' rfl
  have hdrop : (frame_bytes p ++ rest).drop (16 + p.length) = rest := by
    apply List.drop_left'
    rw [frame_bytes_length]
  have hsig : ¬ (cx_sig_received ≠ 0) := by decide
  by_cases hbig : p.length > max
  · obtain ⟨hfa, -⟩ := alloc_ok p.length
    have hd : p.length ≤ (ach_pipe_alloc p.length).data.length := by rw [hfa.2.2]
    refine ⟨p.length, { (ach_pipe_alloc p.length) with
      data := overwrite (ach_pipe_alloc p.length).data p }, ⟨hfa.1, hfa.2.1, ?_⟩, ?_⟩
    · simp only []
      rw [overwrite_length _ _ hd]
      exact hfa.2.2
    · rw [pull_loop]
      simp only [hsig, if_false, hlen16, hmag, hsz, hom, hos, ach_pipe_get_size, hcnt, hbig,
        if_true, hbody, hdrop, ne_eq, not_true_eq_false]
      rw [overwrite_fits _ _ hd]
      simp only [List.take_left' rfl]
  · have hfit : p.length ≤ frame.data.length := by rw [hf.2.2]; omega
    refine ⟨max, ach_pipe_frame_t.mk achpipe_magic (le_bytes 8 p.length)
      (overwrite frame.data p), ⟨by simp [achpipe_magic], le_bytes_length _ _, ?_⟩, ?_⟩
    · simp only []
      rw [overwrite_length _ _ hfit]
      exact hf.2.2
    · rw [pull_loop]
      simp only [hsig, if_false, hlen16, hmag, hsz, hom, hos, ach_pipe_get_size, hcnt, hbig,
        hbody, hdrop, ne_eq, not_true_eq_false]
      rw [overwrite_fits _ _ hfit]
      simp only [List.take_left' rfl]

theorem pull_step_stop (put_ret : Nat → Int) (fuel : Nat) (rest : List Byte) (max : Nat)
    (frame : ach_pipe_frame_t) (np : Nat) (hf : frame_ok max frame) (hbad : no_frame rest) :
    pull_loop put_ret (fuel + 1) rest max frame np = ([.ach_close], .exit EXIT_SUCCESS) := by
  have hsig : ¬ (cx_sig_received ≠ 0) := by decide
  rw [pull_loop]
  simp only []
  rw [if_neg hsig]
  by_cases h16 : 16 ≠ (rest.take 16).length
  · rw [if_pos h16]
  · have hlen : (rest.take 16).length = 16 := by
      by_contra h
      exact h16 (fun h2 => h h2.symm)
    have hge : 16 ≤ rest.length := by
      rw [List.length_take] at hlen
      omega
    have hom : overwrite frame.magic ((rest.take 16).take 8) = rest.take 8 := by
      rw [overwrite_same_length _ _ (by rw [hf.1]; simp; omega)]
      simp [List.take_take]
    have hos : overwrite frame.size_bytes ((rest.take 16).drop 8) = (rest.take 16).drop 8 :=
      overwrite_same_length _ _ (by rw [hf.2.1]; simp; omega)
    rw [if_neg h16]
    simp only [hom, hos, ach_pipe_get_size]
    by_cases hm : achpipe_magic ≠ rest.take 8
    · rw [if_pos hm]
    · have hm2 : rest.take 8 = achpipe_magic := by
        by_contra h
        exact hm (fun h2 => h h2.symm)
      rcases hbad with h | h | h
      · omega
      · exact absurd hm2 h
      · have hshort : le_value ((rest.take 16).drop 8)
            ≠ ((rest.drop 16).take (le_value ((rest.take 16).drop 8))).length := by
          rw [List.length_take]
          omega
        rw [if_neg hm, if_pos hshort]

theorem pull_session (put_ret : Nat → Int) (hput : ∀ k, put_ret k = ACH_OK)
    (ps : List (List Byte)) (rest : List Byte) (fuel max : Nat) (frame : ach_pipe_frame_t)
    (np : Nat) (hf : frame_ok max frame) (hps : ∀ p ∈ ps, p.length < 2 ^ 64)
    (hbad : no_frame rest) (hfuel : ps.length < fuel) :
    pull_loop put_ret fuel ((ps.map frame_bytes).flatten ++ rest) max frame np
      = (ps.map Event.ach_put ++ [.ach_close], .exit EXIT_SUCCESS) := by
  induction ps generalizing fuel max frame np with
  | nil =>
    obtain ⟨fuel2, rfl⟩ : ∃ k, fuel = k + 1 := ⟨fuel - 1, by simp at hfuel; omega⟩
    simpa using pull_step_stop put_ret fuel2 rest max frame np hf hbad
  | cons p ps ih =>
    obtain ⟨fuel2, rfl⟩ : ∃ k, fuel = k + 1 := ⟨fuel - 1, by simp at hfuel; omega⟩
    have hlen : p.length < 2 ^ 64 := hps p (List.mem_cons_self _ _)
    obtain ⟨max2, frame2, hf2, hstep⟩ := pull_step_frame put_ret fuel2 p
      ((ps.map frame_bytes).flatten ++ rest) max frame np hf hlen
    have hok : ¬ (put_ret np ≠ ACH_OK) := by simp [hput np]
    rw [if_neg hok] at hstep
    simp only [List.map_cons, List.flatten_cons, List.append_assoc]
    rw [hstep, ih fuel2 max2 frame2 (np + 1) hf2
      (fun q hq => hps q (List.mem_cons_of_mem _ hq)) (by simp at hfuel; omega)]
    simp

theorem flatten_frames_length (ps : List (List Byte)) :
    ps.length ≤ ((ps.map frame_bytes).flatten).length := by
  induction ps with
  | nil => simp
  | cons p ps ih =>
    simp only [List.map_cons, List.flatten_cons, List.length_append, List.length_cons,
      frame_bytes_length]
    omega

theorem frames_exist (inp : List Byte) :
    ∃ (ps : List (List Byte)) (rest : List Byte), inp = (ps.map frame_bytes).flatten ++ rest
      ∧ (∀ p ∈ ps, p.length < 2 ^ 64) ∧ no_frame rest := by
  suffices H : ∀ (n : Nat) (inp : List Byte), inp.length = n →
      ∃ (ps : List (List Byte)) (rest : List Byte), inp = (ps.map frame_bytes).flatten ++ rest
        ∧ (∀ p ∈ ps, p.length < 2 ^ 64) ∧ no_frame rest from H _ inp rfl
  intro n
  induction n using Nat.strong_induction_on with
  | _ n ih =>
    intro inp h
    by_cases hbad : no_frame inp
    · exact ⟨[], inp, by simp, by simp, hbad⟩
    · unfold no_frame at hbad
      push_neg at hbad
      obtain ⟨h16, hmag, hpay⟩ := hbad
      have hsb : ((inp.take 16).drop 8).length = 8 := by simp; omega
      have hn : le_value ((inp.take 16).drop 8) < 2 ^ 64 := by
        have := le_value_lt ((inp.take 16).drop 8)
        rw [hsb] at this
        norm_num at this ⊢
        exact this
      have hplen : ((inp.drop 16).take (le_value ((inp.take 16).drop 8))).length
          = le_value ((inp.take 16).drop 8) := by
        rw [List.length_take]
        omega
      have hfb : frame_bytes ((inp.drop 16).take (le_value ((inp.take 16).drop 8)))
          = inp.take 16 ++ (inp.drop 16).take (le_value ((inp.take 16).drop 8)) := by
        unfold frame_bytes
        rw [hplen]
        have h1 := le_bytes_le_value ((inp.take 16).drop 8)
        rw [hsb] at h1
        rw [h1, ← hmag]
        have h2 : inp.take 8 = (inp.take 16).take 8 := by simp [List.take_take]
        rw [h2, List.take_append_drop]
      have hsplit : inp = frame_bytes ((inp.drop 16).take (le_value ((inp.take 16).drop 8)))
          ++ (inp.drop 16).drop (le_value ((inp.take 16).drop 8)) := by
        rw [hfb, List.append_assoc, List.take_append_drop, List.take_append_drop]
      obtain ⟨ps, rest, hdec, hps, hrest⟩ := ih
        ((inp.drop 16).drop (le_value ((inp.take 16).drop 8))).length
        (by simp; omega) _ rfl
      refine ⟨(inp.drop 16).take (le_value ((inp.take 16).drop 8)) :: ps, rest, ?_, ?_, hrest⟩
      · simp only [List.map_cons, List.flatten_cons, List.append_assoc]
        rw [← hdec]
        exact hsplit
      · intro p hp
        rcases List.mem_cons.mp hp with h | h
        · rw [h, hplen]
          exact hn
        · exact hps p h

theorem getline_length (inp : List Char) :
    (getline inp).1.length + (getline inp).2.length = inp.length := by
  induction inp with
  | nil => rfl
  | cons c cs ih =>
    unfold getline
    split_ifs
    · simp only [List.length_cons, List.length_nil]
      omega
    · simp only [List.length_cons]
      omega

theorem map_no_fuel {α β : Type} (x : Except Halt α) (f : α → β) (h : x ≠ .error .fuel) :
    x.map f ≠ .error .fuel := by
  cases x with
  | error e =>
    intro hc
    apply h
    simpa [Except.map] using hc
  | ok a => simp [Except.map]

theorem set_int_no_fuel (name val : List Char) : achd_set_int name val ≠ .error .fuel := by
  unfold achd_set_int
  simp only []
  split_ifs <;> simp

theorem parse_boolean_no_fuel (value : List Char) :
    achd_parse_boolean value ≠ .error .fuel := by
  unfold achd_parse_boolean
  simp only []
  split_ifs <;> simp

theorem ite_ne {α : Type} (c : Prop) [Decidable c] (a b e : α) (ha : a ≠ e) (hb : b ≠ e) :
    (if c then a else b) ≠ e := by
  split <;> assumption

theorem set_header_no_fuel (key val : List Char) (headers : achd_headers) :
    achd_set_header key val headers ≠ .error .fuel := by
  unfold achd_set_header
  repeat' first
    | apply ite_ne
    | exact map_no_fuel _ _ (set_int_no_fuel _ _)
    | exact map_no_fuel _ _ (parse_boolean_no_fuel _)
    | exact fun h => by cases h

theorem parse_line_no_fuel (line : List Char) (headers : achd_headers) :
    parse_line line headers ≠ .error .fuel := by
  unfold parse_line
  simp only []
  split_ifs
  · exact fun h => by cases h
  · split
    · exact fun h => by cases h
    · split
      · exact map_no_fuel _ _ (set_header_no_fuel _ _ _)
      · exact fun h => by cases h

theorem parse_loop_total (fuel : Nat) (inp : List Char) (headers : achd_headers)
    (h : inp.length < fuel) : parse_loop fuel inp headers ≠ .error .fuel := by
  induction fuel generalizing inp headers with
  | zero => omega
  | succ fuel ih =>
    unfold parse_loop
    simp only []
    split_ifs with hl
    · split
      · rename_i e he
        intro hc
        injection hc with hc
        subst hc
        exact parse_line_no_fuel _ _ he
      · exact fun h => by cases h
      · apply ih
        have := getline_length inp
        omega
    · exact fun h => by cases h

theorem achd_parse_headers_total (fptr : List Char) (headers : achd_headers) :
    achd_parse_headers fptr headers ≠ .error .fuel :=
  parse_loop_total _ fptr headers (Nat.lt_succ_self _)

theorem pull_loop_total (put_ret : Nat → Int) (fuel : Nat) (inp : List Byte) (max : Nat)
    (frame : ach_pipe_frame_t) (np : Nat) (h : inp.length < fuel) :
    (pull_loop put_ret fuel inp max frame np).2 ≠ .fuel := by
  induction fuel generalizing inp max frame np with
  | zero => omega
  | succ fuel ih =>
    unfold pull_loop
    simp only []
    split_ifs
    all_goals first
      | exact fun h => by cases h
      | (apply ih
         simp only [List.length_drop, List.length_take] at *
         omega)

theorem achd_pull_tcp_total (put_ret : Nat → Int) (inp : List Byte) :
    (achd_pull_tcp put_ret inp).2 ≠ .fuel :=
  pull_loop_total put_ret _ inp _ _ 0 (Nat.lt_succ_self _)

theorem achd_push_tcp_eq (gl : Int) (sock : Nat → SockRet) (gets : List GetRet) :
    achd_push_tcp gl sock gets
      = push_loop gl sock gets INIT_BUF_SIZE (ach_pipe_alloc INIT_BUF_SIZE) 1 0 := by
  unfold achd_push_tcp
  rw [if_neg (by decide)]

theorem push_session_written (gl : Int) (sock : Nat → SockRet) (hs : takes_all sock)
    (ps : List (Bool × List Byte)) (hps : ∀ p ∈ ps, p.2.length < 2 ^ 64) :
    written (achd_push_tcp gl sock (channel_script INIT_BUF_SIZE ps)).1
      = (ps.map (fun p => frame_bytes p.2)).flatten := by
  rw [achd_push_tcp_eq]
  exact push_session gl sock hs ps _ _ 1 0 (alloc_ok _).1 (alloc_ok _).2 hps

/-- C4. For every payload `p` of at most 2^63-1 bytes that the channel delivers to
`achd_push_tcp` (with the OK or the missed-frame status, after an overflow report when
`p` is larger than the buffer), `achd_pull_tcp` fed with the bytes that reached the
stream puts exactly `p` to its channel. -/
theorem pull_undoes_push (get_last : Int) (sock : Nat → SockRet) (hs : takes_all sock)
    (put_ret : Nat → Int) (missed : Bool) (p : List Byte) (hp : p.length ≤ 2 ^ 63 - 1) :
    puts (achd_pull_tcp put_ret
        (written (achd_push_tcp get_last sock
          (channel_script INIT_BUF_SIZE [(missed, p)])).1)).1 = [p] := by
  have hlen : p.length < 2 ^ 64 := by
    have : (2 : Nat) ^ 63 - 1 < 2 ^ 64 := by norm_num
    omega
  rw [push_session_written get_last sock hs [(missed, p)] (by simpa using hlen)]
  simp only [List.map_cons, List.map_nil, List.flatten_cons, List.flatten_nil]
  unfold achd_pull_tcp
  obtain ⟨max2, frame2, hf2, hstep⟩ := pull_step_frame put_ret
    (frame_bytes p ++ []).length p [] INIT_BUF_SIZE (ach_pipe_alloc INIT_BUF_SIZE) 0
    (alloc_ok _).1 hlen
  rw [hstep]
  split_ifs
  · simp [puts]
  · obtain ⟨k, hk⟩ : ∃ k, (frame_bytes p ++ []).length = k + 1 :=
      ⟨15 + p.length, by simp [frame_bytes_length]; omega⟩
    rw [hk, pull_step_stop put_ret k [] max2 frame2 1 hf2 (Or.inl (by simp))]
    simp [puts]

/-- Witness of C4: the payload "hello". -/
theorem pull_undoes_push_witness :
    puts (achd_pull_tcp (fun _ => ACH_OK)
        (written (achd_push_tcp 0 (fun _ => ⟨2 ^ 64 + 16, 0⟩)
          [⟨ACH_OK, 5, [0x68, 0x65, 0x6c, 0x6c, 0x6f]⟩]).1)).1
      = [[0x68, 0x65, 0x6c, 0x6c, 0x6f]] :=
  pull_undoes_push 0 (fun _ => ⟨2 ^ 64 + 16, 0⟩) (fun _ => ⟨rfl, le_refl _⟩)
    (fun _ => ACH_OK) false [0x68, 0x65, 0x6c, 0x6c, 0x6f] (by decide)

/-- C5. When the channel delivers the payloads `ps` in order (each with the OK or the
missed-frame status) and the stream takes every write, the bytes that `achd_push_tcp`
writes are, payload after payload, the 8 bytes `a c h p i p e 0`, the length as an
8-byte little-endian integer and the payload, 16 + n bytes for a payload of n bytes,
with nothing between or after the frames. -/
theorem push_writes_frames (get_last : Int) (sock : Nat → SockRet) (hs : takes_all sock)
    (ps : List (Bool × List Byte)) (hps : ∀ p ∈ ps, p.2.length < 2 ^ 64) :
    written (achd_push_tcp get_last sock (channel_script INIT_BUF_SIZE ps)).1
        = (ps.map (fun p =>
            [0x61, 0x63, 0x68, 0x70, 0x69, 0x70, 0x65, 0x00] ++ le_bytes 8 p.2.length
              ++ p.2)).flatten
      ∧ ∀ p ∈ ps, ([0x61, 0x63, 0x68, 0x70, 0x69, 0x70, 0x65, 0x00] ++ le_bytes 8 p.2.length
            ++ p.2).length = 16 + p.2.length
          ∧ le_value (le_bytes 8 p.2.length) = p.2.length := by
  refine ⟨push_session_written get_last sock hs ps hps, fun p hp => ⟨?_, ?_⟩⟩
  · exact frame_bytes_length p.2
  · rw [le_value_le_bytes]
    exact Nat.mod_eq_of_lt (by have := hps p hp; norm_num at this ⊢; exact this)

/-- Witness of C5: for the payload "hello" the stream receives
`61 63 68 70 69 70 65 00 05 00 00 00 00 00 00 00 68 65 6c 6c 6f`. -/
theorem push_writes_frames_witness :
    written (achd_push_tcp 0 (fun _ => ⟨2 ^ 64 + 16, 0⟩)
        [⟨ACH_OK, 5, [0x68, 0x65, 0x6c, 0x6c, 0x6f]⟩]).1
      = [0x61, 0x63, 0x68, 0x70, 0x69, 0x70, 0x65, 0x00,
         0x05, 0x00, 0x00, 0x00, 0x00, 0x00, 0x00, 0x00,
         0x68, 0x65, 0x6c, 0x6c, 0x6f] :=
  (push_writes_frames 0 (fun _ => ⟨2 ^ 64 + 16, 0⟩) (fun _ => ⟨rfl, le_refl _⟩)
    [(false, [0x68, 0x65, 0x6c, 0x6c, 0x6f])] (by decide)).1

/-- C6. Every input stream splits into complete well-formed frames followed by a rest that
does not begin with one (short prefix, wrong magic, or short payload); and for every
such split, when the channel accepts every put, `achd_pull_tcp` puts exactly the
payloads of those frames, in order, closes the channel and exits with success. -/
theorem pull_puts_complete_frames (put_ret : Nat → Int) (hput : ∀ k, put_ret k = ACH_OK)
    (inp : List Byte) :
    (∃ (ps : List (List Byte)) (rest : List Byte),
        inp = (ps.map frame_bytes).flatten ++ rest
          ∧ (∀ p ∈ ps, p.length < 2 ^ 64) ∧ no_frame rest)
      ∧ ∀ (ps : List (List Byte)) (rest : List Byte),
          inp = (ps.map frame_bytes).flatten ++ rest →
          (∀ p ∈ ps, p.length < 2 ^ 64) → no_frame rest →
          achd_pull_tcp put_ret inp
              = (ps.map Event.ach_put ++ [.ach_close], .exit EXIT_SUCCESS)
            ∧ puts (achd_pull_tcp put_ret inp).1 = ps := by
  refine ⟨frames_exist inp, fun ps rest hdec hps hbad => ?_⟩
  have hrun : achd_pull_tcp put_ret inp
      = (ps.map Event.ach_put ++ [.ach_close], .exit EXIT_SUCCESS) := by
    unfold achd_pull_tcp
    have hfuel : ps.length < inp.length + 1 := by
      have := flatten_frames_length ps
      rw [hdec, List.length_append]
      omega
    have := pull_session put_ret hput ps rest (inp.length + 1) INIT_BUF_SIZE
      (ach_pipe_alloc INIT_BUF_SIZE) 0 (alloc_ok _).1 hps hbad hfuel
    rw [← hdec] at this
    exact this
  refine ⟨hrun, ?_⟩
  rw [hrun]
  clear hrun hdec hps
  induction ps with
  | nil => simp [puts]
  | cons p ps ih => simpa [puts] using ih

/-- Witness of C6: the frame of "hi" followed by a frame cut short after its prefix. -/
theorem pull_puts_complete_frames_witness :
    achd_pull_tcp (fun _ => ACH_OK)
        ([0x61, 0x63, 0x68, 0x70, 0x69, 0x70, 0x65, 0x00, 2, 0, 0, 0, 0, 0, 0, 0, 0x68, 0x69]
          ++ [0x61, 0x63, 0x68, 0x70, 0x69, 0x70, 0x65, 0x00, 3, 0, 0, 0, 0, 0, 0, 0, 0x68])
      = ([.ach_put [0x68, 0x69], .ach_close], .exit EXIT_SUCCESS) :=
  ((pull_puts_complete_frames (fun _ => ACH_OK) (fun _ => rfl)
    ([0x61, 0x63, 0x68, 0x70, 0x69, 0x70, 0x65, 0x00, 2, 0, 0, 0, 0, 0, 0, 0, 0x68, 0x69]
      ++ [0x61, 0x63, 0x68, 0x70, 0x69, 0x70, 0x65, 0x00, 3, 0, 0, 0, 0, 0, 0, 0, 0x68])).2
    [[0x68, 0x69]]
    [0x61, 0x63, 0x68, 0x70, 0x69, 0x70, 0x65, 0x00, 3, 0, 0, 0, 0, 0, 0, 0, 0x68]
    (by decide) (by decide) (Or.inr (Or.inr (by decide)))).1

/-- C7. When `ach_get` reports an overflow with a required size `n` larger than the
buffer, the pump writes nothing, calls `ach_get` again with the same options and a
buffer of `n` bytes, and when that call delivers the `n`-byte payload `p` it writes
the whole frame: the magic tag, `n` as the length prefix, and `p`. -/
theorem push_overflow_retry (get_last : Int) (sock : Nat → SockRet) (hs : takes_all sock)
    (n : Nat) (d p : List Byte) (r : Int) (gets : List GetRet) (max : Nat)
    (frame : ach_pipe_frame_t) (t0 : Int) (nw : Nat)
    (hn : n > max) (hr : r = ACH_OK ∨ r = ACH_MISSED_FRAME) (hp : p.length = n)
    (h64 : n < 2 ^ 64) :
    ∃ frame2, frame_ok n frame2 ∧ n ≤ frame2.data.length ∧
      push_loop get_last sock (⟨ACH_OVERFLOW, n, d⟩ :: ⟨r, n, p⟩ :: gets) max frame t0 nw
        = (.ach_get max (get_options get_last) :: .ach_get n (get_options get_last)
            :: .fwrite (achpipe_magic ++ le_bytes 8 n ++ p) :: .fflush
            :: (push_loop get_last sock gets n frame2 t0 (nw + 1)).1,
           (push_loop get_last sock gets n frame2 t0 (nw + 1)).2) := by
  subst hp
  have hno : r ≠ ACH_OVERFLOW := by
    rcases hr with h | h <;> rw [h] <;> decide
  have hr2 : r = ACH_OK ∨ r = ACH_MISSED_FRAME ∨ t0 ≠ 0 := by
    rcases hr with h | h
    · exact Or.inl h
    · exact Or.inr (Or.inl h)
  obtain ⟨hfa, hma⟩ := alloc_ok p.length
  obtain ⟨hf2, -⟩ := push_step_ok p.length (ach_pipe_alloc p.length) p hfa hma le_rfl
  refine ⟨_, hf2, le_of_eq hf2.2.2.symm, ?_⟩
  rw [push_step_overflow get_last sock p.length d _ max frame t0 nw hn,
    push_step_frame get_last sock r p gets p.length _ t0 nw hno hr2 hfa hma le_rfl h64 hs]
  rfl

/-- Witness of C7: a frame of 4096 bytes on a pump whose buffer holds 512 bytes is written
after the second channel read. -/
theorem push_overflow_retry_witness :
    ∃ frame2, frame_ok 4096 frame2 ∧ 4096 ≤ frame2.data.length ∧
      push_loop 0 (fun _ => ⟨2 ^ 64 + 16, 0⟩)
          [⟨ACH_OVERFLOW, 4096, []⟩, ⟨ACH_OK, 4096, List.replicate 4096 7⟩]
          INIT_BUF_SIZE (ach_pipe_alloc INIT_BUF_SIZE) 1 0
        = (.ach_get INIT_BUF_SIZE (get_options 0) :: .ach_get 4096 (get_options 0)
            :: .fwrite (achpipe_magic ++ le_bytes 8 4096 ++ List.replicate 4096 7) :: .fflush
            :: (push_loop 0 (fun _ => ⟨2 ^ 64 + 16, 0⟩) [] 4096 frame2 1 (0 + 1)).1,
           (push_loop 0 (fun _ => ⟨2 ^ 64 + 16, 0⟩) [] 4096 frame2 1 (0 + 1)).2) :=
  push_overflow_retry 0 (fun _ => ⟨2 ^ 64 + 16, 0⟩) (fun _ => ⟨rfl, le_refl _⟩) 4096 []
    (List.replicate 4096 7) ACH_OK [] INIT_BUF_SIZE (ach_pipe_alloc INIT_BUF_SIZE) 1 0
    (by decide) (Or.inl rfl) (List.length_replicate _ _) (by norm_num)

/-- C8, the code at the failing input: the channel delivers the one-byte payload `61` and
then `ach_get` fails with `ACH_FAILED_SYSCALL` and stores nothing.  The pump does
not stop: it writes a second frame, with length 0, and calls `ach_get` again. -/
theorem push_forwards_failed_get :
    achd_push_tcp 0 (fun _ => ⟨2 ^ 64 + 16, 0⟩)
        [⟨ACH_OK, 1, [0x61]⟩, ⟨ACH_FAILED_SYSCALL, 0, []⟩]
      = ([.ach_get 512 ⟨true, false⟩,
          .fwrite [0x61, 0x63, 0x68, 0x70, 0x69, 0x70, 0x65, 0x00, 1, 0, 0, 0, 0, 0, 0, 0, 0x61],
          .fflush,
          .ach_get 512 ⟨true, false⟩,
          .fwrite [0x61, 0x63, 0x68, 0x70, 0x69, 0x70, 0x65, 0x00, 0, 0, 0, 0, 0, 0, 0, 0],
          .fflush,
          .ach_get 512 ⟨true, false⟩], .running) := by
  have hs : takes_all (fun _ => (⟨2 ^ 64 + 16, 0⟩ : SockRet)) := fun _ => ⟨rfl, le_refl _⟩
  obtain ⟨hfa, hma⟩ := alloc_ok INIT_BUF_SIZE
  obtain ⟨hf2, hm2⟩ := push_step_ok INIT_BUF_SIZE (ach_pipe_alloc INIT_BUF_SIZE) [0x61] hfa hma
    (by decide)
  have h1 := push_step_frame 0 (fun _ => (⟨2 ^ 64 + 16, 0⟩ : SockRet)) ACH_OK [0x61]
    [⟨ACH_FAILED_SYSCALL, 0, []⟩] INIT_BUF_SIZE (ach_pipe_alloc INIT_BUF_SIZE) 1 0 (by decide)
    (Or.inl rfl) hfa hma (by decide) (by decide) hs
  have h2 := push_step_frame 0 (fun _ => (⟨2 ^ 64 + 16, 0⟩ : SockRet)) ACH_FAILED_SYSCALL []
    [] INIT_BUF_SIZE _ 1 (0 + 1) (by decide) (Or.inr (Or.inr (by decide))) hf2 hm2 (by decide)
    (by decide) hs
  simp only [List.length_singleton, List.length_nil] at h1 h2
  rw [achd_push_tcp_eq, h1, h2]
  rfl

/-- C9, the code at two failing inputs: a header block that begins with a blank line, and
one that begins with a line holding the single character `x`.  In both the loop of
`achd_parse_headers` stops at that first line: no header is set, and the lines after
it, the `channel-name` header and the line with the dot, are left unread.  When the
header comes first, the line with the dot ends the block and what follows it is left
unread. -/
theorem parse_headers_stops_early :
    achd_parse_headers "\nchannel-name: c\n.\n".toList achd_headers.zero
        = .ok (achd_headers.zero, "channel-name: c\n.\n".toList)
      ∧ achd_parse_headers "x\nchannel-name: c\n.\n".toList achd_headers.zero
        = .ok (achd_headers.zero, "channel-name: c\n.\n".toList)
      ∧ achd_parse_headers "channel-name: c\n.\nxyz".toList achd_headers.zero
        = .ok ({ achd_headers.zero with chan_name := some "c".toList }, "xyz".toList) := by
  exact ⟨rfl, rfl, rfl⟩

/-- C10, the code at three failing inputs.  With a blank between the key and the
separator the key is taken with the blank and rejected as an invalid header; with a
blank after the value, before the end of the line or before a comment, the value is
stored with the blank.  Blanks before the key and between the separator and the
value are skipped, and a comment that follows the value directly is dropped. -/
theorem parse_headers_keeps_blanks :
    achd_parse_headers "channel-name : c\n".toList achd_headers.zero
        = .error (.error ACH_BAD_HEADER "Invalid header: channel-name \n".toList)
      ∧ achd_parse_headers "channel-name: c \n".toList achd_headers.zero
        = .ok ({ achd_headers.zero with chan_name := some "c ".toList }, [])
      ∧ achd_parse_headers "channel-name: c # x\n".toList achd_headers.zero
        = .ok ({ achd_headers.zero with chan_name := some "c ".toList }, [])
      ∧ achd_parse_headers "  channel-name=  c#x\n".toList achd_headers.zero
        = .ok ({ achd_headers.zero with chan_name := some "c".toList }, []) := by
  exact ⟨rfl, rfl, rfl, rfl⟩

/-! ### Header keys and values -/

theorem strcasecmp_eq_iff (a b : List Char) :
    strcasecmp_eq a b = true ↔ same_ignoring_case a b := by
  unfold strcasecmp_eq same_ignoring_case
  exact beq_iff_eq

theorem ite_ne_of {α : Type} (c : Prop) [Decidable c] (a b e : α) (ha : a ≠ e)
    (hb : ¬ c → b ≠ e) : (if c then a else b) ≠ e := by
  split
  · exact ha
  · exact hb ‹_›

/-- The message of an invalid key differs from every message that begins with `Invalid `
followed by a letter other than `h`. -/
theorem invalid_header_ne (c : Char) (rest key : List Char) (hc : c ≠ 'h') :
    "Invalid ".toList ++ (c :: rest) ≠ "Invalid header: ".toList ++ key ++ ['\n'] := by
  intro h
  have h8 := congrArg (fun l => l.get? 8) h
  simp only [String.toList] at h8
  simp at h8
  exact hc h8

theorem set_int_ne_invalid_header (c : Char) (name val key : List Char) (hc : c ≠ 'h')
    (f : Int → achd_headers) :
    (achd_set_int (c :: name) val).map f
      ≠ .error (.error ACH_BAD_HEADER ("Invalid header: ".toList ++ key ++ ['\n'])) := by
  unfold achd_set_int
  simp only []
  split
  · intro h
    simp only [Except.map] at h
    injection h with h
    injection h with _ h
    exact invalid_header_ne c _ key hc (by simpa using h)
  · intro h; simp [Except.map] at h

theorem parse_boolean_ne_error (val : List Char) (f : Int → achd_headers) (code : Int)
    (msg : List Char) : (achd_parse_boolean val).map f ≠ .error (.error code msg) := by
  unfold achd_parse_boolean
  simp only []
  split_ifs <;> simp [Except.map]

/-- C11: `achd_set_header` takes a key for a header if and only if the key equals, the
case of ASCII letters ignored, one of the twelve names: for such a key it never
reports an invalid header, whatever the value; for every other key it calls the
error handler with the code `ACH_BAD_HEADER` and the message `Invalid header`, and
gives back no headers, so that no field is changed. -/
theorem set_header_key (key : List Char) :
    (known_key key → ∀ val headers, achd_set_header key val headers
      ≠ .error (.error ACH_BAD_HEADER ("Invalid header: ".toList ++ key ++ ['\n']))) ∧
    (¬ known_key key → ∀ val headers, achd_set_header key val headers
      = .error (.error ACH_BAD_HEADER ("Invalid header: ".toList ++ key ++ ['\n']))) := by
  have hk : ∀ n ∈ header_names, strcasecmp_eq key n.toList = true → known_key key :=
    fun n hn h => ⟨n, hn, (strcasecmp_eq_iff _ _).1 h⟩
  constructor
  · intro hkn val headers
    unfold achd_set_header
    refine ite_ne_of _ _ _ _ (fun h => by cases h) (fun h1 => ?_)
    refine ite_ne_of _ _ _ _ (set_int_ne_invalid_header 'f' _ _ _ (by decide) _) (fun h2 => ?_)
    refine ite_ne_of _ _ _ _ (set_int_ne_invalid_header 'f' _ _ _ (by decide) _) (fun h3 => ?_)
    refine ite_ne_of _ _ _ _ (set_int_ne_invalid_header 'r' _ _ _ (by decide) _) (fun h4 => ?_)
    refine ite_ne_of _ _ _ _ (set_int_ne_invalid_header 'l' _ _ _ (by decide) _) (fun h5 => ?_)
    refine ite_ne_of _ _ _ _ (fun h => by cases h) (fun h6 => ?_)
    refine ite_ne_of _ _ _ _ (fun h => by cases h) (fun h7 => ?_)
    refine ite_ne_of _ _ _ _ (parse_boolean_ne_error _ _ _ _) (fun h8 => ?_)
    refine ite_ne_of _ _ _ _ (parse_boolean_ne_error _ _ _ _) (fun h9 => ?_)
    refine ite_ne_of _ _ _ _ ?_ (fun h10 => ?_)
    · refine ite_ne_of _ _ _ _ (fun h => by cases h) (fun _ => ?_)
      refine ite_ne_of _ _ _ _ (fun h => by cases h) (fun _ => ?_)
      intro h
      injection h with h
      injection h with _ h
      simp at h
    refine ite_ne_of _ _ _ _ (set_int_ne_invalid_header 's' _ _ _ (by decide) _) (fun h11 => ?_)
    refine ite_ne_of _ _ _ _ (fun h => by cases h) (fun h12 => ?_)
    exfalso
    obtain ⟨n, hn, hs⟩ := hkn
    have hs2 := (strcasecmp_eq_iff _ _).2 hs
    simp only [header_names, List.mem_cons, List.mem_singleton, List.not_mem_nil, or_false] at hn
    rcases hn with rfl | rfl | rfl | rfl | rfl | rfl | rfl | rfl | rfl | rfl | rfl | rfl
    · exact h1 hs2
    · exact h2 hs2
    · exact h3 hs2
    · exact h4 hs2
    · exact h5 hs2
    · exact h6 hs2
    · exact h7 hs2
    · exact h8 hs2
    · exact h9 hs2
    · exact h10 hs2
    · exact h11 hs2
    · exact h12 hs2
  · intro hkn val headers
    have hf : ∀ n ∈ header_names, ¬ strcasecmp_eq key n.toList = true :=
      fun n hn h => hkn (hk n hn h)
    unfold achd_set_header
    rw [if_neg (hf "channel-name" (by decide)), if_neg (hf "frame-size" (by decide)),
      if_neg (hf "frame-count" (by decide)), if_neg (hf "remote-port" (by decide)),
      if_neg (hf "local-port" (by decide)), if_neg (hf "remote-host" (by decide)),
      if_neg (hf "transport" (by decide)), if_neg (hf "tcp-nodelay" (by decide)),
      if_neg (hf "retry" (by decide)), if_neg (hf "direction" (by decide)),
      if_neg (hf "status" (by decide)), if_neg (hf "message" (by decide))]

theorem set_header_key_witness :
    (∀ val headers, achd_set_header "Frame-Size".toList val headers
      ≠ .error (.error ACH_BAD_HEADER ("Invalid header: ".toList ++ "Frame-Size".toList ++ ['\n']))) ∧
    (∀ val headers, achd_set_header "nosuchkey".toList val headers
      = .error (.error ACH_BAD_HEADER ("Invalid header: ".toList ++ "nosuchkey".toList ++ ['\n']))) :=
  ⟨(set_header_key "Frame-Size".toList).1 ⟨"frame-size", by decide, by decide⟩,
    (set_header_key "nosuchkey".toList).2 (by
      rintro ⟨n, hn, h⟩
      revert h; revert n; decide)⟩

theorem yes_not_no : ∀ w ∈ ["no", "false", "0", "f", "n", "-", "nay"],
    ∀ y ∈ ["yes", "true", "1", "t", "y", "+", "aye"],
      y.toList.map Char.toLower ≠ w.toList.map Char.toLower := by
  decide

/-- C13: `achd_parse_boolean` returns 1 for every string equal, the case of ASCII letters
ignored, to one of `yes`, `true`, `1`, `t`, `y`, `+`, `aye`; it returns 0 for every
string so equal to one of `no`, `false`, `0`, `f`, `n`, `-`, `nay`; and for every other
string it returns no value: the process exits with `EXIT_FAILURE`. -/
theorem parse_boolean_values (value : List Char) :
    ((∃ w ∈ ["yes", "true", "1", "t", "y", "+", "aye"], same_ignoring_case value w.toList) →
      achd_parse_boolean value = .ok 1) ∧
    ((∃ w ∈ ["no", "false", "0", "f", "n", "-", "nay"], same_ignoring_case value w.toList) →
      achd_parse_boolean value = .ok 0) ∧
    ((∀ w ∈ ["yes", "true", "1", "t", "y", "+", "aye", "no", "false", "0", "f", "n", "-", "nay"],
        ¬ same_ignoring_case value w.toList) →
      achd_parse_boolean value = .error (.exit EXIT_FAILURE)) := by
  refine ⟨?_, ?_, ?_⟩
  · rintro ⟨w, hw, h⟩
    have hy : (["yes", "true", "1", "t", "y", "+", "aye"].any
        (fun s => strcasecmp_eq s.toList value)) = true :=
      List.any_eq_true.2 ⟨w, hw, (strcasecmp_eq_iff _ _).2 h.symm⟩
    unfold achd_parse_boolean
    simp only [hy, if_true]
  · rintro ⟨w, hw, h⟩
    have hn : (["no", "false", "0", "f", "n", "-", "nay"].any
        (fun s => strcasecmp_eq s.toList value)) = true :=
      List.any_eq_true.2 ⟨w, hw, (strcasecmp_eq_iff _ _).2 h.symm⟩
    have hy : ¬ (["yes", "true", "1", "t", "y", "+", "aye"].any
        (fun s => strcasecmp_eq s.toList value)) = true := by
      intro hc
      obtain ⟨y, hy, h2⟩ := List.any_eq_true.1 hc
      exact yes_not_no w hw y hy (((strcasecmp_eq_iff _ _).1 h2).trans h)
    unfold achd_parse_boolean
    simp only [hy, hn, Bool.false_eq_true, if_true, if_false]
  · intro h
    have hsub1 : ∀ y ∈ ["yes", "true", "1", "t", "y", "+", "aye"],
        y ∈ ["yes", "true", "1", "t", "y", "+", "aye", "no", "false", "0", "f", "n", "-",
          "nay"] := by decide
    have hsub2 : ∀ y ∈ ["no", "false", "0", "f", "n", "-", "nay"],
        y ∈ ["yes", "true", "1", "t", "y", "+", "aye", "no", "false", "0", "f", "n", "-",
          "nay"] := by decide
    have hy : ¬ (["yes", "true", "1", "t", "y", "+", "aye"].any
        (fun s => strcasecmp_eq s.toList value)) = true := by
      intro hc
      obtain ⟨y, hy, h2⟩ := List.any_eq_true.1 hc
      exact h y (hsub1 y hy) ((strcasecmp_eq_iff _ _).1 h2).symm
    have hn : ¬ (["no", "false", "0", "f", "n", "-", "nay"].any
        (fun s => strcasecmp_eq s.toList value)) = true := by
      intro hc
      obtain ⟨y, hy, h2⟩ := List.any_eq_true.1 hc
      exact h y (hsub2 y hy) ((strcasecmp_eq_iff _ _).1 h2).symm
    unfold achd_parse_boolean
    simp only [hy, hn, Bool.false_eq_true, if_false]

theorem parse_boolean_values_witness :
    achd_parse_boolean "TRUE".toList = .ok 1 ∧ achd_parse_boolean "Nay".toList = .ok 0 ∧
      achd_parse_boolean "maybe".toList = .error (.exit EXIT_FAILURE) :=
  ⟨(parse_boolean_values "TRUE".toList).1 ⟨"true", by decide, by decide⟩,
    (parse_boolean_values "Nay".toList).2.1 ⟨"nay", by decide, by decide⟩,
    (parse_boolean_values "maybe".toList).2.2 (by decide)⟩

/-- C14: for each local direction, push or pull, the value of the direction header that
`achd_client` writes in its request block gives, when `achd_set_header` on the peer
takes it, the opposite direction; so does the line of the request that carries it
when the loop of `achd_parse_headers` reads it. -/
theorem request_direction_opposite (d : achd_direction) (headers : achd_headers)
    (hd : d = .ACHD_DIRECTION_PUSH ∨ d = .ACHD_DIRECTION_PULL) :
    achd_set_header "direction".toList (request_direction d) headers
        = .ok { headers with direction := opposite d } ∧
      parse_line ("direction: ".toList ++ request_direction d ++ ['\n']) headers
        = .ok (some { headers with direction := opposite d }) ∧
      ∀ chan_name transport, request_text chan_name transport d
        = "channel-name: ".toList ++ chan_name ++ "\ntransport: ".toList ++ transport
          ++ '\n' :: ("direction: ".toList ++ request_direction d ++ ['\n']) ++ ".\n".toList := by
  rcases hd with rfl | rfl
  · exact ⟨rfl, rfl, fun _ _ => by simp [request_text]⟩
  · exact ⟨rfl, rfl, fun _ _ => by simp [request_text]⟩

theorem request_direction_opposite_witness :
    achd_set_header "direction".toList (request_direction .ACHD_DIRECTION_PULL)
        achd_headers.zero
      = .ok { achd_headers.zero with direction := .ACHD_DIRECTION_PUSH } :=
  (request_direction_opposite .ACHD_DIRECTION_PULL achd_headers.zero (Or.inr rfl)).1

/-! ### Sessions of the server and of the client -/

theorem ite_holds {α : Type} (P : α → Prop) (c : Prop) (inst : Decidable c) (a b : α)
    (ha : P a) (hb : ¬ c → P b) : P (@ite α c inst a b) := by
  split
  · exact ha
  · exact hb ‹_›

theorem map_ok {α β : Type} (x : Except Halt α) (f : α → β) (y : β)
    (h : x.map f = .ok y) : ∃ i, x = .ok i ∧ y = f i := by
  cases x with
  | error e => simp [Except.map] at h
  | ok i => exact ⟨i, rfl, by simpa [Except.map] using h.symm⟩

theorem map_error {α β : Type} (x : Except Halt α) (f : α → β) (e : Halt)
    (h : x.map f = .error e) : x = .error e := by
  cases x with
  | error e2 => simpa [Except.map] using h
  | ok i => simp [Except.map] at h

/-- No header sets the name of the remote channel. -/
theorem set_header_remote_chan_name (key val : List Char) (headers h2 : achd_headers)
    (h : achd_set_header key val headers = .ok h2) :
    h2.remote_chan_name = headers.remote_chan_name := by
  revert h2
  unfold achd_set_header
  repeat' first
    | refine ite_holds (fun (r : Except Halt achd_headers) => ∀ h2 : achd_headers, r = .ok h2 →
        h2.remote_chan_name = headers.remote_chan_name) _ _ _ _ ?_ (fun _ => ?_)
    | (intro h2 h; obtain ⟨i, -, rfl⟩ := map_ok _ _ _ h; rfl)
    | (intro h2 h; cases h; rfl)
    | (intro h2 h; cases h)

/-- Only the header `status` sets the status. -/
theorem set_header_status (key val : List Char) (headers h2 : achd_headers)
    (hk : ¬ same_ignoring_case key "status".toList)
    (h : achd_set_header key val headers = .ok h2) : h2.status = headers.status := by
  have hs : ¬ strcasecmp_eq key "status".toList = true := fun hc => hk ((strcasecmp_eq_iff _ _).1 hc)
  revert h2
  unfold achd_set_header
  rw [if_neg hs]
  repeat' first
    | refine ite_holds (fun (r : Except Halt achd_headers) => ∀ h2 : achd_headers, r = .ok h2 →
        h2.status = headers.status) _ _ _ _ ?_ (fun _ => ?_)
    | (intro h2 h; obtain ⟨i, -, rfl⟩ := map_ok _ _ _ h; rfl)
    | (intro h2 h; cases h; rfl)
    | (intro h2 h; cases h)

theorem set_int_error (name val : List Char) (code : Int) (msg : List Char)
    (h : achd_set_int name val = .error (.error code msg)) :
    code = ACH_BAD_HEADER ∧ msg ≠ [] := by
  unfold achd_set_int at h
  simp only [] at h
  split at h
  · injection h with h
    injection h with h1 h2
    exact ⟨h1.symm, by rw [← h2]; simp⟩
  · cases h

theorem parse_boolean_error (val : List Char) (code : Int) (msg : List Char) :
    achd_parse_boolean val ≠ .error (.error code msg) := by
  unfold achd_parse_boolean
  simp only []
  split_ifs <;> simp

/-- Every call of the error handler in `achd_set_header` has the code of a bad header
and a message. -/
theorem set_header_error (key val : List Char) (headers : achd_headers) (code : Int)
    (msg : List Char) (h : achd_set_header key val headers = .error (.error code msg)) :
    code = ACH_BAD_HEADER ∧ msg ≠ [] := by
  revert h
  unfold achd_set_header
  repeat' first
    | refine ite_holds (fun (r : Except Halt achd_headers) => r = .error (.error code msg) →
        code = ACH_BAD_HEADER ∧ msg ≠ []) _ _ _ _ ?_ (fun _ => ?_)
    | (intro h; exact set_int_error _ _ _ _ (map_error _ _ _ h))
    | (intro h; exact absurd (map_error _ _ _ h) (parse_boolean_error _ _ _))
    | (intro h; injection h with h; injection h with h1 h2;
        exact ⟨h1.symm, by rw [← h2]; simp⟩)
    | (intro h; cases h)

theorem parse_line_error (line : List Char) (headers : achd_headers) (code : Int)
    (msg : List Char) (h : parse_line line headers = .error (.error code msg)) :
    code = ACH_BAD_HEADER ∧ msg ≠ [] := by
  unfold parse_line at h
  simp only [] at h
  split_ifs at h
  split at h
  · injection h with h
    injection h with h1 h2
    exact ⟨h1.symm, by rw [← h2]; simp⟩
  · split at h
    · exact set_header_error _ _ _ _ _ (map_error _ _ _ h)
    · cases h

theorem parse_line_remote_chan_name (line : List Char) (headers h2 : achd_headers)
    (h : parse_line line headers = .ok (some h2)) :
    h2.remote_chan_name = headers.remote_chan_name := by
  unfold parse_line at h
  simp only [] at h
  split_ifs at h
  · cases h
  · split at h
    · cases h
    · split at h
      · obtain ⟨i, hi, he⟩ := map_ok _ _ _ h
        cases he
        exact set_header_remote_chan_name _ _ _ _ hi
      · cases h; rfl

theorem parse_loop_error (fuel : Nat) :
    ∀ (inp : List Char) (headers : achd_headers) (code : Int) (msg : List Char),
      parse_loop fuel inp headers = .error (.error code msg) →
      code = ACH_BAD_HEADER ∧ msg ≠ [] := by
  induction fuel with
  | zero => intro inp headers code msg h; cases h
  | succ fuel ih =>
    intro inp headers code msg h
    unfold parse_loop at h
    simp only [] at h
    split_ifs at h
    split at h
    · rename_i e he
      cases h
      exact parse_line_error _ _ _ _ he
    · cases h
    · exact ih _ _ _ _ h

theorem parse_loop_remote_chan_name (fuel : Nat) :
    ∀ (inp : List Char) (headers h2 : achd_headers) (rest : List Char),
      parse_loop fuel inp headers = .ok (h2, rest) →
      h2.remote_chan_name = headers.remote_chan_name := by
  induction fuel with
  | zero => intro inp headers h2 rest h; cases h
  | succ fuel ih =>
    intro inp headers h2 rest h
    unfold parse_loop at h
    simp only [] at h
    split_ifs at h
    · split at h
      · cases h
      · cases h; rfl
      · rename_i h3 he
        exact (ih _ _ _ _ h).trans (parse_line_remote_chan_name _ _ _ he)
    · cases h; rfl

/-- Where the server does answer: for every header block that `achd_parse_headers`
reads without the process exiting in `achd_parse_boolean`, and that lacks a channel
name, a transport or a direction, `achd_serve` calls the error handler with a
non-zero code and a message, the response written is the status line with that code
and the message line, no handler is called, and the process exits with the code. -/
theorem serve_missing_header (ach_result_to_string : Int → List Char)
    (ach_open : List Char → Int) (index_cnt data_size : Nat) (fin : List Char)
    (hp : ∀ c, achd_parse_headers fin achd_headers.zero ≠ .error (.exit c))
    (hl : ∀ h rest, achd_parse_headers fin achd_headers.zero = .ok (h, rest) →
      h.chan_name = none ∨ h.transport = none ∨ h.direction = .ACHD_DIRECTION_VOID) :
    ∃ code msg, code ≠ 0 ∧ msg ≠ [] ∧
      achd_serve ach_result_to_string ach_open index_cnt data_size fin
        = ⟨error_header_text ach_result_to_string code msg, some (code, msg), none,
            some (.exit code)⟩ := by
  have hex : ∀ code msg, code ≠ 0 →
      achd_error_header ach_result_to_string [] code msg
        = ⟨error_header_text ach_result_to_string code msg, some (code, msg), none,
            some (.exit code)⟩ := by
    intro code msg hc
    unfold achd_error_header achd_exit_failure
    rw [if_pos hc, List.nil_append]
  have hbad : ACH_BAD_HEADER ≠ 0 := by decide
  unfold achd_serve
  cases hparse : achd_parse_headers fin achd_headers.zero with
  | error e =>
    cases e with
    | error code msg =>
      obtain ⟨h1, h2⟩ := parse_loop_error _ _ _ _ _ hparse
      subst h1
      exact ⟨_, msg, hbad, h2, hex _ _ hbad⟩
    | exit c => exact absurd hparse (hp c)
    | fuel => exact absurd hparse (achd_parse_headers_total _ _)
  | ok p =>
    obtain ⟨h, rest⟩ := p
    have hr : h.remote_chan_name = none := parse_loop_remote_chan_name _ _ _ _ _ hparse
    have hlack := hl h rest hparse
    simp only []
    cases hopen : achd_open ach_open h with
    | error e =>
      unfold achd_open at hopen
      rw [hr] at hopen
      cases hc : h.chan_name with
      | none =>
        rw [hc] at hopen
        simp only [] at hopen
        cases hopen
        exact ⟨_, _, hbad, by simp, hex _ _ hbad⟩
      | some name =>
        rw [hc] at hopen
        simp only [] at hopen
        split_ifs at hopen with ho
        cases hopen
        exact ⟨_, _, fun h0 => ho (by rw [h0]; rfl), by simp, hex _ _ (fun h0 => ho (by rw [h0]; rfl))⟩
    | ok u =>
      simp only []
      have hc : h.chan_name ≠ none := by
        intro hc
        unfold achd_open at hopen
        rw [hr, hc] at hopen
        cases hopen
      by_cases ht : h.transport = none
      · rw [if_pos ht]
        exact ⟨_, _, hbad, by simp, hex _ _ hbad⟩
      · rw [if_neg ht]
        have hd : h.direction = .ACHD_DIRECTION_VOID := by
          rcases hlack with h1 | h1 | h1
          · exact absurd h1 hc
          · exact absurd h1 ht
          · exact h1
        rw [if_pos hd]
        exact ⟨_, _, hbad, by simp, hex _ _ hbad⟩

theorem serve_missing_header_witness :
    ∃ code msg, code ≠ 0 ∧ msg ≠ [] ∧
      achd_serve sample_result_to_string (fun _ => ACH_OK) 16 1024
          "channel-name: c\ntransport: tcp\n.\n".toList
        = ⟨error_header_text sample_result_to_string code msg, some (code, msg), none,
            some (.exit code)⟩ := by
  have hparse : achd_parse_headers "channel-name: c\ntransport: tcp\n.\n".toList
      achd_headers.zero
      = .ok ({ achd_headers.zero with
          chan_name := some "c".toList, transport := some "tcp".toList }, []) := rfl
  exact serve_missing_header sample_result_to_string (fun _ => ACH_OK) 16 1024
    "channel-name: c\ntransport: tcp\n.\n".toList
    (fun c h => by rw [hparse] at h; cases h)
    (fun h rest hp => by
      rw [hparse] at hp
      cases hp
      exact Or.inr (Or.inr rfl))

/-- C12: a header block that lacks a channel name, a transport or a direction is to be
answered with a response that carries a non-zero status and a message.  The header
block `retry: maybe` lacks all three; reading it ends in `achd_parse_boolean`, which
calls `exit(EXIT_FAILURE)`, and `achd_serve` has written nothing: no response, no
call of the error handler, no handler.  The blocks `nosuchkey: x` and
`direction: up`, which lack the headers as well and are refused by the other
branches of `achd_set_header`, are answered through the error handler with the
status 14 and a message. -/
theorem serve_bad_boolean_exits :
    achd_parse_headers "retry: maybe\n.\n".toList achd_headers.zero
      = .error (.exit EXIT_FAILURE) ∧
    achd_serve sample_result_to_string (fun _ => ACH_OK) 16 1024 "retry: maybe\n.\n".toList
      = ⟨[], none, none, some (.exit EXIT_FAILURE)⟩ ∧
    achd_serve sample_result_to_string (fun _ => ACH_OK) 16 1024 "nosuchkey: x\n.\n".toList
      = ⟨"status: 14 # ACH_ERROR\nmessage: Invalid header: nosuchkey\n\n".toList,
          some (ACH_BAD_HEADER, "Invalid header: nosuchkey\n".toList), none,
          some (.exit 14)⟩ ∧
    achd_serve sample_result_to_string (fun _ => ACH_OK) 16 1024 "direction: up\n.\n".toList
      = ⟨"status: 14 # ACH_ERROR\nmessage: Invalid direction: up\n\n".toList,
          some (ACH_BAD_HEADER, "Invalid direction: up\n".toList), none,
          some (.exit 14)⟩ :=
  ⟨rfl, rfl, by decide, by decide⟩

theorem parse_line_status (line : List Char) (headers h2 : achd_headers)
    (hk : ∀ k, line_key line = some k → ¬ same_ignoring_case k "status".toList)
    (h : parse_line line headers = .ok (some h2)) : h2.status = headers.status := by
  unfold parse_line at h
  unfold line_key at hk
  simp only [] at h
  split_ifs at h
  · cases h
  · split at h
    · cases h
    · rename_i m hm
      rw [hm] at hk
      simp only [] at hk
      split at h
      · rename_i so1 eo1 so2 eo2 h1 h2'
        rw [h1, h2'] at hk
        obtain ⟨i, hi, he⟩ := map_ok _ _ _ h
        cases he
        exact set_header_status _ _ _ _ (hk _ rfl) hi
      · cases h; rfl

theorem parse_loop_status (fuel : Nat) :
    ∀ (inp : List Char) (headers h2 : achd_headers) (rest : List Char),
      (∀ line ∈ block_lines fuel inp, ∀ k, line_key line = some k →
        ¬ same_ignoring_case k "status".toList) →
      parse_loop fuel inp headers = .ok (h2, rest) → h2.status = headers.status := by
  induction fuel with
  | zero => intro inp headers h2 rest _ h; cases h
  | succ fuel ih =>
    intro inp headers h2 rest hk h
    unfold parse_loop at h
    unfold block_lines at hk
    simp only [] at h
    split_ifs at h with hlen
    · rw [if_pos hlen] at hk
      split at h
      · cases h
      · cases h; rfl
      · rename_i h3 he
        have hdot : ¬ (regexec dot_regex (cstr (getline inp).1)).isSome = true := by
          intro hd
          unfold parse_line at he
          simp only [] at he
          rw [if_pos hd] at he
          cases he
        rw [if_neg hdot] at hk
        have h1 := parse_line_status _ _ _
          (fun k hk1 => hk _ (List.mem_cons_self _ _) k hk1) he
        have h2' := ih _ _ _ _ (fun line hl => hk line (List.mem_cons_of_mem _ hl)) h
        exact h2'.trans h1
    · cases h; rfl

/-- C15: once `achd_client` has written its request, it calls the pump handler only if
`achd_parse_headers` gave response headers whose status is 0, and it does call it
then; for every response whose headers have a non-zero status it calls the error
handler with that status and with the message header when there is one, calls no
handler and exits; a response block that carries no status header leaves the status
`ACH_BUG`, so it is treated so. -/
theorem client_dispatch (cl_opts : achd_headers) (ach_open : List Char → Int) (net : NetRet)
    (fin : List Char) (handler : achd_io_handler_t) (chan_name : List Char)
    (hh : achd_get_handler cl_opts.transport cl_opts.direction = .ok handler)
    (hn : req_chan_name cl_opts = some chan_name)
    (ho : achd_open ach_open cl_opts = .ok ())
    (hc : achd_connect cl_opts.remote_host net = .ok (some net.socket))
    (hf : net.fdopen_ok = true) :
    ((achd_client cl_opts ach_open net fin).dispatched ≠ none →
      ∃ resp rest, achd_parse_headers fin resp_init = .ok (resp, rest) ∧ resp.status = 0) ∧
    (∀ resp rest, achd_parse_headers fin resp_init = .ok (resp, rest) → resp.status = 0 →
      (achd_client cl_opts ach_open net fin).dispatched = some handler ∧
      (achd_client cl_opts ach_open net fin).error = none) ∧
    (∀ resp rest, achd_parse_headers fin resp_init = .ok (resp, rest) → resp.status ≠ 0 →
      (achd_client cl_opts ach_open net fin).error
        = some (resp.status, response_error resp) ∧
      (achd_client cl_opts ach_open net fin).dispatched = none ∧
      (achd_client cl_opts ach_open net fin).ended = some (.exit resp.status)) ∧
    (∀ resp rest, achd_parse_headers fin resp_init = .ok (resp, rest) → ¬ carries_status fin →
      resp.status = ACH_BUG ∧
      (achd_client cl_opts ach_open net fin).error
        = some (ACH_BUG, response_error resp) ∧
      (achd_client cl_opts ach_open net fin).dispatched = none) := by
  have hcl : achd_client cl_opts ach_open net fin
      = client_response handler
          (request_text chan_name (cl_opts.transport.getD []) cl_opts.direction) fin := by
    unfold achd_client
    rw [hh]
    simp only []
    rw [hn]
    simp only []
    rw [ho]
    simp only []
    rw [hc]
    simp only [hf, Bool.not_true, Bool.false_eq_true, if_false]
  have hnz : ∀ resp rest, achd_parse_headers fin resp_init = .ok (resp, rest) →
      resp.status ≠ 0 →
      (achd_client cl_opts ach_open net fin).error
        = some (resp.status, response_error resp) ∧
      (achd_client cl_opts ach_open net fin).dispatched = none ∧
      (achd_client cl_opts ach_open net fin).ended = some (.exit resp.status) := by
    intro resp rest hp hs
    rw [hcl]
    unfold client_response
    have hp2 : achd_parse_headers fin { achd_headers.zero with status := ACH_BUG }
        = .ok (resp, rest) := hp
    rw [hp2]
    simp only []
    have hs2 : ACH_OK ≠ resp.status := fun h => hs h.symm
    rw [if_pos hs2]
    unfold response_error
    cases resp.message with
    | none =>
      refine ⟨rfl, rfl, ?_⟩
      show some (Outcome.exit (achd_exit_failure resp.status)) = _
      unfold achd_exit_failure
      rw [if_pos hs]
    | some m =>
      refine ⟨rfl, rfl, ?_⟩
      show some (Outcome.exit (achd_exit_failure resp.status)) = _
      unfold achd_exit_failure
      rw [if_pos hs]
  refine ⟨?_, ?_, hnz, ?_⟩
  · intro hd
    rw [hcl] at hd
    unfold client_response at hd
    cases hp : achd_parse_headers fin { achd_headers.zero with status := ACH_BUG } with
    | error e =>
      rw [hp] at hd
      cases e <;> exact absurd rfl hd
    | ok p =>
      obtain ⟨resp, rest⟩ := p
      rw [hp] at hd
      simp only [] at hd
      refine ⟨resp, rest, hp, ?_⟩
      by_contra hs
      have hs2 : ACH_OK ≠ resp.status := fun h => hs h.symm
      rw [if_pos hs2] at hd
      cases hm : resp.message with
      | none => rw [hm] at hd; exact hd rfl
      | some m => rw [hm] at hd; exact hd rfl
  · intro resp rest hp hs
    rw [hcl]
    unfold client_response
    have hp2 : achd_parse_headers fin { achd_headers.zero with status := ACH_BUG }
        = .ok (resp, rest) := hp
    rw [hp2]
    simp only []
    have hs2 : ¬ ACH_OK ≠ resp.status := fun h => h hs.symm
    rw [if_neg hs2]
    exact ⟨rfl, rfl⟩
  · intro resp rest hp hns
    have hst : resp.status = ACH_BUG := by
      refine parse_loop_status _ _ _ _ _ ?_ hp
      intro line hl k hk hsame
      exact hns ⟨line, hl, k, hk, hsame⟩
    have h3 := hnz resp rest hp (by rw [hst]; decide)
    rw [hst] at h3
    exact ⟨hst, h3.1, h3.2.1⟩

theorem client_dispatch_witness :
    (achd_client sample_cl_opts (fun _ => ACH_OK) sample_net
        "status: 14 # ACH_BAD_HEADER\nmessage: No transport header\n".toList).error
      = some (14, "Server error: No transport header\n".toList) ∧
    (achd_client sample_cl_opts (fun _ => ACH_OK) sample_net
        "status: 14 # ACH_BAD_HEADER\nmessage: No transport header\n".toList).dispatched
      = none ∧
    (achd_client sample_cl_opts (fun _ => ACH_OK) sample_net
        "status: 14 # ACH_BAD_HEADER\nmessage: No transport header\n".toList).ended
      = some (.exit 14) :=
  (client_dispatch sample_cl_opts (fun _ => ACH_OK) sample_net
    "status: 14 # ACH_BAD_HEADER\nmessage: No transport header\n".toList .achd_pull_tcp
    "c".toList rfl rfl rfl rfl rfl).2.2.1
    { resp_init with status := 14, message := some "No transport header".toList } [] rfl
    (by decide)

/-! ### Error responses read back -/

theorem star_run_append (p : Char → Bool) (k : List Char → Nat → Caps → Option Caps)
    (l rest : List Char) (r : Caps) (hl : ∀ x ∈ l, p x = true) :
    ∀ (i : Nat) (m : Caps), star_run p k rest (i + l.length) m = some r →
      star_run p k (l ++ rest) i m = some r := by
  induction l with
  | nil => intro i m h; simpa using h
  | cons x l ih =>
    intro i m h
    have hx : p x = true := hl x (List.mem_cons_self _ _)
    have h2 := ih (fun y hy => hl y (List.mem_cons_of_mem _ hy)) (i + 1) m
      (by rw [← h]; congr 1; simp only [List.length_cons]; omega)
    show star_run p k (x :: (l ++ rest)) i m = some r
    unfold star_run
    rw [if_pos hx, h2]

theorem star_run_stop (p : Char → Bool) (k : List Char → Nat → Caps → Option Caps)
    (c : Char) (cs : List Char) (i : Nat) (m : Caps) (hc : p c = false) :
    star_run p k (c :: cs) i m = k (c :: cs) i m := by
  unfold star_run
  rw [if_neg (by rw [hc]; decide)]

theorem sep_not_word (sep : Char) (hsep : sep_set sep = true) : word_set sep = false := by
  unfold sep_set at hsep
  unfold word_set
  rw [hsep]; rfl

theorem sep_not_space (sep : Char) (hsep : sep_set sep = true) : space_set sep = false := by
  unfold sep_set at hsep
  simp only [Bool.or_eq_true, beq_iff_eq] at hsep
  rcases hsep with rfl | rfl <;> decide

theorem value_run (V T : List Char) (hV : ∀ x ∈ V, word_set x = true)
    (hT : T = [] ∨ T = ['\n']) (i : Nat) (m : Caps) :
    star_run word_set
      (fun s2 j m2 =>
        star_run space_set (fun rest _ m => if rest = [] then some m else none) s2 j
          ((2, i, j) :: m2)) (V ++ T) i m = some ((2, i, i + V.length) :: m) := by
  apply star_run_append _ _ _ _ _ hV
  rcases hT with rfl | rfl
  · rfl
  · rfl

theorem line_regex_match (k0 : Char) (K V T : List Char) (sep : Char)
    (hk0 : space_set k0 = false) (hK : ∀ x ∈ k0 :: K, word_set x = true)
    (hsep : sep_set sep = true)
    (hV : ∀ x ∈ V, word_set x = true) (hV0 : ∀ x, V.head? = some x → space_set x = false)
    (hVne : V ≠ []) (hT : T = [] ∨ T = ['\n']) :
    regexec line_regex ((k0 :: K) ++ sep :: ' ' :: (V ++ T))
      = some [(2, K.length + 3, K.length + 3 + V.length), (1, 0, K.length + 1)] := by
  have hsw := sep_not_word sep hsep
  have hss := sep_not_space sep hsep
  obtain ⟨v, V', rfl⟩ : ∃ v V', V = v :: V' := by
    cases V with
    | nil => exact absurd rfl hVne
    | cons v V' => exact ⟨v, V', rfl⟩
  have hv : space_set v = false := hV0 v rfl
  simp only [regexec, line_regex, RE.run]
  rw [List.cons_append, star_run_stop _ _ k0 _ 0 [] hk0, star_run_stop _ _ k0 _ 0 [] hk0]
  simp only [reduceCtorEq, if_false]
  rw [← List.cons_append]
  apply star_run_append _ _ _ _ _ hK
  rw [star_run_stop _ _ sep _ _ _ hsw, star_run_stop _ _ sep _ _ _ hss]
  simp only [hsep, if_true]
  unfold star_run
  rw [if_pos (by decide)]
  rw [List.cons_append, star_run_stop _ _ v _ _ _ hv, ← List.cons_append]
  rw [value_run _ _ hV hT]
  simp only [List.length_cons, Nat.zero_add]

theorem dot_regex_none (a b : Char) (rest : List Char) (ha : space_set a = false)
    (hb : space_set b = false) : regexec dot_regex (a :: b :: rest) = none := by
  simp only [regexec, dot_regex, RE.run]
  rw [star_run_stop _ _ a _ _ _ ha]
  simp only [if_true]
  rw [star_run_stop _ _ b _ _ _ hb]
  simp

theorem digits_value_cons (c : Char) (cs : List Char) (acc : Nat) (hc : c.isDigit = true) :
    digits_value (c :: cs) acc = digits_value cs (10 * acc + (c.toNat - '0'.toNat)) := by
  rw [digits_value, if_pos hc]

theorem digits_value_stop (c : Char) (cs : List Char) (acc : Nat) (hc : c.isDigit = false) :
    digits_value (c :: cs) acc = acc := by
  rw [digits_value, if_neg (by rw [hc]; decide)]

theorem digitChar_spec : ∀ k < 10,
    (Nat.digitChar k).isDigit = true ∧ (Nat.digitChar k).toNat - '0'.toNat = k := by
  decide

theorem toDigitsCore_spec (fuel : Nat) : ∀ n, n < fuel → ∃ pre : List Char,
    pre ≠ [] ∧ (∀ ds, Nat.toDigitsCore 10 fuel n ds = pre ++ ds) ∧
    (∀ x ∈ pre, x.isDigit = true) ∧
    (∀ ds acc, digits_value (pre ++ ds) acc = digits_value ds (acc * 10 ^ pre.length + n)) := by
  induction fuel with
  | zero => intro n hn; omega
  | succ fuel ih =>
    intro n hn
    obtain ⟨hd1, hd2⟩ := digitChar_spec (n % 10) (Nat.mod_lt _ (by decide))
    by_cases h0 : n / 10 = 0
    · refine ⟨[Nat.digitChar (n % 10)], by simp, ?_, ?_, ?_⟩
      · intro ds
        simp only [Nat.toDigitsCore, h0, if_true, List.singleton_append]
      · intro x hx
        rw [List.mem_singleton.1 hx]; exact hd1
      · intro ds acc
        show digits_value (Nat.digitChar (n % 10) :: ds) acc = _
        rw [digits_value_cons _ _ _ hd1, hd2]
        congr 1
        simp only [List.length_singleton, pow_one]
        omega
    · obtain ⟨pre, hne, hcore, hdig, hval⟩ := ih (n / 10) (by omega)
      refine ⟨pre ++ [Nat.digitChar (n % 10)], by simp, ?_, ?_, ?_⟩
      · intro ds
        simp only [Nat.toDigitsCore, h0, if_false, hcore, List.append_assoc,
          List.singleton_append]
      · intro x hx
        rcases List.mem_append.1 hx with h | h
        · exact hdig x h
        · rw [List.mem_singleton.1 h]; exact hd1
      · intro ds acc
        rw [List.append_assoc, hval]
        show digits_value (Nat.digitChar (n % 10) :: ds) _ = _
        rw [digits_value_cons _ _ _ hd1, hd2]
        congr 1
        simp only [List.length_append, List.length_singleton, pow_succ]
        have := Nat.div_add_mod n 10
        nlinarith [this]

theorem toDigits_spec (n : Nat) : ∃ pre : List Char,
    pre ≠ [] ∧ Nat.toDigits 10 n = pre ∧ (∀ x ∈ pre, x.isDigit = true) ∧
    (∀ ds acc, digits_value (pre ++ ds) acc = digits_value ds (acc * 10 ^ pre.length + n)) := by
  obtain ⟨pre, hne, hcore, hdig, hval⟩ := toDigitsCore_spec (n + 1) n (Nat.lt_succ_self _)
  refine ⟨pre, hne, ?_, hdig, hval⟩
  unfold Nat.toDigits
  rw [hcore, List.append_nil]

theorem isDigit_ne (c b : Char) (h : c.isDigit = true) (hb : b.isDigit = false) : c ≠ b := by
  rintro rfl
  rw [h] at hb
  cases hb

theorem isDigit_word (c : Char) (h : c.isDigit = true) : word_set c = true := by
  have h1 := isDigit_ne c ':' h (by decide)
  have h2 := isDigit_ne c '=' h (by decide)
  have h3 := isDigit_ne c '\n' h (by decide)
  simp [word_set, h1, h2, h3]

theorem isDigit_not_space (c : Char) (h : c.isDigit = true) :
    space_set c = false ∧ isspace c = false := by
  have h1 := isDigit_ne c ' ' h (by decide)
  have h2 := isDigit_ne c '\t' h (by decide)
  have h3 := isDigit_ne c '\n' h (by decide)
  have h4 := isDigit_ne c '\r' h (by decide)
  have h5 := isDigit_ne c '\x0b' h (by decide)
  have h6 := isDigit_ne c '\x0c' h (by decide)
  simp [space_set, isspace, h1, h2, h3, h4, h5, h6]

/-- The text of `%d`: an optional minus sign, then digits whose value is the absolute
value. -/
theorem fmt_d_spec (c : Int) : ∃ pre : List Char,
    pre ≠ [] ∧ (∀ x ∈ pre, x.isDigit = true) ∧
    (∀ ds acc, digits_value (pre ++ ds) acc
      = digits_value ds (acc * 10 ^ pre.length + c.natAbs)) ∧
    ((0 ≤ c ∧ Achcop.fmt_d c = pre) ∨ (c < 0 ∧ Achcop.fmt_d c = '-' :: pre)) := by
  by_cases hc : c < 0
  · obtain ⟨pre, hne, htd, hdig, hval⟩ := toDigits_spec (-c).toNat
    have hn : (-c).toNat = c.natAbs := by omega
    rw [hn] at hval
    refine ⟨pre, hne, hdig, hval, Or.inr ⟨hc, ?_⟩⟩
    unfold Achcop.fmt_d
    rw [if_pos hc, htd]
  · obtain ⟨pre, hne, htd, hdig, hval⟩ := toDigits_spec c.toNat
    have hn : c.toNat = c.natAbs := by omega
    rw [hn] at hval
    refine ⟨pre, hne, hdig, hval, Or.inl ⟨by omega, ?_⟩⟩
    unfold Achcop.fmt_d
    rw [if_neg hc, htd]

/-- The characters of the text of `%d` are those of a header value, and the first is no
blank. -/
theorem fmt_d_chars (c : Int) :
    (∀ x ∈ Achcop.fmt_d c, word_set x = true ∧ x ≠ '#' ∧ x ≠ '\x00' ∧ x ≠ '\n') ∧
    (∃ d ds, Achcop.fmt_d c = d :: ds ∧ space_set d = false) := by
  obtain ⟨pre, hne, hdig, -, hf⟩ := fmt_d_spec c
  have hpre : ∀ x ∈ pre, word_set x = true ∧ x ≠ '#' ∧ x ≠ '\x00' ∧ x ≠ '\n' :=
    fun x hx => ⟨isDigit_word x (hdig x hx), isDigit_ne x _ (hdig x hx) (by decide),
      isDigit_ne x _ (hdig x hx) (by decide), isDigit_ne x _ (hdig x hx) (by decide)⟩
  rcases hf with ⟨-, hf⟩ | ⟨-, hf⟩
  · rw [hf]
    refine ⟨hpre, ?_⟩
    cases pre with
    | nil => exact absurd rfl hne
    | cons d ds => exact ⟨d, ds, rfl, (isDigit_not_space d (hdig d (List.mem_cons_self _ _))).1⟩
  · rw [hf]
    refine ⟨?_, '-', pre, rfl, by decide⟩
    intro x hx
    rcases List.mem_cons.1 hx with h | h
    · rw [h]; decide
    · exact hpre x h

/-- The function `strtol` reads back the text of `%d` that a blank follows. -/
theorem strtol_fmt_d (c : Int) (rest : List Char) (h1 : -(2 : Int) ^ 63 < c)
    (h2 : c < (2 : Int) ^ 63) : strtol (Achcop.fmt_d c ++ ' ' :: rest) = (c, false) := by
  obtain ⟨pre, hne, hdig, hval, hf⟩ := fmt_d_spec c
  obtain ⟨d, ds, rfl⟩ : ∃ d ds, pre = d :: ds := by
    cases pre with
    | nil => exact absurd rfl hne
    | cons d ds => exact ⟨d, ds, rfl⟩
  have hd := hdig d (List.mem_cons_self _ _)
  have hv : digits_value ((d :: ds) ++ ' ' :: rest) 0 = c.natAbs := by
    rw [hval, digits_value_stop _ _ _ (by decide)]
    omega
  rcases hf with ⟨hc, hf⟩ | ⟨hc, hf⟩
  · rw [hf]
    have hsp : ((d :: ds) ++ ' ' :: rest).dropWhile isspace = (d :: ds) ++ ' ' :: rest := by
      rw [List.cons_append, List.dropWhile_cons_of_neg]
      rw [(isDigit_not_space d hd).2]; decide
    have hm : d ≠ '-' := isDigit_ne d _ hd (by decide)
    have hp : d ≠ '+' := isDigit_ne d _ hd (by decide)
    have hh : ((d :: ds) ++ ' ' :: rest).head? = some d := rfl
    have e1 : (some d == some '-') = false := by simp [hm]
    have e2 : (some d == some '+') = false := by simp [hp]
    have hle : ¬ c.natAbs > 2 ^ 63 - 1 := by omega
    unfold strtol
    simp only [hsp, hh, e1, e2, Bool.or_self, Bool.false_eq_true, if_false, hv, hle]
    congr 1
    omega
  · rw [hf]
    have hsp : (('-' :: d :: ds) ++ ' ' :: rest).dropWhile isspace
        = ('-' :: d :: ds) ++ ' ' :: rest := by
      rw [List.cons_append, List.dropWhile_cons_of_neg]
      decide
    have hh : (('-' :: d :: ds) ++ ' ' :: rest).head? = some '-' := rfl
    have ht : (('-' :: d :: ds) ++ ' ' :: rest).tail = (d :: ds) ++ ' ' :: rest := rfl
    have hle : ¬ c.natAbs > 2 ^ 63 := by omega
    unfold strtol
    simp only [hsp, hh, ht, beq_self_eq_true, Bool.true_or, if_true, hv, hle, if_false]
    congr 1
    omega

theorem getline_append (l rest : List Char) (hl : ∀ x ∈ l, x ≠ '\n') :
    getline (l ++ '\n' :: rest) = (l ++ ['\n'], rest) := by
  induction l with
  | nil => simp [getline]
  | cons c l ih =>
    have hc : c ≠ '\n' := hl c (List.mem_cons_self _ _)
    have h2 := ih (fun x hx => hl x (List.mem_cons_of_mem _ hx))
    show getline (c :: (l ++ '\n' :: rest)) = _
    rw [getline, if_neg hc, h2]
    rfl

theorem cstr_all (l : List Char) (hl : ∀ x ∈ l, x ≠ '\x00') : cstr l = l := by
  unfold cstr
  rw [List.takeWhile_eq_self_iff]
  intro x hx
  simpa using hl x hx

theorem cut_comment (pre tail : List Char)
    (hp : ∀ x ∈ pre, x ≠ '\x00' ∧ x ≠ '#') :
    (cstr (pre ++ '#' :: tail)).takeWhile (fun c => c != '#') = pre := by
  induction pre with
  | nil =>
    show (cstr ('#' :: tail)).takeWhile _ = []
    unfold cstr
    rw [List.takeWhile_cons_of_pos (by decide), List.takeWhile_cons_of_neg (by decide)]
  | cons c l ih =>
    obtain ⟨h0, h1⟩ := hp c (List.mem_cons_self _ _)
    have h2 := ih (fun x hx => hp x (List.mem_cons_of_mem _ hx))
    show (cstr (c :: (l ++ '#' :: tail))).takeWhile _ = _
    unfold cstr at h2 ⊢
    rw [List.takeWhile_cons_of_pos (by simpa using h0),
      List.takeWhile_cons_of_pos (by simpa using h1), h2]

theorem no_comment (l : List Char) (hl : ∀ x ∈ l, x ≠ '#') :
    l.takeWhile (fun c => c != '#') = l := by
  rw [List.takeWhile_eq_self_iff]
  intro x hx
  simpa using hl x hx

theorem slice_mid (A B C : List Char) :
    slice (A ++ (B ++ C)) A.length (A.length + B.length) = B := by
  unfold slice
  simp

theorem set_header_status_key (val : List Char) (headers : achd_headers) :
    achd_set_header "status".toList val headers
      = (achd_set_int "status".toList val).map (fun i => { headers with status := i }) := by
  rfl

theorem set_header_message_key (val : List Char) (headers : achd_headers) :
    achd_set_header "message".toList val headers
      = .ok { headers with message := some val } := by
  rfl

theorem bmod_int (c : Int) (h1 : -(2 : Int) ^ 31 ≤ c) (h2 : c < (2 : Int) ^ 31) :
    Int.bmod c (2 ^ 32) = c := by
  unfold Int.bmod
  norm_num at h1 h2 ⊢
  split_ifs <;> omega

/-- A header line made of a key, a separator, a blank and a value is given to
`achd_set_header` with that key and that value. -/
theorem parse_line_key_value (k0 : Char) (K V T line : List Char) (sep : Char)
    (headers : achd_headers)
    (hk0 : space_set k0 = false) (hk1 : ∃ k1 K', K = k1 :: K' ∧ space_set k1 = false)
    (hK : ∀ x ∈ k0 :: K, word_set x = true) (hsep : sep_set sep = true)
    (hV : ∀ x ∈ V, word_set x = true) (hV0 : ∀ x, V.head? = some x → space_set x = false)
    (hVne : V ≠ []) (hT : T = [] ∨ T = ['\n'])
    (hcut : (cstr line).takeWhile (fun c => c != '#') = (k0 :: K) ++ sep :: ' ' :: (V ++ T))
    (hpre : ∃ l, cstr line = k0 :: K ++ l) :
    parse_line line headers = (achd_set_header (k0 :: K) V headers).map some := by
  obtain ⟨k1, K', rfl, hk1⟩ := hk1
  obtain ⟨l, hl⟩ := hpre
  have hdot : regexec dot_regex (cstr line) = none := by
    rw [hl]
    exact dot_regex_none k0 k1 _ hk0 hk1
  have hre := line_regex_match k0 (k1 :: K') V T sep hk0 hK hsep hV hV0 hVne hT
  have hs1 : slice ((k0 :: k1 :: K') ++ sep :: ' ' :: (V ++ T)) 0 ((k1 :: K').length + 1)
      = k0 :: k1 :: K' := by
    have := slice_mid [] (k0 :: k1 :: K') (sep :: ' ' :: (V ++ T))
    simpa using this
  have hs2 : slice ((k0 :: k1 :: K') ++ sep :: ' ' :: (V ++ T)) ((k1 :: K').length + 3)
      ((k1 :: K').length + 3 + V.length) = V := by
    have := slice_mid ((k0 :: k1 :: K') ++ [sep, ' ']) V T
    simpa using this
  unfold parse_line
  simp only [hdot, hcut, hre, Option.isSome_none, Bool.false_eq_true, if_false, Caps.find]
  simp only [if_true, if_false, show (2 : Nat) ≠ 1 by decide]
  rw [hs1, hs2]

theorem cstr_append_all (A B : List Char) (hA : ∀ x ∈ A, x ≠ '\x00') :
    cstr (A ++ B) = A ++ cstr B := by
  induction A with
  | nil => rfl
  | cons a A ih =>
    have ha : a ≠ '\x00' := hA a (List.mem_cons_self _ _)
    have h2 := ih (fun x hx => hA x (List.mem_cons_of_mem _ hx))
    unfold cstr at h2 ⊢
    rw [List.cons_append, List.takeWhile_cons_of_pos (by simpa using ha), h2]
    rfl

theorem achd_set_int_fmt_d (name : List Char) (c : Int) (h1 : -(2 : Int) ^ 31 ≤ c)
    (h2 : c < (2 : Int) ^ 31) : achd_set_int name (Achcop.fmt_d c ++ [' ']) = .ok c := by
  unfold achd_set_int
  rw [strtol_fmt_d c [] (by norm_num at h1 ⊢; omega) (by norm_num at h2 ⊢; omega)]
  simp only [Bool.false_eq_true, if_false]
  rw [bmod_int c h1 h2]

/-- The status line of an error response sets the status to the code. -/
theorem parse_status_line (c : Int) (tail : List Char) (headers : achd_headers)
    (h1 : -(2 : Int) ^ 31 ≤ c) (h2 : c < (2 : Int) ^ 31) :
    parse_line ("status: ".toList ++ Achcop.fmt_d c ++ " # ".toList ++ tail) headers
      = .ok (some { headers with status := c }) := by
  obtain ⟨hch, d, ds, hd, hsp⟩ := fmt_d_chars c
  have e1 : "status: ".toList ++ Achcop.fmt_d c ++ " # ".toList ++ tail
      = ("status: ".toList ++ (Achcop.fmt_d c ++ [' '])) ++ '#' :: (' ' :: tail) := by
    simp
  have e2 : "status: ".toList ++ (Achcop.fmt_d c ++ [' '])
      = ('s' :: "tatus".toList) ++ ':' :: ' ' :: ((Achcop.fmt_d c ++ [' ']) ++ []) := by
    simp
  have e3 : "status: ".toList ++ Achcop.fmt_d c ++ " # ".toList ++ tail
      = "status".toList ++ (':' :: ' ' :: (Achcop.fmt_d c ++ " # ".toList ++ tail)) := by
    simp
  have hA : ∀ x ∈ "status: ".toList, x ≠ '\x00' ∧ x ≠ '#' := by decide
  have hV : ∀ x ∈ Achcop.fmt_d c ++ [' '], word_set x = true := by
    intro x hx
    rcases List.mem_append.1 hx with h | h
    · exact (hch x h).1
    · rw [List.mem_singleton.1 h]; decide
  have hcut := cut_comment ("status: ".toList ++ (Achcop.fmt_d c ++ [' '])) (' ' :: tail)
    (by
      intro x hx
      rcases List.mem_append.1 hx with hx | hx
      · exact hA x hx
      rcases List.mem_append.1 hx with hx | hx
      · exact ⟨(hch x hx).2.2.1, (hch x hx).2.1⟩
      · rw [List.mem_singleton.1 hx]; decide)
  rw [← e1, e2] at hcut
  have h := parse_line_key_value 's' "tatus".toList (Achcop.fmt_d c ++ [' ']) [] _ ':' headers
    (by decide) ⟨'t', "atus".toList, rfl, by decide⟩ (by decide) (by decide) hV
    (by rw [hd]; intro x hx; cases hx; exact hsp) (by simp) (Or.inl rfl) hcut
    ⟨cstr (':' :: ' ' :: (Achcop.fmt_d c ++ " # ".toList ++ tail)), by
      rw [e3, cstr_append_all _ _ (by decide)]; rfl⟩
  rw [h]
  show Except.map some (achd_set_header "status".toList _ _) = _
  rw [set_header_status_key, achd_set_int_fmt_d _ c h1 h2]
  rfl

/-- The message line of an error response sets the message to the text. -/
theorem parse_message_line (m : List Char) (headers : achd_headers)
    (hm : ∀ x ∈ m, x ≠ ':' ∧ x ≠ '=' ∧ x ≠ '#' ∧ x ≠ '\n' ∧ x ≠ '\x00')
    (hhead : ∀ x, m.head? = some x → space_set x = false) :
    parse_line ("message: ".toList ++ m ++ ['\n']) headers
      = .ok (some { headers with message := some m }) := by
  cases m with
  | nil => rfl
  | cons v m' =>
    have hline : "message: ".toList ++ (v :: m') ++ ['\n']
        = ('m' :: "essage".toList) ++ ':' :: ' ' :: ((v :: m') ++ ['\n']) := by
      simp
    have hA : ∀ x ∈ "message: ".toList, x ≠ '\x00' ∧ x ≠ '#' := by decide
    have hall : ∀ x ∈ "message: ".toList ++ (v :: m') ++ ['\n'], x ≠ '\x00' ∧ x ≠ '#' := by
      intro x hx
      rcases List.mem_append.1 hx with hx | hx
      · rcases List.mem_append.1 hx with hx | hx
        · exact hA x hx
        · exact ⟨(hm x hx).2.2.2.2, (hm x hx).2.2.1⟩
      · rw [List.mem_singleton.1 hx]; decide
    have hc : cstr ("message: ".toList ++ (v :: m') ++ ['\n'])
        = "message: ".toList ++ (v :: m') ++ ['\n'] := cstr_all _ (fun x hx => (hall x hx).1)
    have h := parse_line_key_value 'm' "essage".toList (v :: m') ['\n'] _ ':' headers
      (by decide) ⟨'e', "ssage".toList, rfl, by decide⟩ (by decide) (by decide)
      (by
        intro x hx
        obtain ⟨a, b, _, d, _⟩ := hm x hx
        simp [word_set, a, b, d])
      hhead (by simp) (Or.inr rfl)
      (by rw [hc, no_comment _ (fun x hx => (hall x hx).2), hline])
      ⟨':' :: ' ' :: ((v :: m') ++ ['\n']), by rw [hc, hline]⟩
    rw [h]
    show Except.map some (achd_set_header "message".toList _ _) = _
    rw [set_header_message_key]
    rfl

/-- C16, amended: for every status code and every message text that contains no colon,
equals sign, number sign, newline or NUL and does not begin with a blank, a tab or a
carriage return, the status line and the message line that `achd_error_header`
writes are read by `achd_parse_headers` without error, up to the end of the text,
into headers with that status and that message. -/
theorem error_header_round_trip (ach_result_to_string : Int → List Char) (c : Int)
    (m : List Char) (headers : achd_headers)
    (h1 : -(2 : Int) ^ 31 ≤ c) (h2 : c < (2 : Int) ^ 31)
    (hname : ∀ x ∈ ach_result_to_string c, x ≠ '\n')
    (hm : ∀ x ∈ m, x ≠ ':' ∧ x ≠ '=' ∧ x ≠ '#' ∧ x ≠ '\n' ∧ x ≠ '\x00')
    (hhead : ∀ x, m.head? = some x → space_set x = false) :
    achd_parse_headers (error_header_text ach_result_to_string c m) headers
      = .ok ({ headers with status := c, message := some m }, []) := by
  obtain ⟨hch, -⟩ := fmt_d_chars c
  have htext : error_header_text ach_result_to_string c m
      = ("status: ".toList ++ Achcop.fmt_d c ++ " # ".toList ++ ach_result_to_string c)
        ++ '\n' :: (("message: ".toList ++ m) ++ '\n' :: []) := by
    unfold error_header_text
    simp
  have hl1 : ∀ x ∈ "status: ".toList ++ Achcop.fmt_d c ++ " # ".toList
      ++ ach_result_to_string c, x ≠ '\n' := by
    have hA : ∀ x ∈ "status: ".toList, x ≠ '\n' := by decide
    have hB : ∀ x ∈ " # ".toList, x ≠ '\n' := by decide
    intro x hx
    rcases List.mem_append.1 hx with hx | hx
    · rcases List.mem_append.1 hx with hx | hx
      · rcases List.mem_append.1 hx with hx | hx
        · exact hA x hx
        · exact (hch x hx).2.2.2
      · exact hB x hx
    · exact hname x hx
  have hl2 : ∀ x ∈ "message: ".toList ++ m, x ≠ '\n' := by
    have hA : ∀ x ∈ "message: ".toList, x ≠ '\n' := by decide
    intro x hx
    rcases List.mem_append.1 hx with hx | hx
    · exact hA x hx
    · exact (hm x hx).2.2.2.1
  have hg1 := getline_append _ (("message: ".toList ++ m) ++ '\n' :: []) hl1
  have hg2 := getline_append _ [] hl2
  have hp1 := parse_status_line c (ach_result_to_string c ++ ['\n']) headers h1 h2
  have hp2 := parse_message_line m { headers with status := c } hm hhead
  obtain ⟨k, hk⟩ : ∃ k, (error_header_text ach_result_to_string c m).length + 1 = k + 3 := by
    refine ⟨(error_header_text ach_result_to_string c m).length - 2, ?_⟩
    rw [htext]
    simp only [List.length_append, List.length_cons]
    omega
  unfold achd_parse_headers
  rw [hk, htext]
  unfold parse_loop
  simp only [hg1, List.length_append, List.length_cons, List.length_nil]
  rw [if_pos (by omega)]
  rw [show "status: ".toList ++ Achcop.fmt_d c ++ " # ".toList ++ ach_result_to_string c
      ++ ['\n'] = "status: ".toList ++ Achcop.fmt_d c ++ " # ".toList
        ++ (ach_result_to_string c ++ ['\n']) by simp, hp1]
  simp only []
  unfold parse_loop
  simp only [hg2, List.length_append, List.length_cons, List.length_nil]
  rw [if_pos (by omega), hp2]
  simp only []
  unfold parse_loop
  rfl

theorem error_header_round_trip_witness :
    achd_parse_headers
        (error_header_text sample_result_to_string 14 "No transport header".toList) resp_init
      = .ok ({ resp_init with status := 14, message := some "No transport header".toList }, []) :=
  error_header_round_trip sample_result_to_string 14 "No transport header".toList resp_init
    (by decide) (by decide) (by decide) (by decide) (by decide)

/-- C16, counterexample: the response that `achd_error_header` writes for the message
`Invalid header: nosuchkey`, which `achd_set_header` gives to the error handler, has a
message line with two colons; `achd_parse_headers` reports a malformed header for
it.  The same happens for the message `a:b`. -/
theorem error_header_round_trip_counterexample :
    error_header_text sample_result_to_string ACH_BAD_HEADER "Invalid header: nosuchkey\n".toList
      = "status: 14 # ACH_ERROR\nmessage: Invalid header: nosuchkey\n\n".toList ∧
    achd_parse_headers
        (error_header_text sample_result_to_string ACH_BAD_HEADER
          "Invalid header: nosuchkey\n".toList) resp_init
      = .error (.error ACH_BAD_HEADER "malformed header\n".toList) ∧
    achd_parse_headers (error_header_text sample_result_to_string ACH_BAD_HEADER "a:b".toList)
        resp_init
      = .error (.error ACH_BAD_HEADER "malformed header\n".toList) :=
  ⟨by decide, rfl, rfl⟩

/-! ### The table of handlers -/

/-- C23: `achd_get_handler` returns the TCP push handler for every transport equal to
`tcp`, the case of ASCII letters ignored, with the direction push, and the TCP pull
handler for the same transports with the direction pull; for every transport that
equals neither `tcp` nor `udp`, for a missing transport and for an unset direction
it calls the error handler with the code `ACH_BAD_HEADER` and returns no handler. -/
theorem get_handler_dispatch :
    (∀ t : List Char, same_ignoring_case t "tcp".toList →
      achd_get_handler (some t) .ACHD_DIRECTION_PUSH = .ok .achd_push_tcp ∧
      achd_get_handler (some t) .ACHD_DIRECTION_PULL = .ok .achd_pull_tcp) ∧
    (∀ (t : List Char) (d : achd_direction), ¬ same_ignoring_case t "tcp".toList →
      ¬ same_ignoring_case t "udp".toList →
      ∃ msg, achd_get_handler (some t) d = .error (.error ACH_BAD_HEADER msg)) ∧
    (∀ d : achd_direction,
      achd_get_handler none d = .error (.error ACH_BAD_HEADER "No transport header".toList)) ∧
    (∀ t : Option (List Char),
      ∃ msg, achd_get_handler t .ACHD_DIRECTION_VOID = .error (.error ACH_BAD_HEADER msg)) := by
  have hsym : ∀ (a b : List Char), strcasecmp_eq a b = true ↔ same_ignoring_case b a := by
    intro a b
    unfold strcasecmp_eq same_ignoring_case
    rw [beq_iff_eq]
    exact eq_comm
  have hpush : ∀ t : List Char, achd_get_handler (some t) .ACHD_DIRECTION_PUSH
      = get_handler_loop t .ACHD_DIRECTION_PUSH handlers := fun _ => rfl
  have hpull : ∀ t : List Char, achd_get_handler (some t) .ACHD_DIRECTION_PULL
      = get_handler_loop t .ACHD_DIRECTION_PULL handlers := fun _ => rfl
  have hvoid : ∀ t : List Char, achd_get_handler (some t) .ACHD_DIRECTION_VOID
      = .error (.error ACH_BAD_HEADER "No direction header".toList) := fun _ => rfl
  refine ⟨?_, ?_, ?_, ?_⟩
  · intro t ht
    have h := (hsym "tcp".toList t).2 ht
    constructor
    · rw [hpush]
      unfold handlers
      rw [get_handler_loop, if_pos ⟨rfl, h⟩]
    · rw [hpull]
      unfold handlers
      rw [get_handler_loop, if_neg (fun hc => by cases hc.1), get_handler_loop,
        if_pos ⟨rfl, h⟩]
  · intro t d h1 h2
    have a : ¬ strcasecmp_eq "tcp".toList t = true := fun h => h1 ((hsym _ _).1 h)
    have b : ¬ strcasecmp_eq "udp".toList t = true := fun h => h2 ((hsym _ _).1 h)
    have hloop : get_handler_loop t d handlers = .error (.error ACH_BAD_HEADER
        "Requested transport or direction not found".toList) := by
      unfold handlers
      rw [get_handler_loop, if_neg (fun hc => a hc.2), get_handler_loop,
        if_neg (fun hc => a hc.2), get_handler_loop, if_neg (fun hc => b hc.2),
        get_handler_loop, if_neg (fun hc => b hc.2), get_handler_loop]
    cases d with
    | ACHD_DIRECTION_VOID => exact ⟨_, hvoid t⟩
    | ACHD_DIRECTION_PUSH => exact ⟨_, (hpush t).trans hloop⟩
    | ACHD_DIRECTION_PULL => exact ⟨_, (hpull t).trans hloop⟩
  · intro d; rfl
  · intro t
    cases t with
    | none => exact ⟨_, rfl⟩
    | some t => exact ⟨_, hvoid t⟩

theorem get_handler_dispatch_witness :
    achd_get_handler (some "TCP".toList) .ACHD_DIRECTION_PUSH = .ok .achd_push_tcp ∧
      achd_get_handler (some "TCP".toList) .ACHD_DIRECTION_PULL = .ok .achd_pull_tcp :=
  get_handler_dispatch.1 "TCP".toList (by decide)

/-! ### The capacity of the frame buffer -/

end Achd
